import Mathlib

/-!
Verification of the rail-debug diagnosis pipeline.

The Python sources under `src/` are shallowly embedded here: traces are
`List Char`, every string operation is an executable Lean function mirroring
the CPython semantics actually exercised by the code (ASCII whitespace,
`str.strip`, `str.splitlines`, `re` searches for the concrete patterns the
code uses), and each module of the pipeline (`core/context.py`,
`utils/normalize.py`, `core/chaining.py`, `core/batch.py`,
`core/analyzer.py`) becomes a namespace of computable definitions.
Theorems about the claims of the specification follow the definitions.
-/

set_option maxRecDepth 40000

namespace RailDebug

/-- A Python `str`, embedded as a list of characters. -/
abbrev Str := List Char

/-- ASCII whitespace, as recognised by Python's `str.strip()` and the regex
class `\s` on the inputs this program handles: space, tab, newline, carriage
return, vertical tab, form feed. -/
def isWs (c : Char) : Bool :=
  c == ' ' || c == '\t' || c == '\n' || c == '\r' || c == '\x0b' || c == '\x0c'

/-- `str.lstrip()`. -/
def lstrip (s : Str) : Str := s.dropWhile isWs

/-- `str.rstrip()`. -/
def rstrip (s : Str) : Str := (s.reverse.dropWhile isWs).reverse

/-- `str.strip()`. -/
def strip (s : Str) : Str := rstrip (lstrip s)

/-- Python truthiness of a stripped string: `bool(s.strip())`. -/
def stripNonempty (s : Str) : Bool := !(strip s).isEmpty

/-- `str.splitlines()`, for the line boundaries `\n`, `\r\n` and `\r`
(the only ones occurring in this program's inputs).  `acc` is the current
line accumulated in reverse. -/
def splitlinesGo (acc : Str) : Str → List Str
  | [] => if acc.isEmpty then [] else [acc.reverse]
  | '\r' :: '\n' :: rest => acc.reverse :: splitlinesGo [] rest
  | '\r' :: rest => acc.reverse :: splitlinesGo [] rest
  | '\n' :: rest => acc.reverse :: splitlinesGo [] rest
  | c :: rest => splitlinesGo (c :: acc) rest

/-- `str.splitlines()`. -/
def splitlines (s : Str) : List Str := splitlinesGo [] s

/-- `'\n'.join(lines)`. -/
def joinNL : List Str → Str
  | [] => []
  | [x] => x
  | x :: y :: xs => x ++ '\n' :: joinNL (y :: xs)

/-- `s[i:j]` (Python slice, clamping, non-negative indices). -/
def slice (s : Str) (i j : Nat) : Str := (s.take j).drop i

/-- `s[i:]`. -/
def sliceFrom (s : Str) (i : Nat) : Str := s.drop i

/-- Decidable `'0' <= c <= '9'` (regex `\d` on this program's inputs). -/
def isDigitC (c : Char) : Bool := '0' ≤ c && c ≤ '9'

/-- Regex `\S`: any non-whitespace character. -/
def isNonWs (c : Char) : Bool := !(isWs c)

/-- Regex `\w`: word character (ASCII letters, digits, underscore). -/
def isWordC (c : Char) : Bool :=
  ('a' ≤ c && c ≤ 'z') || ('A' ≤ c && c ≤ 'Z') || isDigitC c || c == '_'

/-- The literal `pat` occurs in `t` starting at index `p`. -/
def occursAt (pat t : Str) (p : Nat) : Bool := pat.isPrefixOf (t.drop p)

/-- The literal `pat` occurs somewhere in `t` (`pat in t` / `re.search` on a
literal pattern). -/
def containsSub (pat t : Str) : Bool :=
  (List.range (t.length + 1)).any (occursAt pat t)

/-- Index of the first non-whitespace character at or after `p` (end of the
maximal `\s*` run starting at `p`); `t.length` if all whitespace.  Fuel-based
so that the kernel can evaluate it. -/
def wsRunEndGo (t : Str) : Nat → Nat → Nat
  | 0, p => p
  | fuel + 1, p =>
    match t.drop p with
    | [] => p
    | c :: _ => if isWs c then wsRunEndGo t fuel (p + 1) else p

/-- End of the maximal whitespace run of `t` starting at index `p`. -/
def wsRunEnd (t : Str) (p : Nat) : Nat := wsRunEndGo t (t.length + 1 - p) p

/-- End of the maximal digit run of `t` starting at index `p`. -/
def digitRunEndGo (t : Str) : Nat → Nat → Nat
  | 0, p => p
  | fuel + 1, p =>
    match t.drop p with
    | [] => p
    | c :: _ => if isDigitC c then digitRunEndGo t fuel (p + 1) else p

/-- End of the maximal digit run of `t` starting at index `p`. -/
def digitRunEnd (t : Str) (p : Nat) : Nat := digitRunEndGo t (t.length + 1 - p) p

/-- Position `p` is a `re.MULTILINE` `^` anchor of `t`: the start of the text
or the position right after a `'\n'`. -/
def lineStart (t : Str) (p : Nat) : Bool :=
  p == 0 || ((t.drop (p - 1)).headD ' ' == '\n')

/-- `int(s)` for a non-empty digit string (used on regex `\d+` captures). -/
def parseNat (s : Str) : Nat := s.foldl (fun n c => n * 10 + (c.toNat - '0'.toNat)) 0

/-- `str.lower()` restricted to ASCII, as used by the solidity branch of
`_get_error_line`. -/
def lowerStr (s : Str) : Str :=
  s.map fun c => if 'A' ≤ c && c ≤ 'Z' then Char.ofNat (c.toNat + 32) else c

/-- Character of `t` at index `i`, NUL when out of range (NUL never occurs in
the patterns below, so an out-of-range read fails every comparison). -/
def charAt (t : Str) (i : Nat) : Char := (t.drop i).headD '\x00'

/-- Regex `.` (no-DOTALL): the slice contains no newline. -/
def noNl (s : Str) : Bool := s.all fun c => c != '\n'

-- ════════════════════════════════════════════════════════════════════════
-- src/core/context.py — language detection (LANGUAGE_SIGNATURES,
-- detect_language) and the source window reader (read_source_window)
-- ════════════════════════════════════════════════════════════════════════

/-- `re.search(r'Traceback \(most recent call last\)', t)`. -/
def sigPyTraceback (t : Str) : Bool :=
  containsSub "Traceback (most recent call last)".toList t

/-- `re.search(r'File ".+?", line \d+', t)`: literal `File "`, then at least
one non-newline character, then `", line `, then at least one digit. -/
def sigPyFileLine (t : Str) : Bool :=
  (List.range (t.length + 1)).any fun p =>
    occursAt "File \"".toList t p &&
    (List.range (t.length + 1)).any fun j =>
      decide (p + 6 < j) && noNl (slice t (p + 6) j) &&
      occursAt "\", line ".toList t j && isDigitC (charAt t (j + 8))

/-- `re.search(r'at\s+.+?\(.+?:\d+:\d+\)', t)`. -/
def sigNodeAtParen (t : Str) : Bool :=
  (List.range (t.length + 1)).any fun p =>
    occursAt "at".toList t p &&
    (List.range (t.length + 1)).any fun w =>
      decide (p + 2 < w) && decide (w ≤ t.length) &&
      (slice t (p + 2) w).all isWs &&
      (List.range (t.length + 1)).any fun a =>
        decide (w < a) && noNl (slice t w a) && charAt t a == '(' &&
        (List.range (t.length + 1)).any fun b =>
          decide (a + 1 < b) && noNl (slice t (a + 1) b) && charAt t b == ':' &&
          (decide (b + 1 < digitRunEnd t (b + 1)) &&
            charAt t (digitRunEnd t (b + 1)) == ':' &&
            (decide (digitRunEnd t (b + 1) + 1 <
                digitRunEnd t (digitRunEnd t (b + 1) + 1)) &&
              charAt t (digitRunEnd t (digitRunEnd t (b + 1) + 1)) == ')'))

/-- `re.search(r'at\s+\S+:\d+:\d+', t)`. -/
def sigNodeAtBare (t : Str) : Bool :=
  (List.range (t.length + 1)).any fun p =>
    occursAt "at".toList t p &&
    (List.range (t.length + 1)).any fun w =>
      decide (p + 2 < w) && decide (w ≤ t.length) &&
      (slice t (p + 2) w).all isWs &&
      (List.range (t.length + 1)).any fun j =>
        decide (w < j) && (slice t w j).all isNonWs && charAt t j == ':' &&
        (decide (j + 1 < digitRunEnd t (j + 1)) &&
          charAt t (digitRunEnd t (j + 1)) == ':' &&
          isDigitC (charAt t (digitRunEnd t (j + 1) + 1)))

/-- `re.search(r'Error:.*\n\s+at\s', t)`. -/
def sigNodeErrorAt (t : Str) : Bool :=
  (List.range (t.length + 1)).any fun p =>
    occursAt "Error:".toList t p &&
    (List.range (t.length + 1)).any fun j =>
      decide (p + 6 ≤ j) && noNl (slice t (p + 6) j) && charAt t j == '\n' &&
      (List.range (t.length + 1)).any fun w =>
        decide (j + 1 < w) && decide (w ≤ t.length) &&
        (slice t (j + 1) w).all isWs &&
        occursAt "at".toList t w && isWs (charAt t (w + 2))

/-- `re.search(r"thread '.*' panicked", t)`. -/
def sigRustPanicked (t : Str) : Bool :=
  (List.range (t.length + 1)).any fun p =>
    occursAt "thread '".toList t p &&
    (List.range (t.length + 1)).any fun j =>
      decide (p + 8 ≤ j) && noNl (slice t (p + 8) j) &&
      occursAt "' panicked".toList t j

/-- `re.search(r'\.rs:\d+:\d+', t)`. -/
def sigRustRsLine (t : Str) : Bool :=
  (List.range (t.length + 1)).any fun p =>
    occursAt ".rs:".toList t p &&
    (decide (p + 4 < digitRunEnd t (p + 4)) &&
      charAt t (digitRunEnd t (p + 4)) == ':' &&
      isDigitC (charAt t (digitRunEnd t (p + 4) + 1)))

/-- `re.search(r'stack backtrace:', t)`. -/
def sigRustBacktrace (t : Str) : Bool :=
  containsSub "stack backtrace:".toList t

/-- `re.search(r'goroutine \d+ \[', t)`. -/
def sigGoGoroutine (t : Str) : Bool :=
  (List.range (t.length + 1)).any fun p =>
    occursAt "goroutine ".toList t p &&
    (decide (p + 10 < digitRunEnd t (p + 10)) &&
      charAt t (digitRunEnd t (p + 10)) == ' ' &&
      charAt t (digitRunEnd t (p + 10) + 1) == '[')

/-- `re.search(r'\.go:\d+', t)`. -/
def sigGoFileLine (t : Str) : Bool :=
  (List.range (t.length + 1)).any fun p =>
    occursAt ".go:".toList t p && isDigitC (charAt t (p + 4))

/-- `re.search(r'panic:', t)`. -/
def sigGoPanic (t : Str) : Bool := containsSub "panic:".toList t

/-- `re.search(r'Exception in thread "', t)`. -/
def sigJavaThread (t : Str) : Bool :=
  containsSub "Exception in thread \"".toList t

/-- `re.search(r'at \S+\([\w$]+\.(?:java|kt):\d+\)', t)`. -/
def sigJavaAt (t : Str) : Bool :=
  (List.range (t.length + 1)).any fun p =>
    occursAt "at ".toList t p &&
    (List.range (t.length + 1)).any fun j =>
      decide (p + 3 < j) && (slice t (p + 3) j).all isNonWs &&
      charAt t j == '(' &&
      (List.range (t.length + 1)).any fun k =>
        decide (j + 1 < k) &&
        (slice t (j + 1) k).all (fun c => isWordC c || c == '$') &&
        charAt t k == '.' &&
        ((occursAt "java:".toList t (k + 1) &&
            decide (k + 6 < digitRunEnd t (k + 6)) &&
            charAt t (digitRunEnd t (k + 6)) == ')') ||
         (occursAt "kt:".toList t (k + 1) &&
            decide (k + 4 < digitRunEnd t (k + 4)) &&
            charAt t (digitRunEnd t (k + 4)) == ')'))

/-- `re.search(r'(?:java|kotlin)\.', t)`. -/
def sigJavaPkg (t : Str) : Bool :=
  containsSub "java.".toList t || containsSub "kotlin.".toList t

/-- `re.search(r'execution reverted', t)`. -/
def sigSolExecReverted (t : Str) : Bool :=
  containsSub "execution reverted".toList t

/-- `re.search(r'Transaction reverted', t)`. -/
def sigSolTxReverted (t : Str) : Bool :=
  containsSub "Transaction reverted".toList t

/-- `re.search(r'out of gas', t)`. -/
def sigSolOutOfGas (t : Str) : Bool := containsSub "out of gas".toList t

/-- `re.search(r'\.sol:\d+', t)`. -/
def sigSolFileLine (t : Str) : Bool :=
  (List.range (t.length + 1)).any fun p =>
    occursAt ".sol:".toList t p && isDigitC (charAt t (p + 5))

/-- `LANGUAGE_SIGNATURES` from src/core/context.py, in its declared (dict
insertion) order. -/
def LANGUAGE_SIGNATURES : List (String × List (Str → Bool)) :=
  [("python", [sigPyTraceback, sigPyFileLine]),
   ("node", [sigNodeAtParen, sigNodeAtBare, sigNodeErrorAt]),
   ("rust", [sigRustPanicked, sigRustRsLine, sigRustBacktrace]),
   ("go", [sigGoGoroutine, sigGoFileLine, sigGoPanic]),
   ("java", [sigJavaThread, sigJavaAt, sigJavaPkg]),
   ("solidity", [sigSolExecReverted, sigSolTxReverted, sigSolOutOfGas,
                 sigSolFileLine])]

/-- `if not scores: return "unknown"` / `return max(scores, key=scores.get)`
from `detect_language`: Python's `max` over dict keys keeps the earliest key
among ties (insertion order). -/
def pyDictMax (l : List (String × Nat)) : String :=
  match l with
  | [] => "unknown"
  | p :: ps =>
    (ps.foldl (fun best cur => if cur.2 > best.2 then cur else best) p).1

/-- `detect_language` from src/core/context.py: a dict of positive per-language
scores in declared order, then `max(scores, key=scores.get)`. -/
def detect_language (t : Str) : String :=
  pyDictMax ((LANGUAGE_SIGNATURES.map fun ls =>
    (ls.1, ls.2.countP fun s => s t)).filter fun p => 0 < p.2)

-- ── Reference form of the detector, and its equivalence ─────────────────

/-- Largest score in a scored-language list. -/
def maxSnd (l : List (String × Nat)) : Nat := l.foldr (fun p m => max p.2 m) 0

/-- Reference detector, following the specification's words: score each
language by the count of its matching signature regexes; return the language
with the highest count, ties broken by the declared order; `"unknown"` when no
signature of any language matches. -/
def detectSpecC8 (t : Str) : String :=
  let scores := LANGUAGE_SIGNATURES.map fun ls =>
    (ls.1, ls.2.countP fun s => s t)
  if maxSnd scores = 0 then "unknown"
  else
    match scores.find? fun q => q.2 = maxSnd scores with
    | some q => q.1
    | none => "unknown"

-- ── read_source_window (src/core/context.py) ────────────────────────────

/-- `SourceContext` dataclass from src/core/context.py.  The Python field
`exists` is called `file_exists` here (`exists` is a Lean keyword). -/
structure SourceContext where
  file_path : Str
  error_line : Nat
  start_line : Nat
  end_line : Nat
  source_lines : List Str
  file_exists : Bool
deriving DecidableEq

/-- Default context window `CONTEXT_RADIUS`. -/
def CONTEXT_RADIUS : Nat := 5

/-- `linecache.getline(path, i)` on an existing file: the 1-based `i`-th line
including its newline terminator, `""` out of range.  The file is modelled by
its list of lines (without terminators), which is what governs the only
observations `read_source_window` makes: emptiness tests and `rstrip`. -/
def getline (fileLines : List Str) (i : Nat) : Str :=
  if 1 ≤ i ∧ i ≤ fileLines.length then fileLines.getD (i - 1) [] ++ ['\n']
  else []

/-- The `for i in range(start, end + 1)` read loop of `read_source_window`:
append non-empty lines (rstripped) recording `actual_end = i`, and break at
the first empty read past `line_number`.  `fuel` bounds the iteration count
(`stop + 1 - i` at the call site). -/
def readWindowGo (fileLines : List Str) (line_number stop : Nat) :
    Nat → Nat → Nat → List Str × Nat
  | 0, _, ae => ([], ae)
  | fuel + 1, i, ae =>
    if i > stop then ([], ae)
    else
      let line := getline fileLines i
      if !line.isEmpty then
        let r := readWindowGo fileLines line_number stop fuel (i + 1) i
        (rstrip line :: r.1, r.2)
      else if i > line_number then ([], ae)
      else readWindowGo fileLines line_number stop fuel (i + 1) ae

/-- `read_source_window` from src/core/context.py.  `file` is `none` when
`os.path.isfile` is false.  `max(1, line_number - radius)` coincides with the
clamped Nat subtraction because the program's line numbers are parses of
`\d+` and hence non-negative. -/
def read_source_window (file : Option (List Str)) (file_path : Str)
    (line_number : Nat) (radius : Nat) : SourceContext :=
  let start := max 1 (line_number - radius)
  let stop := line_number + radius
  match file with
  | none =>
    { file_path := file_path, error_line := line_number, start_line := start,
      end_line := stop, source_lines := [], file_exists := false }
  | some fileLines =>
    let r := readWindowGo fileLines line_number stop (stop + 1 - start) start
      start
    { file_path := file_path, error_line := line_number, start_line := start,
      end_line := r.2, source_lines := r.1, file_exists := true }

-- ════════════════════════════════════════════════════════════════════════
-- src/utils/normalize.py — normalize_traceback
-- ════════════════════════════════════════════════════════════════════════

/-- `os.path.basename` (posix): the part after the last `'/'`. -/
def basename (s : Str) : Str := (s.reverse.takeWhile (fun c => c != '/')).reverse

/-- Character class `[a-zA-Z0-9_.-]` of the fallback pattern. -/
def isFallbackC (c : Char) : Bool := isWordC c || c == '.' || c == '-'

/-- Attempt of `re.search(r'File "([^"]+)", line (\d+),', line)` anchored at
position `p`: literal `File "`, a non-empty run of non-quote characters (the
greedy `[^"]+` must stop at the next quote), `", line `, a non-empty digit
run, and a comma.  Returns `(group1, group2)`. -/
def fileLineMatchAt (line : Str) (p : Nat) : Option (Str × Str) :=
  if occursAt "File \"".toList line p then
    let content := (line.drop (p + 6)).takeWhile (fun c => c != '"')
    if content.isEmpty then none
    else
      let q := p + 6 + content.length
      if occursAt "\", line ".toList line q then
        let digs := (line.drop (q + 8)).takeWhile isDigitC
        if digs.isEmpty then none
        else if charAt line (q + 8 + digs.length) == ',' then
          some (content, digs)
        else none
      else none
  else none

/-- `re.search(r'File "([^"]+)", line (\d+),', line)`: leftmost match. -/
def pySearchFileLine (line : Str) : Option (Str × Str) :=
  (List.range (line.length + 1)).findSome? (fileLineMatchAt line)

/-- Attempt of `re.search(r'([a-zA-Z0-9_.-]+):(\d+)', line)` anchored at
position `p`: a non-empty class run (greedy, must stop at the colon since the
class excludes `':'`), a colon, a non-empty digit run. -/
def fallbackMatchAt (line : Str) (p : Nat) : Option (Str × Str) :=
  let run := (line.drop p).takeWhile isFallbackC
  if run.isEmpty then none
  else if charAt line (p + run.length) == ':' then
    let digs := (line.drop (p + run.length + 1)).takeWhile isDigitC
    if digs.isEmpty then none else some (run, digs)
  else none

/-- `re.search(r'([a-zA-Z0-9_.-]+):(\d+)', line)`: leftmost match. -/
def fallbackSearch (line : Str) : Option (Str × Str) :=
  (List.range (line.length + 1)).findSome? (fallbackMatchAt line)

/-- One iteration of `normalize_traceback`'s `for line in lines` loop.  The
state is `(seen, normalized_lines)`; `seen` is Python's set (order
irrelevant, membership only).  Note the source runs the fallback branch even
when the Python branch matched, and its outer guard compares the bare
filename `match_fb.group(1)` against `seen`. -/
def normalizeLine (st : List Str × List Str) (line : Str) :
    List Str × List Str :=
  let st1 :=
    match pySearchFileLine line with
    | some (g1, g2) =>
      let key := basename g1 ++ ':' :: g2
      if st.1.contains key then st else (key :: st.1, st.2 ++ [key])
    | none => st
  match fallbackSearch line with
  | some (g1, g2) =>
    if st1.1.contains g1 then st1
    else
      let key := g1 ++ ':' :: g2
      if st1.1.contains key then st1 else (key :: st1.1, st1.2 ++ [key])
  | none => st1

/-- Result of `normalize_traceback`: `keys` is `normalized_lines`,
`canonical` is `norm_tb` (the newline join), `snippet` is `norm_tb[:500]`.
The returned `tb_hash` is `sha256(canonical)`, a function of `canonical`
alone, so equal canonicals give equal fingerprints. -/
structure Normalized where
  keys : List Str
  canonical : Str
  snippet : Str
deriving DecidableEq

/-- `normalize_traceback` from src/utils/normalize.py. -/
def normalize_traceback (tb : Str) : Normalized :=
  let lines := splitlines (strip tb)
  let keys := (lines.foldl normalizeLine ([], [])).2
  let canonical := joinNL keys
  { keys := keys, canonical := canonical, snippet := canonical.take 500 }

/-- A canonical key `filename:lineno` whose filename part consists purely of
fallback-class characters `[a-zA-Z0-9_.-]`.  Keys produced by the fallback
branch always have this shape; keys from the Python branch need not (their
basename may contain characters outside the class, such as spaces). -/
def goodKey (k : Str) : Bool :=
  let f := k.takeWhile (fun c => c != ':')
  let rest := k.drop f.length
  (!f.isEmpty) && f.all isFallbackC && (rest.headD ' ' == ':') &&
    (!(rest.drop 1).isEmpty) && (rest.drop 1).all isDigitC

-- ════════════════════════════════════════════════════════════════════════
-- src/core/chaining.py — exception chain parsing
-- ════════════════════════════════════════════════════════════════════════

/-- Sentence matched by `PY_DIRECT_CAUSE`. -/
def PY_DIRECT_CAUSE_LIT : Str :=
  "The above exception was the direct cause of the following exception:".toList

/-- Sentence matched by `PY_IMPLICIT_CONTEXT`. -/
def PY_IMPLICIT_CONTEXT_LIT : Str :=
  "During handling of the above exception, another exception occurred:".toList

/-- Token matched by `NODE_CAUSED_BY` and `RUST_CAUSED_BY`. -/
def CAUSED_BY_LIT : Str := "Caused by:".toList

/-- One `re` match `(m.start(), m.end(), relationship)` of a chain-separator
pattern, as collected by `_parse_python_chain`'s `boundaries` list. -/
structure Boundary where
  start : Nat
  stop : Nat
  rel : String
deriving DecidableEq

/-- Largest position `r ∈ [q, R]` at which `$` holds in MULTILINE mode
(`r = len(t)` or `t[r] = '\n'`); how the greedy trailing `\s*$` of the
separator patterns ends a match.  `none` when no such position exists. -/
def lastDollarGo (t : Str) (q : Nat) : Nat → Nat → Option Nat
  | 0, _ => none
  | fuel + 1, r =>
    if r == t.length || charAt t r == '\n' then some r
    else if r ≤ q then none
    else lastDollarGo t q fuel (r - 1)

/-- Greedy `\s*$` backoff from the whitespace-run end `R` down to `q`. -/
def lastDollar (t : Str) (q R : Nat) : Option Nat :=
  lastDollarGo t q (R + 1 - q) R

/-- Attempt of a chain-separator pattern at position `p`, covering the three
shapes used by chaining.py: `lead` is a leading `\s*` (the two Python
patterns), `dollar` is a trailing `\s*$` (the Python and Rust patterns;
`NODE_CAUSED_BY` ends with a bare greedy `\s*`).  In all shapes the `^`
anchor requires a line start, and the greedy sub-matches are forced because
the literal begins with a non-whitespace character.  Returns `m.end()`. -/
def sepMatchAt (lead dollar : Bool) (lit : Str) (t : Str) (p : Nat) :
    Option Nat :=
  if lineStart t p then
    let k := if lead then wsRunEnd t p else p
    if occursAt lit t k then
      let q := k + lit.length
      if dollar then lastDollar t q (wsRunEnd t q) else some (wsRunEnd t q)
    else none
  else none

/-- `re.finditer` for a chain-separator pattern: scan left to right, emit
non-overlapping matches, continue from each match end. -/
def finditerSepGo (lead dollar : Bool) (lit : Str) (rel : String) (t : Str) :
    Nat → Nat → List Boundary
  | 0, _ => []
  | fuel + 1, p =>
    if p > t.length then []
    else
      match sepMatchAt lead dollar lit t p with
      | some r =>
        if p < r then
          ⟨p, r, rel⟩ :: finditerSepGo lead dollar lit rel t fuel r
        else finditerSepGo lead dollar lit rel t fuel (p + 1)
      | none => finditerSepGo lead dollar lit rel t fuel (p + 1)

/-- `re.finditer` for a chain-separator pattern over all of `t`. -/
def finditerSep (lead dollar : Bool) (lit : Str) (rel : String) (t : Str) :
    List Boundary :=
  finditerSepGo lead dollar lit rel t (t.length + 1) 0

/-- `boundaries` of `_parse_python_chain`: all `PY_DIRECT_CAUSE` matches,
then all `PY_IMPLICIT_CONTEXT` matches, sorted by match start
(`boundaries.sort(key=lambda x: x[0])`; starts of distinct matches are
distinct, so stability is immaterial). -/
def pyChainBoundaries (t : Str) : List Boundary :=
  List.insertionSort (fun a b => a.start ≤ b.start)
    (finditerSep true true PY_DIRECT_CAUSE_LIT "direct_cause" t ++
      finditerSep true true PY_IMPLICIT_CONTEXT_LIT "implicit_context" t)

/-- `ChainLink` dataclass from src/core/chaining.py. -/
structure ChainLink where
  traceback_text : Str
  relationship : String
  index : Nat
deriving DecidableEq

/-- The boundary fold of `_parse_python_chain`: for each boundary, the text
since the previous boundary end becomes a link (when non-blank) carrying
`"root"` for the first boundary and the previous boundary's relationship
afterwards — `relNext` is exactly that value, updated to `b.rel` after each
boundary — and the text after the last boundary becomes the final link
carrying the last boundary's relationship. -/
def buildLinksGo (t : Str) (acc : List ChainLink) (prevEnd : Nat)
    (relNext : String) : List Boundary → List ChainLink
  | [] =>
    let finalBlock := strip (sliceFrom t prevEnd)
    if finalBlock.isEmpty then acc
    else acc ++ [⟨finalBlock, relNext, acc.length⟩]
  | b :: bs =>
    let block := strip (slice t prevEnd b.start)
    buildLinksGo t
      (if block.isEmpty then acc else acc ++ [⟨block, relNext, acc.length⟩])
      b.stop b.rel bs

/-- `_parse_python_chain` from src/core/chaining.py. -/
def parsePythonChain (t : Str) : List ChainLink :=
  let boundaries := pyChainBoundaries t
  if boundaries.isEmpty then [⟨strip t, "root", 0⟩]
  else buildLinksGo t [] 0 "root" boundaries

/-- `NODE_CAUSED_BY` matches: `^Caused by:\s*` (no trailing anchor). -/
def nodeCausedBySeps (t : Str) : List Boundary :=
  finditerSep false false CAUSED_BY_LIT "caused_by" t

/-- `RUST_CAUSED_BY` matches: `^Caused by:\s*$`. -/
def rustCausedBySeps (t : Str) : List Boundary :=
  finditerSep false true CAUSED_BY_LIT "caused_by" t

/-- `re.split`: the texts between consecutive matches (and around them). -/
def splitPartsGo (t : Str) (prevEnd : Nat) : List Boundary → List Str
  | [] => [sliceFrom t prevEnd]
  | b :: bs => slice t prevEnd b.start :: splitPartsGo t b.stop bs

/-- The `for i, part in enumerate(parts)` loop shared by `_parse_node_chain`
and `_parse_rust_chain`: strip each part, drop empties, `"root"` for part 0
and `"caused_by"` afterwards, `index = len(links)`. -/
def parseCausedGo (acc : List ChainLink) (i : Nat) :
    List Str → List ChainLink
  | [] => acc
  | part :: parts =>
    let s := strip part
    if s.isEmpty then parseCausedGo acc (i + 1) parts
    else
      parseCausedGo
        (acc ++ [⟨s, if i == 0 then "root" else "caused_by", acc.length⟩])
        (i + 1) parts

/-- `_parse_node_chain` from src/core/chaining.py (`len(parts) <= 1` is
exactly "no separator matches"). -/
def parseNodeChain (t : Str) : List ChainLink :=
  let bs := nodeCausedBySeps t
  if bs.isEmpty then [⟨strip t, "root", 0⟩]
  else parseCausedGo [] 0 (splitPartsGo t 0 bs)

/-- `_parse_rust_chain` from src/core/chaining.py. -/
def parseRustChain (t : Str) : List ChainLink :=
  let bs := rustCausedBySeps t
  if bs.isEmpty then [⟨strip t, "root", 0⟩]
  else parseCausedGo [] 0 (splitPartsGo t 0 bs)

/-- `ExceptionChain` dataclass (the fields the claims concern). -/
structure ExceptionChain where
  links : List ChainLink
  language : String
deriving DecidableEq

/-- `parse_exception_chain` from src/core/chaining.py. -/
def parse_exception_chain (t : Str) : ExceptionChain :=
  let lang := detect_language t
  if lang = "python" then ⟨parsePythonChain t, lang⟩
  else if lang = "node" then ⟨parseNodeChain t, lang⟩
  else if lang = "rust" then ⟨parseRustChain t, lang⟩
  else ⟨[⟨strip t, "root", 0⟩], lang⟩

/-- The text of the first segment (before the first separator, in source
order) is blank.  This is the degenerate situation in which
`_parse_python_chain` / `_parse_node_chain` / `_parse_rust_chain` drop the
would-be root link. -/
def firstSegmentBlank (t : Str) : Bool :=
  let lang := detect_language t
  if lang = "python" then
    match pyChainBoundaries t with
    | [] => false
    | b :: _ => (strip (slice t 0 b.start)).isEmpty
  else if lang = "node" then
    match nodeCausedBySeps t with
    | [] => false
    | b :: _ => (strip (slice t 0 b.start)).isEmpty
  else if lang = "rust" then
    match rustCausedBySeps t with
    | [] => false
    | b :: _ => (strip (slice t 0 b.start)).isEmpty
  else false

-- ════════════════════════════════════════════════════════════════════════
-- src/core/batch.py — multi-error extraction
-- ════════════════════════════════════════════════════════════════════════

/-- Literal of `PY_TB_START`. -/
def PY_TB_START_LIT : Str := "Traceback (most recent call last):".toList

/-- `[m.start() for m in PY_TB_START.finditer(text)]`: the literal contains no
newline, so matches at distinct line starts never overlap and `finditer`
yields exactly the anchored occurrences. -/
def pyTbStarts (t : Str) : List Nat :=
  (List.range (t.length + 1)).filter fun p =>
    lineStart t p && occursAt PY_TB_START_LIT t p

/-- `PY_CHAIN_SEP.search(s)`:
`^\s*(?:The above exception was the direct cause|During handling of the above exception)`
in MULTILINE mode; the leading greedy `\s*` is forced to stop where the
non-whitespace alternative begins. -/
def pyChainSepSearch (s : Str) : Bool :=
  (List.range (s.length + 1)).any fun p =>
    lineStart s p &&
    (occursAt "The above exception was the direct cause".toList s
        (wsRunEnd s p) ||
      occursAt "During handling of the above exception".toList s
        (wsRunEnd s p))

/-- Grouping loop of `_extract_python_blocks`: adjacent traceback starts with
a chain separator between them stay in one group. -/
def pyGroupsGo (t : Str) (currentStart prev : Nat) :
    List Nat → List (Nat × Nat)
  | [] => [(currentStart, t.length)]
  | s :: ss =>
    if pyChainSepSearch (slice t prev s) then pyGroupsGo t currentStart s ss
    else (currentStart, s) :: pyGroupsGo t s s ss

/-- ASCII letter. -/
def isAlphaC (c : Char) : Bool := ('a' ≤ c && c ≤ 'z') || ('A' ≤ c && c ≤ 'Z')

/-- `ERROR_LINE.match(s)`: `^[A-Za-z][\w.]*(?:Error|Exception|Warning|Exit).*:`
anchored at the start of the (already stripped, single-line) string. -/
def errorLineMatch (s : Str) : Bool :=
  match s with
  | [] => false
  | c :: _ =>
    isAlphaC c &&
    (List.range (s.length + 1)).any fun k =>
      decide (1 ≤ k) &&
      (slice s 1 k).all (fun c => isWordC c || c == '.') &&
      ((occursAt "Error".toList s k && (s.drop (k + 5)).contains ':') ||
        (occursAt "Exception".toList s k && (s.drop (k + 9)).contains ':') ||
        (occursAt "Warning".toList s k && (s.drop (k + 7)).contains ':') ||
        (occursAt "Exit".toList s k && (s.drop (k + 4)).contains ':'))

/-- Break condition of `_trim_trailing_noise`'s bottom-up scan on a raw line:
a stripped line matching `ERROR_LINE`, or one whose *stripped* form starts
with `"File "` or `"  "` (the latter can never hold after stripping; it is
kept verbatim from the source). -/
def lineIsNoiseStop (l : Str) : Bool :=
  let stripped := strip l
  (!stripped.isEmpty && errorLineMatch stripped) ||
    ("File ".toList.isPrefixOf stripped || "  ".toList.isPrefixOf stripped)

/-- Index at which `_trim_trailing_noise`'s reverse scan breaks: the largest
line index satisfying the break condition, `none` when the loop never breaks
(in which case `last_error_idx` keeps its initial value `len(lines) - 1`). -/
def lastStopIdx (lines : List Str) : Option Nat :=
  match lines.reverse.findIdx? lineIsNoiseStop with
  | some j => some (lines.length - 1 - j)
  | none => none

/-- `_trim_trailing_noise` from src/core/batch.py. -/
def trimTrailingNoise (block : Str) : Str :=
  let lines := splitlines block
  if lines.isEmpty then block
  else
    let idx := (lastStopIdx lines).getD (lines.length - 1)
    joinNL (lines.take (idx + 1))

/-- `_extract_python_blocks` from src/core/batch.py. -/
def extractPythonBlocks (t : Str) (starts : List Nat) : List Str :=
  match starts with
  | [] => []
  | s0 :: rest =>
    ((pyGroupsGo t s0 s0 rest).map fun g =>
      trimTrailingNoise (strip (slice t g.1 g.2))).filter fun b => !b.isEmpty

/-- Tail `.+\n\s+at\s` of `NODE_ERROR_START` starting at `g0`. -/
def nodeStartTail (t : Str) (g0 : Nat) : Bool :=
  (List.range (t.length + 1)).any fun j =>
    decide (g0 < j) && noNl (slice t g0 j) && charAt t j == '\n' &&
    (List.range (t.length + 1)).any fun w =>
      decide (j + 1 < w) && decide (w ≤ t.length) &&
      (slice t (j + 1) w).all isWs &&
      occursAt "at".toList t w && isWs (charAt t (w + 2))

/-- One anchored attempt of `NODE_ERROR_START`
(`^([A-Z]\w*(?:Error|Exception)): .+\n\s+at\s`). -/
def nodeErrorStartAt (t : Str) (p : Nat) : Bool :=
  lineStart t p && ('A' ≤ charAt t p && charAt t p ≤ 'Z') &&
  (List.range (t.length + 1)).any fun k =>
    decide (p + 1 ≤ k) && (slice t (p + 1) k).all isWordC &&
    ((occursAt "Error: ".toList t k &&
        nodeStartTail t (k + 7)) ||
      (occursAt "Exception: ".toList t k &&
        nodeStartTail t (k + 11)))

/-- `NODE_ERROR_START` matches never start inside one another (the line after
the error line begins with whitespace), so `finditer` starts are exactly the
anchored occurrences. -/
def nodeStarts (t : Str) : List Nat :=
  (List.range (t.length + 1)).filter (nodeErrorStartAt t)

/-- `^thread '.*' panicked at` anchored attempt (`RUST_PANIC_START`). -/
def rustStartAt (t : Str) (p : Nat) : Bool :=
  lineStart t p && occursAt "thread '".toList t p &&
  (List.range (t.length + 1)).any fun j =>
    decide (p + 8 ≤ j) && noNl (slice t (p + 8) j) &&
    occursAt "' panicked at".toList t j

/-- `RUST_PANIC_START` finditer starts. -/
def rustStarts (t : Str) : List Nat :=
  (List.range (t.length + 1)).filter (rustStartAt t)

/-- `_extract_generic_blocks` from src/core/batch.py. -/
def extractGenericBlocksGo (t : Str) : List Nat → List Str
  | [] => []
  | [s] => [trimTrailingNoise (strip (sliceFrom t s))]
  | s :: s' :: ss =>
    trimTrailingNoise (strip (slice t s s')) :: extractGenericBlocksGo t (s' :: ss)

/-- `_extract_generic_blocks`, including the `if block:` filter. -/
def extractGenericBlocks (t : Str) (starts : List Nat) : List Str :=
  (extractGenericBlocksGo t starts).filter fun b => !b.isEmpty

/-- `extract_tracebacks` from src/core/batch.py. -/
def extract_tracebacks (t : Str) : List Str :=
  let py := pyTbStarts t
  if !py.isEmpty then extractPythonBlocks t py
  else
    let node := nodeStarts t
    if !node.isEmpty then extractGenericBlocks t node
    else
      let rust := rustStarts t
      if !rust.isEmpty then extractGenericBlocks t rust
      else []

-- ════════════════════════════════════════════════════════════════════════
-- src/core/analyzer.py — pattern tables, error-line extraction, location
-- extraction, pattern matching, and the cascading `analyze`
-- ════════════════════════════════════════════════════════════════════════

/-- A token of the linear regex shapes used by the analyzer's pattern
tables: a literal, a one-or-more character-class run `(cls+)` (greedy or
lazy, capturing or not), or an alternation of literals. -/
inductive Tok where
  | lit (s : Str)
  | grp (cls : Char → Bool) (lazy : Bool) (capture : Bool)
  | altLit (options : List Str) (capture : Bool)

/-- Backtracking matcher for a token sequence anchored at position `p`.
Returns the captured groups and the match end.  Greedy runs try the longest
candidate first, lazy runs the shortest; alternations try options left to
right — CPython's `re` order. -/
def matchToksFrom (t : Str) : List Tok → Nat → Option (List Str × Nat)
  | [], p => some ([], p)
  | .lit s :: rest, p =>
    if occursAt s t p then matchToksFrom t rest (p + s.length) else none
  | .grp cls lzy capture :: rest, p =>
    let m := ((t.drop p).takeWhile cls).length
    let cands := (List.range m).map (· + 1)
    (if lzy then cands else cands.reverse).findSome? fun len =>
      (matchToksFrom t rest (p + len)).map fun r =>
        (if capture then slice t p (p + len) :: r.1 else r.1, r.2)
  | .altLit options capture :: rest, p =>
    options.findSome? fun o =>
      if occursAt o t p then
        (matchToksFrom t rest (p + o.length)).map fun r =>
          (if capture then o :: r.1 else r.1, r.2)
      else none

/-- `re.search` for a token sequence: leftmost match's groups. -/
def searchToks (toks : List Tok) (t : Str) : Option (List Str) :=
  ((List.range (t.length + 1)).findSome? (matchToksFrom t toks)).map (·.1)

/-- `re.findall` for a token sequence: non-overlapping matches, left to
right. -/
def findallToksGo (t : Str) (toks : List Tok) : Nat → Nat → List (List Str)
  | 0, _ => []
  | fuel + 1, p =>
    if p > t.length then []
    else
      match matchToksFrom t toks p with
      | some (gs, e) =>
        if p < e then gs :: findallToksGo t toks fuel e
        else findallToksGo t toks fuel (p + 1)
      | none => findallToksGo t toks fuel (p + 1)

/-- `re.findall` for a token sequence. -/
def findallToks (toks : List Tok) (t : Str) : List (List Str) :=
  findallToksGo t toks (t.length + 1) 0

/-- Group accessor for template substitution (`{m1}` is index 0). -/
def g (i : Nat) (gs : List Str) : Str := gs.getD i []

/-- Shorthand: regex `.` class. -/
def dotC (c : Char) : Bool := c != '\n'

/-- One entry of a pattern table: the compiled search, the two templates
(functions of the captured groups, mirroring `.format(**groups)`), and the
fixed severity. -/
structure PatternEntry where
  search : Str → Option (List Str)
  root_cause : List Str → Str
  suggested_fix : List Str → Str
  severity : String

/-- Successful `_match_pattern` result. -/
structure Matched where
  root_cause : Str
  suggested_fix : Str
  severity : String
deriving DecidableEq

/-- `KNOWN_PATTERNS` (Python) from src/core/analyzer.py, in declaration
order. -/
def KNOWN_PATTERNS : List PatternEntry :=
  [⟨searchToks [.lit "ModuleNotFoundError: No module named '".toList,
      .grp isNonWs false true, .lit "'".toList],
    fun gs => "Missing dependency: ".toList ++ g 0 gs,
    fun gs => "Run: pip install ".toList ++ g 0 gs, "high"⟩,
   ⟨searchToks [.lit "ImportError: cannot import name '".toList,
      .grp isNonWs false true, .lit "' from '".toList,
      .grp isNonWs false true, .lit "'".toList],
    fun gs => "Bad import — '".toList ++ g 0 gs ++
      "' doesn't exist in '".toList ++ g 1 gs ++
      "' (version mismatch or typo)".toList,
    fun _ => "Check package version or fix import name".toList, "high"⟩,
   ⟨searchToks [.lit "KeyError: ".toList, .grp dotC false true],
    fun gs => "Accessed missing dict key: ".toList ++ g 0 gs,
    fun gs => "Use .get(".toList ++ g 0 gs ++
      ", default) or check key existence first".toList, "medium"⟩,
   ⟨searchToks [.lit "TypeError: ".toList, .grp dotC false true,
      .lit " got an unexpected keyword argument '".toList,
      .grp isNonWs false true, .lit "'".toList],
    fun gs => "Function ".toList ++ g 0 gs ++
      " doesn't accept kwarg '".toList ++ g 1 gs ++ "'".toList,
    fun _ => "Check function signature — likely API change or typo".toList,
    "medium"⟩,
   ⟨searchToks [.lit "FileNotFoundError: [Errno 2] No such file or directory: '".toList,
      .grp dotC false true, .lit "'".toList],
    fun gs => "Missing file: ".toList ++ g 0 gs,
    fun _ => "Verify path exists or create the file/directory".toList,
    "high"⟩,
   ⟨searchToks [.lit "ConnectionRefusedError".toList],
    fun _ => "Service unreachable — connection refused".toList,
    fun _ => "Check if the target service is running and port is correct".toList,
    "critical"⟩,
   ⟨searchToks [.lit "PermissionError".toList],
    fun _ => "Insufficient file/process permissions".toList,
    fun _ => "Check file ownership and permissions (chmod/chown)".toList,
    "critical"⟩,
   ⟨searchToks [.lit "ZeroDivisionError".toList],
    fun _ => "Division by zero".toList,
    fun _ => "Add guard: check denominator != 0 before dividing".toList,
    "medium"⟩,
   ⟨searchToks [.lit "AttributeError: '".toList, .grp isNonWs false true,
      .lit "' object has no attribute '".toList, .grp isNonWs false true,
      .lit "'".toList],
    fun gs => "'".toList ++ g 0 gs ++ "' has no attribute '".toList ++
      g 1 gs ++ "' — likely None or wrong type".toList,
    fun _ => "Add type check or verify object initialization".toList,
    "medium"⟩]

/-- Hand-compiled `ECONNREFUSED.+?(\d+\.\d+\.\d+\.\d+:\d+|\S+:\d+)`: its
capturing alternation of sequences is beyond the linear token shape.  The
first alternative is an IPv4:port, the second any `\S+:port`; the lazy gap
before the group takes the first position where either alternative
matches. -/
def econnrefusedSearch (t : Str) : Option (List Str) :=
  (List.range (t.length + 1)).findSome? fun p =>
    if occursAt "ECONNREFUSED".toList t p then
      (List.range (t.length + 1)).findSome? fun q =>
        if decide (p + 12 < q) && noNl (slice t (p + 12) q) then
          match matchToksFrom t [.grp isDigitC false false, .lit ".".toList,
            .grp isDigitC false false, .lit ".".toList,
            .grp isDigitC false false, .lit ".".toList,
            .grp isDigitC false false, .lit ":".toList,
            .grp isDigitC false false] q with
          | some r => some [slice t q r.2]
          | none =>
            match matchToksFrom t [.grp isNonWs false false, .lit ":".toList,
              .grp isDigitC false false] q with
            | some r => some [slice t q r.2]
            | none => none
        else none
    else none

/-- `NODE_PATTERNS` from src/core/analyzer.py. -/
def NODE_PATTERNS : List PatternEntry :=
  [⟨searchToks [.lit "Error: Cannot find module '".toList,
      .grp dotC true true, .lit "'".toList],
    fun gs => "Missing Node module: ".toList ++ g 0 gs,
    fun gs => "Run: npm install ".toList ++ g 0 gs, "high"⟩,
   ⟨searchToks [.lit "TypeError: Cannot read propert".toList,
      .altLit ["y".toList, "ies".toList] false, .lit " of ".toList,
      .altLit ["undefined".toList, "null".toList] true],
    fun gs => "Accessed property on ".toList ++ g 0 gs ++
      " — object not initialized or missing".toList,
    fun _ => "Add null check or optional chaining (?.) before access".toList,
    "high"⟩,
   ⟨searchToks [.lit "TypeError: ".toList, .grp dotC true true,
      .lit " is not a function".toList],
    fun gs => g 0 gs ++ " is not callable — wrong type or undefined import".toList,
    fun _ => "Verify import/require path and that the export is a function".toList,
    "high"⟩,
   ⟨searchToks [.lit "ReferenceError: ".toList, .grp isNonWs false true,
      .lit " is not defined".toList],
    fun gs => "Undeclared variable: ".toList ++ g 0 gs,
    fun gs => "Declare '".toList ++ g 0 gs ++ "' with let/const or check import".toList,
    "medium"⟩,
   ⟨searchToks [.lit "SyntaxError: Unexpected token ".toList,
      .grp dotC false true],
    fun gs => "Syntax error — unexpected token: ".toList ++ g 0 gs,
    fun _ => "Check for missing brackets, commas, or mismatched quotes near the error".toList,
    "high"⟩,
   ⟨searchToks [.lit "RangeError: Maximum call stack size exceeded".toList],
    fun _ => "Infinite recursion — call stack overflow".toList,
    fun _ => "Add base case to recursive function or convert to iterative".toList,
    "critical"⟩,
   ⟨econnrefusedSearch,
    fun gs => "Connection refused to ".toList ++ g 0 gs,
    fun _ => "Verify target service is running and port is correct".toList,
    "critical"⟩,
   ⟨searchToks [.lit "ENOENT".toList, .grp dotC true false, .lit "'".toList,
      .grp dotC true true, .lit "'".toList],
    fun gs => "File/path not found: ".toList ++ g 0 gs,
    fun _ => "Verify path exists — check cwd and relative path resolution".toList,
    "high"⟩]

/-- `RUST_PATTERNS` from src/core/analyzer.py. -/
def RUST_PATTERNS : List PatternEntry :=
  [⟨searchToks [.lit "thread '".toList, .grp dotC true true,
      .lit "' panicked at '".toList, .grp dotC true true, .lit "'".toList],
    fun gs => "Thread '".toList ++ g 0 gs ++ "' panicked: ".toList ++ g 1 gs,
    fun _ => "Handle the error with Result/Option instead of unwrap/expect".toList,
    "critical"⟩,
   ⟨searchToks [.lit "called `Option::unwrap()` on a `None` value".toList],
    fun _ => "Unwrapped None — Option was empty".toList,
    fun _ => "Use match/if-let or unwrap_or_default() instead of bare unwrap()".toList,
    "critical"⟩,
   ⟨searchToks [.lit "called `Result::unwrap()` on an `Err` value: ".toList,
      .grp dotC false true],
    fun gs => "Unwrapped Err: ".toList ++ g 0 gs,
    fun _ => "Propagate with ? operator or handle with match/unwrap_or_else".toList,
    "critical"⟩,
   ⟨searchToks [.lit "index out of bounds: the len is ".toList,
      .grp isDigitC false true, .lit " but the index is ".toList,
      .grp isDigitC false true],
    fun gs => "Index out of bounds — length ".toList ++ g 0 gs ++
      ", tried index ".toList ++ g 1 gs,
    fun _ => "Use .get() for safe access or validate index before access".toList,
    "high"⟩,
   ⟨searchToks [.lit "borrow of moved value: `".toList,
      .grp isNonWs false true, .lit "`".toList],
    fun gs => "Used moved value '".toList ++ g 0 gs ++
      "' — ownership already transferred".toList,
    fun _ => "Clone before move, use references, or restructure ownership".toList,
    "high"⟩,
   ⟨searchToks [.lit "cannot borrow `".toList, .grp isNonWs false true,
      .lit "` as mutable ".toList, .grp dotC false false,
      .lit " already borrowed as immutable".toList],
    fun gs => "Borrow conflict on '".toList ++ g 0 gs ++
      "' — simultaneous mutable + immutable borrow".toList,
    fun _ => "Restructure to separate borrow scopes or use RefCell/Cell".toList,
    "high"⟩]

/-- `GO_PATTERNS` from src/core/analyzer.py. -/
def GO_PATTERNS : List PatternEntry :=
  [⟨searchToks [.lit "panic: runtime error: integer divide by zero".toList],
    fun _ => "Division by zero at runtime".toList,
    fun _ => "Guard before dividing: if divisor == 0 { return/error }".toList,
    "critical"⟩,
   ⟨searchToks [.lit "panic: runtime error: index out of range [".toList,
      .grp isDigitC false true, .lit "] with length ".toList,
      .grp isDigitC false true],
    fun gs => "Index out of range — accessed index ".toList ++ g 0 gs ++
      ", slice length is ".toList ++ g 1 gs,
    fun _ => "Validate index before access: if i < len(slice) { ... }".toList,
    "critical"⟩,
   ⟨searchToks [.lit "panic: runtime error: invalid memory address or nil pointer dereference".toList],
    fun _ => "Nil pointer dereference — dereferenced an uninitialized pointer".toList,
    fun _ => "Check for nil before use: if ptr != nil { ... }".toList,
    "critical"⟩,
   ⟨searchToks [.lit "panic: ".toList, .grp dotC false true],
    fun gs => "Go panic: ".toList ++ g 0 gs,
    fun _ => "Use defer/recover for panic recovery, or fix the underlying condition".toList,
    "critical"⟩,
   ⟨searchToks [.lit "all goroutines are asleep - deadlock!".toList],
    fun _ => "Goroutine deadlock — all goroutines blocked waiting on each other".toList,
    fun _ => "Check channel send/receive symmetry and mutex lock/unlock pairs".toList,
    "critical"⟩,
   ⟨searchToks [.lit "interface conversion: interface {} is ".toList,
      .grp dotC true true, .lit ", not ".toList, .grp dotC false true],
    fun gs => "Type assertion failed — value is ".toList ++ g 0 gs ++
      ", expected ".toList ++ g 1 gs,
    fun _ => "Use two-value assertion: v, ok := x.({type}); if !ok { handle }".toList,
    "high"⟩]

/-- `JAVA_PATTERNS` from src/core/analyzer.py. -/
def JAVA_PATTERNS : List PatternEntry :=
  [⟨searchToks [.lit "java.lang.NullPointerException".toList],
    fun _ => "Null pointer exception — method or field accessed on null object".toList,
    fun _ => "Add null check before use, or use Optional<> for nullable values".toList,
    "critical"⟩,
   ⟨searchToks [.lit "java.lang.ArrayIndexOutOfBoundsException: Index ".toList,
      .grp isDigitC false true, .lit " out of bounds for length ".toList,
      .grp isDigitC false true],
    fun gs => "Array index ".toList ++ g 0 gs ++
      " out of bounds — array length is ".toList ++ g 1 gs,
    fun _ => "Check index < array.length before access".toList, "high"⟩,
   ⟨searchToks [.lit "java.lang.ClassCastException: class ".toList,
      .grp dotC true true, .lit " cannot be cast to class ".toList,
      .grp dotC true true],
    fun gs => "Cannot cast ".toList ++ g 0 gs ++ " to ".toList ++ g 1 gs ++
      " — incompatible types".toList,
    fun _ => "Use instanceof check before casting: if (obj instanceof TargetType t) { ... }".toList,
    "high"⟩,
   ⟨searchToks [.lit "java.lang.StackOverflowError".toList],
    fun _ => "Stack overflow — infinite or excessively deep recursion".toList,
    fun _ => "Add base case to recursive method or convert to iterative with explicit stack".toList,
    "critical"⟩,
   ⟨searchToks [.lit "java.lang.OutOfMemoryError: Java heap space".toList],
    fun _ => "JVM heap exhausted — insufficient memory for allocation".toList,
    fun _ => "Increase heap with -Xmx flag, fix memory leaks, or reduce object retention".toList,
    "critical"⟩,
   ⟨searchToks [.lit "java.io.FileNotFoundException: ".toList,
      .grp dotC false true],
    fun gs => "File not found: ".toList ++ g 0 gs,
    fun _ => "Verify file path — check working directory and path separators".toList,
    "high"⟩,
   ⟨searchToks [.lit "java.util.ConcurrentModificationException".toList],
    fun _ => "Collection modified while iterating — concurrent modification detected".toList,
    fun _ => "Use Iterator.remove() or CopyOnWriteArrayList for safe concurrent iteration".toList,
    "high"⟩,
   ⟨searchToks [.lit "java.lang.IllegalArgumentException: ".toList,
      .grp dotC false true],
    fun gs => "Illegal argument: ".toList ++ g 0 gs,
    fun _ => "Validate input before passing to the method".toList, "medium"⟩,
   ⟨searchToks [.lit "kotlin.KotlinNullPointerException".toList],
    fun _ => "Kotlin null pointer exception — non-null type received null value".toList,
    fun _ => "Use nullable type (Type?) with safe call (?.) or Elvis operator (?:)".toList,
    "critical"⟩,
   ⟨searchToks [.lit "kotlin.UninitializedPropertyAccessException: ".toList,
      .grp dotC false true],
    fun gs => "Property accessed before initialization: ".toList ++ g 0 gs,
    fun _ => "Ensure lateinit var is initialized before access, or switch to lazy { }".toList,
    "high"⟩]

/-- Hand-compiled
`revert(?:ed)?\s+(?:with reason string\s+)?['\"](.+?)['\"]`: optional pieces
and a single-character class are beyond the linear token shape.  `revert`,
optionally `ed`, whitespace, optionally `with reason string` plus
whitespace, a quote, the lazy reason, a quote. -/
def revertReasonSearch (t : Str) : Option (List Str) :=
  (List.range (t.length + 1)).findSome? fun p =>
    if occursAt "revert".toList t p then
      let afterEd := if occursAt "ed".toList t (p + 6) then p + 8 else p + 6
      let w := wsRunEnd t afterEd
      if decide (afterEd < w) then
        let w2 :=
          if occursAt "with reason string".toList t w then
            let w' := wsRunEnd t (w + 18)
            if decide (w + 18 < w') then w' else w
          else w
        if charAt t w2 == '\'' || charAt t w2 == '"' then
          (List.range (t.length + 1)).findSome? fun e =>
            if decide (w2 + 1 < e) && noNl (slice t (w2 + 1) e) &&
                (charAt t e == '\'' || charAt t e == '"') then
              some [slice t (w2 + 1) e]
            else none
        else none
      else none
    else none

/-- `SOLIDITY_PATTERNS` from src/core/analyzer.py. -/
def SOLIDITY_PATTERNS : List PatternEntry :=
  [⟨revertReasonSearch,
    fun gs => "Transaction reverted: ".toList ++ g 0 gs,
    fun _ => "Check the require/revert condition — caller must meet contract preconditions".toList,
    "critical"⟩,
   ⟨searchToks [.lit "Transaction reverted without a reason".toList],
    fun _ => "Transaction reverted with no reason string — bare revert() or failed require(false)".toList,
    fun _ => "Add descriptive reason to require(): require(condition, 'Descriptive reason')".toList,
    "critical"⟩,
   ⟨searchToks [.lit "out of gas".toList],
    fun _ => "Transaction ran out of gas".toList,
    fun _ => "Increase gas limit, optimize loops/storage ops, or use estimateGas first".toList,
    "critical"⟩,
   ⟨searchToks [.lit "invalid opcode".toList],
    fun _ => "Invalid EVM opcode — usually a failing assert() or division by zero in Solidity < 0.8".toList,
    fun _ => "Check assert() conditions and division-by-zero guards in the contract".toList,
    "critical"⟩,
   ⟨searchToks [.lit "execution reverted".toList],
    fun _ => "EVM execution reverted — a require(), revert(), or assert() condition failed".toList,
    fun _ => "Inspect the failing condition — add reason strings to require() for easier debugging".toList,
    "critical"⟩,
   ⟨searchToks [.lit "SafeMath: ".toList, .grp dotC false true],
    fun gs => "SafeMath overflow/underflow: ".toList ++ g 0 gs,
    fun _ => "Solidity >= 0.8 has built-in overflow protection. For older versions, upgrade or use checked arithmetic".toList,
    "critical"⟩,
   ⟨searchToks [.lit "caller is not the owner".toList],
    fun _ => "Access control failure — caller is not the contract owner".toList,
    fun _ => "Ensure the calling address is the contract owner, or review onlyOwner modifier logic".toList,
    "critical"⟩]

-- ── _get_error_line ─────────────────────────────────────────────────────

/-- `re.search(r'Exception in thread "[^"]+" (.+)', line)` on a stripped
(single) line, returning group 1. -/
def javaThreadSearch (l : Str) : Option Str :=
  (List.range (l.length + 1)).findSome? fun p =>
    if occursAt "Exception in thread \"".toList l p then
      let content := (l.drop (p + 21)).takeWhile (fun c => c != '"')
      if content.isEmpty then none
      else
        let q := p + 21 + content.length
        if occursAt "\" ".toList l q then
          let grp := l.drop (q + 2)
          if grp.isEmpty then none else some grp
        else none
    else none

/-- The Java branch of `_get_error_line`: first line that is (stripped) an
exception-class line or an `Exception in thread` line; `lines[0].strip()`
otherwise. -/
def javaErrLineGo (dflt : Str) : List Str → Str
  | [] => dflt
  | l :: ls =>
    let s := strip l
    if "java.".toList.isPrefixOf s || "kotlin.".toList.isPrefixOf s ||
        "android.".toList.isPrefixOf s then s
    else
      match javaThreadSearch s with
      | some grp => grp
      | none => javaErrLineGo dflt ls

/-- Solidity branch keyword test: any of the four keywords occurs in
`line.lower()`. -/
def solKwLine (l : Str) : Bool :=
  let low := lowerStr l
  containsSub "revert".toList low || containsSub "out of gas".toList low ||
    containsSub "invalid opcode".toList low ||
    containsSub "execution reverted".toList low

/-- `_get_error_line` from src/core/analyzer.py. -/
def getErrorLine (t : Str) (lang : String) : Str :=
  let lines := (splitlines (strip t)).filter fun l => !(strip l).isEmpty
  match lines with
  | [] => []
  | l0 :: _ =>
    if lang = "go" then
      match lines.find? (fun l => "panic:".toList.isPrefixOf (strip l)) with
      | some l => strip l
      | none => strip l0
    else if lang = "java" then javaErrLineGo (strip l0) lines
    else if lang = "solidity" then
      match lines.find? (fun l => solKwLine (strip l)) with
      | some l => strip l
      | none => strip l0
    else lines.getLastD []

/-- `error_line.partition(":")` step of `analyze`: (error_type,
error_message), both stripped. -/
def splitErrorLine (el : Str) : Str × Str :=
  if el.contains ':' then
    (strip (el.takeWhile (fun c => c != ':')),
      strip ((el.dropWhile (fun c => c != ':')).drop 1))
  else (strip el, [])

-- ── _extract_location ───────────────────────────────────────────────────

/-- `re.findall(r'File "(.+?)", line (\d+), in (.+)', t)`. -/
def pyLocFindall (t : Str) : List (List Str) :=
  findallToks [.lit "File \"".toList, .grp dotC true true,
    .lit "\", line ".toList, .grp isDigitC false true, .lit ", in ".toList,
    .grp dotC false true] t

/-- `re.findall(r'at\s+(\S+)\s+\((.+?):(\d+):\d+\)', t)`. -/
def nodeLocNamedFindall (t : Str) : List (List Str) :=
  findallToks [.lit "at".toList, .grp isWs false false,
    .grp isNonWs false true, .grp isWs false false, .lit "(".toList,
    .grp dotC true true, .lit ":".toList, .grp isDigitC false true,
    .lit ":".toList, .grp isDigitC false false, .lit ")".toList] t

/-- `re.findall(r'at\s+(.+?):(\d+):\d+', t)`. -/
def nodeLocAnonFindall (t : Str) : List (List Str) :=
  findallToks [.lit "at".toList, .grp isWs false false, .grp dotC true true,
    .lit ":".toList, .grp isDigitC false true, .lit ":".toList,
    .grp isDigitC false false] t

/-- One anchored attempt of `(\S+\.rs):(\d+)`: the greedy `\S+` forces group
1 to end at the last `.rs` of the non-whitespace run that is followed by
`:digits`. -/
def rustLocMatchAt (t : Str) (p : Nat) : Option (List Str × Nat) :=
  let m := ((t.drop p).takeWhile isNonWs).length
  ((List.range m).reverse).findSome? fun j =>
    if occursAt ".rs:".toList t (p + j) && decide (1 ≤ j) &&
        isDigitC (charAt t (p + j + 4)) then
      let digs := (t.drop (p + j + 4)).takeWhile isDigitC
      some ([slice t p (p + j + 3), digs], p + j + 4 + digs.length)
    else none

/-- `re.findall(r'(\S+\.rs):(\d+)', t)`. -/
def rustLocFindallGo (t : Str) : Nat → Nat → List (List Str)
  | 0, _ => []
  | fuel + 1, p =>
    if p > t.length then []
    else
      match rustLocMatchAt t p with
      | some (gs, e) =>
        if p < e then gs :: rustLocFindallGo t fuel e
        else rustLocFindallGo t fuel (p + 1)
      | none => rustLocFindallGo t fuel (p + 1)

/-- `re.findall(r'(\S+\.rs):(\d+)', t)`. -/
def rustLocFindall (t : Str) : List (List Str) :=
  rustLocFindallGo t (t.length + 1) 0

/-- One anchored attempt of `\t(.+\.go):(\d+)`: a tab, then the greedy
non-newline group 1 ending at the last `.go` on the line that is followed by
`:digits`. -/
def goLocMatchAt (t : Str) (p : Nat) : Option (List Str × Nat) :=
  if charAt t p == '\t' then
    let m := ((t.drop (p + 1)).takeWhile dotC).length
    ((List.range m).reverse).findSome? fun j =>
      if occursAt ".go:".toList t (p + 1 + j) && decide (1 ≤ j) &&
          isDigitC (charAt t (p + 1 + j + 4)) then
        let digs := (t.drop (p + 1 + j + 4)).takeWhile isDigitC
        some ([slice t (p + 1) (p + 1 + j + 3), digs],
          p + 1 + j + 4 + digs.length)
      else none
  else none

/-- `re.findall(r'\t(.+\.go):(\d+)', t)`. -/
def goLocFindallGo (t : Str) : Nat → Nat → List (List Str)
  | 0, _ => []
  | fuel + 1, p =>
    if p > t.length then []
    else
      match goLocMatchAt t p with
      | some (gs, e) =>
        if p < e then gs :: goLocFindallGo t fuel e
        else goLocFindallGo t fuel (p + 1)
      | none => goLocFindallGo t fuel (p + 1)

/-- `re.findall(r'\t(.+\.go):(\d+)', t)`. -/
def goLocFindall (t : Str) : List (List Str) :=
  goLocFindallGo t (t.length + 1) 0

/-- Character class `[\w./\-$]` of the JVM location pattern. -/
def isJavaPathC (c : Char) : Bool :=
  isWordC c || c == '.' || c == '/' || c == '-' || c == '$'

/-- One anchored attempt of `at\s+(\S+)\(([\w./\-$]+\.(?:java|kt)):(\d+)\)`:
group 2 ends at the last `.java`/`.kt` of the class-character run followed by
`:digits)`. -/
def javaLocMatchAt (t : Str) (p : Nat) : Option (List Str × Nat) :=
  if occursAt "at".toList t p then
    let w := wsRunEnd t (p + 2)
    if decide (p + 2 < w) then
      let run := ((t.drop w).takeWhile isNonWs).length
      ((List.range run).reverse).findSome? fun j =>
        if charAt t (w + j) == '(' && decide (1 ≤ j) then
          let run2 := ((t.drop (w + j + 1)).takeWhile isJavaPathC).length
          ((List.range run2).reverse).findSome? fun k =>
            (if occursAt ".java:".toList t (w + j + 1 + k) then
              some (k + 5, 6)
            else if occursAt ".kt:".toList t (w + j + 1 + k) then
              some (k + 3, 4)
            else none).bind fun ext =>
              if decide (1 ≤ k) &&
                  isDigitC (charAt t (w + j + 1 + k + ext.2)) then
                let dstart := w + j + 1 + k + ext.2
                let digs := (t.drop dstart).takeWhile isDigitC
                if charAt t (dstart + digs.length) == ')' then
                  some ([slice t w (w + j),
                    slice t (w + j + 1) (w + j + 1 + ext.1), digs],
                    dstart + digs.length + 1)
                else none
              else none
        else none
    else none
  else none

/-- `re.findall(r'at\s+(\S+)\(([\w./\-$]+\.(?:java|kt)):(\d+)\)', t)`. -/
def javaLocFindallGo (t : Str) : Nat → Nat → List (List Str)
  | 0, _ => []
  | fuel + 1, p =>
    if p > t.length then []
    else
      match javaLocMatchAt t p with
      | some (gs, e) =>
        if p < e then gs :: javaLocFindallGo t fuel e
        else javaLocFindallGo t fuel (p + 1)
      | none => javaLocFindallGo t fuel (p + 1)

/-- `re.findall` for the JVM location pattern. -/
def javaLocFindall (t : Str) : List (List Str) :=
  javaLocFindallGo t (t.length + 1) 0

/-- One anchored attempt of `-->\s+(.+\.sol):(\d+)`. -/
def solLocMatchAt (t : Str) (p : Nat) : Option (List Str × Nat) :=
  if occursAt "-->".toList t p then
    let w := wsRunEnd t (p + 3)
    if decide (p + 3 < w) then
      let m := ((t.drop w).takeWhile dotC).length
      ((List.range m).reverse).findSome? fun j =>
        if occursAt ".sol:".toList t (w + j) && decide (1 ≤ j) &&
            isDigitC (charAt t (w + j + 5)) then
          let digs := (t.drop (w + j + 5)).takeWhile isDigitC
          some ([slice t w (w + j + 4), digs], w + j + 5 + digs.length)
        else none
    else none
  else none

/-- `re.findall(r'-->\s+(.+\.sol):(\d+)', t)`. -/
def solLocFindallGo (t : Str) : Nat → Nat → List (List Str)
  | 0, _ => []
  | fuel + 1, p =>
    if p > t.length then []
    else
      match solLocMatchAt t p with
      | some (gs, e) =>
        if p < e then gs :: solLocFindallGo t fuel e
        else solLocFindallGo t fuel (p + 1)
      | none => solLocFindallGo t fuel (p + 1)

/-- `re.findall` for the Solidity location pattern. -/
def solLocFindall (t : Str) : List (List Str) :=
  solLocFindallGo t (t.length + 1) 0

/-- `first[0].split(".")[-1]` of the Java branch. -/
def lastDotSegment (s : Str) : Str :=
  (s.reverse.takeWhile (fun c => c != '.')).reverse

/-- `_extract_location` from src/core/analyzer.py: note the Go and Rust
branches take the *last* `findall` match, the Node, Java and Solidity
branches the *first*. -/
def extractLocation (t : Str) : Option Str × Option Nat × Option Str :=
  let lang := detect_language t
  if lang = "python" then
    match (pyLocFindall t).getLast? with
    | some gs => (some (g 0 gs), some (parseNat (g 1 gs)), some (g 2 gs))
    | none => (none, none, none)
  else if lang = "node" then
    match (nodeLocNamedFindall t).head? with
    | some gs => (some (g 1 gs), some (parseNat (g 2 gs)), some (g 0 gs))
    | none =>
      match (nodeLocAnonFindall t).head? with
      | some gs =>
        (some (g 0 gs), some (parseNat (g 1 gs)), some "<anonymous>".toList)
      | none => (none, none, none)
  else if lang = "rust" then
    match (rustLocFindall t).getLast? with
    | some gs => (some (g 0 gs), some (parseNat (g 1 gs)), none)
    | none => (none, none, none)
  else if lang = "go" then
    match (goLocFindall t).getLast? with
    | some gs => (some (g 0 gs), some (parseNat (g 1 gs)), none)
    | none => (none, none, none)
  else if lang = "java" then
    match (javaLocFindall t).head? with
    | some gs =>
      (some (g 1 gs), some (parseNat (g 2 gs)), some (lastDotSegment (g 0 gs)))
    | none => (none, none, none)
  else if lang = "solidity" then
    match (solLocFindall t).head? with
    | some gs => (some (g 0 gs), some (parseNat (g 1 gs)), none)
    | none => (none, none, none)
  else (none, none, none)

-- ── _match_pattern and analyze ──────────────────────────────────────────

/-- Pattern-set selection of `_match_pattern`. -/
def patternSetsFor (lang : String) : List (List PatternEntry) :=
  if lang = "node" then [NODE_PATTERNS, KNOWN_PATTERNS]
  else if lang = "rust" then [RUST_PATTERNS, KNOWN_PATTERNS]
  else if lang = "go" then [GO_PATTERNS]
  else if lang = "java" then [JAVA_PATTERNS]
  else if lang = "solidity" then [SOLIDITY_PATTERNS]
  else [KNOWN_PATTERNS]

/-- `_match_pattern` from src/core/analyzer.py: first matching pattern in
declaration order across the selected sets, with templates substituted. -/
def matchPattern (error_text : Str) (lang : String) : Option Matched :=
  (patternSetsFor lang).findSome? fun patterns =>
    patterns.findSome? fun entry =>
      (entry.search error_text).map fun gs =>
        ⟨entry.root_cause gs, entry.suggested_fix gs, entry.severity⟩

/-- The observation `analyze` makes of one `GitContext`: its optional blame,
rendered by `format_compact()`. -/
structure GitCtx where
  blame : Option Str
deriving DecidableEq

/-- `DebugReport` dataclass from src/core/analyzer.py. -/
structure DebugReport where
  error_type : Str
  error_message : Str
  file_path : Option Str
  line_number : Option Nat
  function_name : Option Str
  root_cause : Str
  suggested_fix : Str
  severity : String
  raw_traceback : Str
  tier : Nat
  model : Option String
  architecture_notes : Option Str
  git_blame : Option Str
  git_context_raw : Option (List GitCtx)
deriving DecidableEq

/-- A successful LLM analysis dict, with the keys `_build_report_from_llm`
reads (`None`-able keys are doubly optional: absent, or present as null). -/
structure LlmResult where
  error_type : Option Str
  error_message : Option Str
  file_path : Option (Option Str)
  line_number : Option (Option Nat)
  function_name : Option (Option Str)
  root_cause : Option Str
  suggested_fix : Option Str
  severity : Option String
  tier : Nat
  model : Option String
  architecture_notes : Option Str
deriving DecidableEq

/-- Python exceptions the embedded `analyze` can raise. -/
inductive PyErr where
  | typeError
deriving DecidableEq

instance {ε α : Type} [DecidableEq ε] [DecidableEq α] :
    DecidableEq (Except ε α) := fun a b =>
  match a, b with
  | .ok x, .ok y =>
    if h : x = y then isTrue (congrArg Except.ok h)
    else isFalse fun hc => h (Except.ok.inj hc)
  | .error x, .error y =>
    if h : x = y then isTrue (congrArg Except.error h)
    else isFalse fun hc => h (Except.error.inj hc)
  | .ok _, .error _ => isFalse fun hc => Except.noConfusion hc
  | .error _, .ok _ => isFalse fun hc => Except.noConfusion hc

/-- Parameter names of `analyze_with_llm` (src/core/llm.py, line 177). -/
def analyzeWithLlmParams : List String :=
  ["traceback_text", "deep", "haiku", "source_context"]

/-- CPython call binding: calling `analyze_with_llm` with a keyword not in
its parameter list raises `TypeError` before the callee body runs; otherwise
the call returns what the callee would (supplied by the environment). -/
def callAnalyzeWithLlm (kwargs : List String) (result : Option LlmResult) :
    Except PyErr (Option LlmResult) :=
  if kwargs.all (analyzeWithLlmParams.contains ·) then .ok result
  else .error .typeError

/-- `_build_report_from_llm` from src/core/analyzer.py. -/
def buildReportFromLlm (r : LlmResult) (error_type error_message : Str)
    (file_path : Option Str) (line_number : Option Nat)
    (function_name : Option Str) (t : Str) : DebugReport :=
  { error_type := r.error_type.getD error_type,
    error_message := r.error_message.getD error_message,
    file_path := r.file_path.getD file_path,
    line_number := r.line_number.getD line_number,
    function_name := r.function_name.getD function_name,
    root_cause := r.root_cause.getD [],
    suggested_fix := r.suggested_fix.getD [],
    severity := r.severity.getD "medium",
    raw_traceback := t, tier := r.tier, model := r.model,
    architecture_notes := r.architecture_notes, git_blame := none,
    git_context_raw := none }

/-- `" | ".join`. -/
def joinSep (sep : Str) : List Str → Str
  | [] => []
  | [x] => x
  | x :: y :: xs => x ++ sep ++ joinSep sep (y :: xs)

/-- The `_attach_git` closure of `analyze`. -/
def attachGit (gitContexts : List GitCtx) (r : DebugReport) : DebugReport :=
  if gitContexts.isEmpty then r
  else
    let blame_lines := gitContexts.filterMap (·.blame)
    { r with
      git_blame :=
        if blame_lines.isEmpty then none
        else some (joinSep " | ".toList blame_lines),
      git_context_raw := some gitContexts }

/-- The environment of one `analyze` invocation: everything the function
obtains through I/O boundaries (filesystem source windows, git subprocesses,
project scanning, memory recall, and what `analyze_with_llm` would return if
it were callable). -/
structure AnalyzeEnv where
  sourceContext : Option Str
  gitDisabledEnv : Bool
  gitContexts : List GitCtx
  projectContext : Str
  llmResult : Option LlmResult

/-- A row written by `insert_analysis`; `analyze` performs no such write, so
its write trace is always empty. -/
structure MemWrite where
  language : String
  fingerprint : Str
  snippet : Str
deriving DecidableEq

/-- The tier-0 fallback `DebugReport` of `analyze` ("No LLM available");
note the source does not pass it through `_attach_git`. -/
def fallbackReport (t error_type error_message : Str) (file_path : Option Str)
    (line_number : Option Nat) (function_name : Option Str) : DebugReport :=
  { error_type := error_type, error_message := error_message,
    file_path := file_path, line_number := line_number,
    function_name := function_name,
    root_cause := "Unrecognized error: ".toList ++ error_type ++
      " (no LLM available — set XAI_API_KEY or ANTHROPIC_API_KEY in .env)".toList,
    suggested_fix := "Configure .env with API keys to enable AI analysis".toList,
    severity := "medium", raw_traceback := t, tier := 0, model := none,
    architecture_notes := none, git_blame := none, git_context_raw := none }

/-- Tiers 1, 2 and the fallback of `analyze` (reached when neither model
flag produced a report): the pattern match text is the whole trace for
go/java/solidity/rust and the error line otherwise; a pattern hit is a
tier-1 report; otherwise the tier-2 `analyze_with_llm` call site binds its
keywords (raising `TypeError` for `project_context`); the tier-0 fallback
follows an `None` result. -/
def analyzeTier1Down (t : Str) (lang : String) (error_line : Str)
    (error_type error_message : Str)
    (loc : Option Str × Option Nat × Option Str)
    (git_contexts : List GitCtx) (env : AnalyzeEnv) :
    Except PyErr DebugReport × List MemWrite :=
  let match_text :=
    if lang = "go" || lang = "java" || lang = "solidity" || lang = "rust"
    then t else error_line
  match matchPattern match_text lang with
  | some m =>
    (.ok (attachGit git_contexts
      { error_type := error_type, error_message := error_message,
        file_path := loc.1, line_number := loc.2.1,
        function_name := loc.2.2, root_cause := m.root_cause,
        suggested_fix := m.suggested_fix, severity := m.severity,
        raw_traceback := t, tier := 1, model := none,
        architecture_notes := none, git_blame := none,
        git_context_raw := none }), [])
  | none =>
    match callAnalyzeWithLlm ["source_context", "project_context"]
        env.llmResult with
    | .error e => (.error e, [])
    | .ok (some r) =>
      if r.root_cause.isSome then
        (.ok (attachGit git_contexts
          (buildReportFromLlm r error_type error_message loc.1 loc.2.1
            loc.2.2 t)), [])
      else
        (.ok (fallbackReport t error_type error_message loc.1 loc.2.1
          loc.2.2), [])
    | .ok none =>
      (.ok (fallbackReport t error_type error_message loc.1 loc.2.1
        loc.2.2), [])

/-- The `if haiku:` tier-3 branch of `analyze`, then the lower tiers. -/
def analyzeAfterDeep (t : Str) (haiku : Bool) (lang : String)
    (error_line : Str) (error_type error_message : Str)
    (loc : Option Str × Option Nat × Option Str)
    (git_contexts : List GitCtx) (env : AnalyzeEnv) :
    Except PyErr DebugReport × List MemWrite :=
  if haiku then
    match callAnalyzeWithLlm ["haiku", "source_context", "project_context"]
        env.llmResult with
    | .error e => (.error e, [])
    | .ok (some r) =>
      if r.root_cause.isSome then
        (.ok (attachGit git_contexts
          (buildReportFromLlm r error_type error_message loc.1 loc.2.1
            loc.2.2 t)), [])
      else
        analyzeTier1Down t lang error_line error_type error_message loc
          git_contexts env
    | .ok none =>
      analyzeTier1Down t lang error_line error_type error_message loc
        git_contexts env
  else
    analyzeTier1Down t lang error_line error_type error_message loc
      git_contexts env

/-- `analyze` from src/core/analyzer.py.  Returns the report (or the raised
exception) together with the list of Memory Store writes performed — the
source contains no `insert_analysis` call, so every path pairs its result
with `[]`.  The memory recall (`query_similar`) only builds the local
`past_context` string, which the source never uses afterwards, so it cannot
influence the result.  All three `analyze_with_llm` call sites pass the
keyword `project_context`, which `analyze_with_llm` does not accept, so
reaching any LLM tier raises `TypeError`. -/
def analyze (t : Str) (deep haiku : Bool) (project_path : Option Str)
    (no_git : Bool) (use_memory : Bool) (env : AnalyzeEnv) :
    Except PyErr DebugReport × List MemWrite :=
  let lang := detect_language t
  let error_line := getErrorLine t lang
  let et_em := splitErrorLine error_line
  let error_type := et_em.1
  let error_message := et_em.2
  let loc := extractLocation t
  let git_disabled := no_git || env.gitDisabledEnv
  let git_contexts := if git_disabled then [] else env.gitContexts
  if deep then
    match callAnalyzeWithLlm ["deep", "source_context", "project_context"]
        env.llmResult with
    | .error e => (.error e, [])
    | .ok (some r) =>
      if r.root_cause.isSome then
        (.ok (attachGit git_contexts
          (buildReportFromLlm r error_type error_message loc.1 loc.2.1
            loc.2.2 t)), [])
      else
        analyzeAfterDeep t haiku lang error_line error_type error_message loc
          git_contexts env
    | .ok none =>
      analyzeAfterDeep t haiku lang error_line error_type error_message loc
        git_contexts env
  else
    analyzeAfterDeep t haiku lang error_line error_type error_message loc
      git_contexts env

/-- Index correctness of a link list: each element records its position. -/
def idxOk (l : List ChainLink) : Prop :=
  ∀ (i : Nat) (x : ChainLink), l[i]? = some x → x.index = i

-- ── Concrete inputs used by the claim theorems ──────────────────────────

/-- An environment with every I/O boundary empty: no readable source file,
git enabled but yielding no contexts, no project context, and no model
provider available (`analyze_with_llm` would return `None`). -/
def envNoLlm : AnalyzeEnv := ⟨none, false, [], [], none⟩

/-- `DEMO_GO_TRACEBACK` from src/cli.py: a Go panic with two user frames,
`main.go:15` (innermost, emitted first) and `main.go:22`. -/
def demoGo : Str := "panic: runtime error: integer divide by zero\n\ngoroutine 1 [running]:\nmain.divide(...)\n\t/home/user/myapp/main.go:15 +0x18\nmain.main()\n\t/home/user/myapp/main.go:22 +0x2f\nexit status 2".toList

/-- Input of the C5 counterexample: a chain separator with nothing but a
newline before it, followed by a Python traceback header. -/
def c5T0 : Str := "\nThe above exception was the direct cause of the following exception:\n\nTraceback (most recent call last):\nValueError: x".toList

/-- Input of the C6 counterexample: a chained Python trace followed by a
trailing noise line. -/
def c6T0 : Str := "Traceback (most recent call last):\nValueError: a\nThe above exception was the direct cause of the following exception:\n\nTraceback (most recent call last):\nValueError: b\nboom2".toList

/-- Input of the C6 witness: the same chained Python trace without noise. -/
def c6W : Str := "Traceback (most recent call last):\nValueError: a\nThe above exception was the direct cause of the following exception:\n\nTraceback (most recent call last):\nValueError: b".toList

/-- Input of the C7 counterexample: a Python frame whose basename contains a
space, so the first normalization's key is not re-recognised whole. -/
def c7T0 : Str := "File \"my file.py\", line 3, in main".toList

/-- Input of the C7 witness: an ordinary Python frame line. -/
def c7T1 : Str := "File \"app.py\", line 42, in main".toList

-- ════════════════════════════════════════════════════════════════════════
-- THEOREMS
-- ════════════════════════════════════════════════════════════════════════

-- ── Basic lemmas about the string utilities ─────────────────────────────

theorem dropWhile_idem (p : Char → Bool) (s : Str) :
    (s.dropWhile p).dropWhile p = s.dropWhile p := by
  induction s with
  | nil => rfl
  | cons c cs ih =>
    by_cases h : p c
    · simpa [List.dropWhile, h] using ih
    · simp [List.dropWhile, h]

theorem lstrip_nil_iff (s : Str) : lstrip s = [] ↔ s.all isWs := by
  induction s with
  | nil => simp [lstrip]
  | cons c cs ih =>
    by_cases h : isWs c
    · simpa [lstrip, List.dropWhile, h] using ih
    · simp [lstrip, List.dropWhile, h]

theorem rstrip_nil_iff (s : Str) : rstrip s = [] ↔ s.all isWs := by
  unfold rstrip
  rw [List.reverse_eq_nil_iff]
  rw [show (List.dropWhile isWs s.reverse = []) ↔ s.reverse.all isWs from
    lstrip_nil_iff s.reverse]
  simp [List.all_eq_true]

theorem all_of_lstrip_all (s : Str) (h : (lstrip s).all isWs) : s.all isWs := by
  have hsplit := List.takeWhile_append_dropWhile isWs s
  rw [← hsplit, List.all_append]
  refine Bool.and_eq_true_iff.mpr ⟨?_, h⟩
  simp only [List.all_eq_true]
  exact fun c hc => List.mem_takeWhile_imp hc

theorem strip_nil_iff (s : Str) : strip s = [] ↔ s.all isWs := by
  unfold strip
  rw [rstrip_nil_iff]
  constructor
  · exact all_of_lstrip_all s
  · intro h
    have : lstrip s = [] := (lstrip_nil_iff s).mpr h
    simp [this]

theorem rstrip_isPrefix (s : Str) : ∃ u, rstrip s ++ u = s := by
  unfold rstrip
  obtain ⟨u, hu⟩ : ∃ u, u ++ s.reverse.dropWhile isWs = s.reverse :=
    ⟨s.reverse.takeWhile isWs, List.takeWhile_append_dropWhile isWs s.reverse⟩
  refine ⟨u.reverse, ?_⟩
  have := congrArg List.reverse hu
  simpa using this

theorem lstrip_cons_not_ws {c : Char} {cs : Str} (h : isWs c = false) :
    lstrip (c :: cs) = c :: cs := by
  simp [lstrip, List.dropWhile, h]

theorem lstrip_head_not_ws (s : Str) :
    lstrip s = [] ∨ ∃ c cs, lstrip s = c :: cs ∧ isWs c = false := by
  induction s with
  | nil => exact Or.inl rfl
  | cons c cs ih =>
    by_cases h : isWs c
    · simpa [lstrip, List.dropWhile, h] using ih
    · exact Or.inr ⟨c, cs, by simp [lstrip, List.dropWhile, h], by simp [h]⟩

theorem rstrip_idem (s : Str) : rstrip (rstrip s) = rstrip s := by
  unfold rstrip
  simp [dropWhile_idem]

theorem lstrip_rstrip_of_lstripped (s : Str) (h : lstrip s = s) :
    lstrip (rstrip s) = rstrip s := by
  rcases lstrip_head_not_ws s with hnil | ⟨c, cs, hcons, hc⟩
  · rw [h] at hnil; subst hnil; rfl
  · rw [h] at hcons
    obtain ⟨u, hu⟩ := rstrip_isPrefix s
    cases hr : rstrip s with
    | nil => rfl
    | cons d ds =>
      have : d = c := by
        rw [hr] at hu
        rw [hcons] at hu
        exact (List.cons.injEq _ _ _ _).mp hu |>.1
      subst this
      exact lstrip_cons_not_ws hc

theorem strip_idem (s : Str) : strip (strip s) = strip s := by
  unfold strip
  have h1 : lstrip (lstrip s) = lstrip s := dropWhile_idem isWs s
  rw [lstrip_rstrip_of_lstripped (lstrip s) h1, rstrip_idem]

theorem strip_all_ws_of_nonmem (s : Str)
    (h : ∀ c ∈ s, isWs c = true) : strip s = [] :=
  (strip_nil_iff s).mpr (List.all_eq_true.mpr h)

theorem le_maxSnd (l : List (String × Nat)) (q : String × Nat) (hq : q ∈ l) :
    q.2 ≤ maxSnd l := by
  induction l with
  | nil => cases hq
  | cons p ps ih =>
    rcases List.mem_cons.mp hq with h | h
    · subst h; exact le_max_left _ _
    · exact le_trans (ih h) (le_max_right _ _)

theorem maxSnd_attained (l : List (String × Nat)) :
    maxSnd l = 0 ∨ ∃ q ∈ l, q.2 = maxSnd l := by
  induction l with
  | nil => exact Or.inl rfl
  | cons p ps ih =>
    rcases Nat.le_total p.2 (maxSnd ps) with h | h
    · rcases ih with h0 | ⟨q, hq, hqe⟩
      · rcases Nat.eq_zero_of_le_zero (h0 ▸ h) with hp
        exact Or.inl (by simp [maxSnd, hp, h0] at *; omega)
      · exact Or.inr ⟨q, List.mem_cons_of_mem _ hq, by
          simp only [maxSnd, List.foldr] at *; omega⟩
    · exact Or.inr ⟨p, List.mem_cons_self _ _, by
        simp only [maxSnd, List.foldr] at *; omega⟩

theorem find?_congr_mem {α : Type} (p q : α → Bool) (l : List α)
    (h : ∀ x ∈ l, p x = q x) : l.find? p = l.find? q := by
  induction l with
  | nil => rfl
  | cons a as ih =>
    have ha := h a (List.mem_cons_self _ _)
    by_cases hp : p a
    · rw [List.find?_cons_of_pos _ hp, List.find?_cons_of_pos _ (ha ▸ hp)]
    · rw [List.find?_cons_of_neg _ hp,
        List.find?_cons_of_neg _ (by rw [← ha]; exact hp),
        ih fun x hx => h x (List.mem_cons_of_mem _ hx)]

theorem find?_filter_of_imp {α : Type} (p f : α → Bool) (l : List α)
    (h : ∀ x, p x = true → f x = true) :
    (l.filter f).find? p = l.find? p := by
  induction l with
  | nil => rfl
  | cons a as ih =>
    by_cases hp : p a
    · have hf : f a := h a hp
      rw [List.filter_cons_of_pos hf, List.find?_cons_of_pos _ hp,
        List.find?_cons_of_pos _ hp]
    · by_cases hf : f a
      · rw [List.filter_cons_of_pos hf, List.find?_cons_of_neg _ hp,
          List.find?_cons_of_neg _ hp, ih]
      · rw [List.filter_cons_of_neg (by simpa using hf),
          List.find?_cons_of_neg _ hp, ih]

/-- Every score list has an element attaining a positive maximum, so `find?`
for the maximum succeeds. -/
theorem find?_max_isSome (l : List (String × Nat)) (x : String × Nat)
    (hx : x ∈ l) :
    ∃ q, l.find? (fun q => maxSnd l ≤ q.2) = some q := by
  rcases maxSnd_attained l with h0 | ⟨q, hq, hqe⟩
  · exact Option.isSome_iff_exists.mp
      (List.find?_isSome.mpr ⟨x, hx, by simp; omega⟩)
  · exact Option.isSome_iff_exists.mp
      (List.find?_isSome.mpr ⟨q, hq, by simp; omega⟩)

/-- Python's `max(..., key=...)` fold keeps the first element attaining the
maximum. -/
theorem foldl_first_max (ps : List (String × Nat)) (p : String × Nat) :
    ps.foldl (fun best cur => if cur.2 > best.2 then cur else best) p =
      ((p :: ps).find? fun q => maxSnd (p :: ps) ≤ q.2).getD p := by
  induction ps generalizing p with
  | nil =>
    simp [List.find?, maxSnd, Nat.le_max_left]
  | cons r rs ih =>
    simp only [List.foldl]
    by_cases h : r.2 > p.2
    · rw [if_pos (by simpa using h), ih]
      have hmax : maxSnd (p :: r :: rs) = maxSnd (r :: rs) := by
        simp only [maxSnd, List.foldr]; omega
      rw [hmax]
      have hpfail : ¬ (maxSnd (r :: rs) ≤ p.2) := by
        have : r.2 ≤ maxSnd (r :: rs) := le_maxSnd _ r (List.mem_cons_self _ _)
        omega
      have hskip : List.find? (fun q => decide (maxSnd (r :: rs) ≤ q.2))
          (p :: r :: rs) =
          List.find? (fun q => decide (maxSnd (r :: rs) ≤ q.2)) (r :: rs) :=
        List.find?_cons_of_neg _ (by simpa using hpfail)
      rw [hskip]
      obtain ⟨q, hq⟩ := find?_max_isSome (r :: rs) r (List.mem_cons_self _ _)
      rw [hq]
      rfl
    · rw [if_neg (by simpa using h), ih]
      have hmax : maxSnd (p :: r :: rs) = maxSnd (p :: rs) := by
        simp only [maxSnd, List.foldr]; omega
      rw [hmax]
      by_cases hp : maxSnd (p :: rs) ≤ p.2
      · have h1 : List.find? (fun q => decide (maxSnd (p :: rs) ≤ q.2))
            (p :: rs) = some p :=
          List.find?_cons_of_pos _ (by simpa using hp)
        have h2 : List.find? (fun q => decide (maxSnd (p :: rs) ≤ q.2))
            (p :: r :: rs) = some p :=
          List.find?_cons_of_pos _ (by simpa using hp)
        rw [h1, h2]
      · have hrfail : ¬ (maxSnd (p :: rs) ≤ r.2) := by omega
        have h1 : List.find? (fun q => decide (maxSnd (p :: rs) ≤ q.2))
            (p :: rs) =
            List.find? (fun q => decide (maxSnd (p :: rs) ≤ q.2)) rs :=
          List.find?_cons_of_neg _ (by simpa using hp)
        have h2 : List.find? (fun q => decide (maxSnd (p :: rs) ≤ q.2))
            (p :: r :: rs) =
            List.find? (fun q => decide (maxSnd (p :: rs) ≤ q.2)) (r :: rs) :=
          List.find?_cons_of_neg _ (by simpa using hp)
        have h3 : List.find? (fun q => decide (maxSnd (p :: rs) ≤ q.2))
            (r :: rs) =
            List.find? (fun q => decide (maxSnd (p :: rs) ≤ q.2)) rs :=
          List.find?_cons_of_neg _ (by simpa using hrfail)
        rw [h1, h2, h3]

/-- Generic bridge: the source's filter-then-first-max computation equals the
reference first-language-attaining-the-max computation. -/
theorem pymax_eq_firstmax (l : List (String × Nat)) :
    pyDictMax (l.filter fun p => 0 < p.2) =
    (if maxSnd l = 0 then "unknown"
     else
       match l.find? fun q => q.2 = maxSnd l with
       | some q => q.1
       | none => "unknown") := by
  by_cases h0 : maxSnd l = 0
  · have hfil : l.filter (fun p => 0 < p.2) = [] := by
      rw [List.filter_eq_nil_iff]
      intro q hq
      simp only [decide_eq_true_eq, not_lt, Nat.le_zero]
      have := le_maxSnd l q hq
      omega
    rw [hfil, if_pos h0]
    rfl
  · rcases maxSnd_attained l with hc | ⟨q, hq, hqe⟩
    · exact absurd hc h0
    have hqf : q ∈ l.filter fun p => 0 < p.2 :=
      List.mem_filter.mpr ⟨hq, by simp; omega⟩
    have hmaxf : maxSnd (l.filter fun p => 0 < p.2) = maxSnd l := by
      apply Nat.le_antisymm
      · rcases maxSnd_attained (l.filter fun p => 0 < p.2) with hz | ⟨r, hr, hre⟩
        · omega
        · rw [← hre]
          exact le_maxSnd l r (List.mem_filter.mp hr).1
      · rw [← hqe]; exact le_maxSnd _ q hqf
    rw [if_neg h0]
    cases hfil : l.filter fun p => 0 < p.2 with
    | nil => rw [hfil] at hqf; cases hqf
    | cons p ps =>
      have hred : pyDictMax (p :: ps) =
          (ps.foldl (fun best cur => if cur.2 > best.2 then cur else best)
            p).1 := rfl
      rw [hred, foldl_first_max ps p, ← hfil]
      have hmaxfil : maxSnd (l.filter fun p => 0 < p.2) = maxSnd l := hmaxf
      have hfilmax : (l.filter fun p => 0 < p.2).find?
          (fun r => decide (maxSnd (l.filter fun p => 0 < p.2) ≤ r.2)) =
          (l.filter fun p => 0 < p.2).find?
            (fun r => decide (maxSnd l ≤ r.2)) := by
        rw [hmaxfil]
      rw [hfilmax]
      have hconv : (l.filter fun p => 0 < p.2).find?
          (fun r => decide (maxSnd l ≤ r.2)) =
          (l.filter fun p => 0 < p.2).find? (fun r => decide (r.2 = maxSnd l)) := by
        apply find?_congr_mem
        intro x hx
        have hle := le_maxSnd l x (List.mem_filter.mp hx).1
        by_cases hx2 : maxSnd l ≤ x.2
        · simp [hx2]; omega
        · simp [hx2]; omega
      rw [hconv, find?_filter_of_imp _ _ _ (fun x hx => by
        simp at hx ⊢; omega)]
      cases hf : l.find? fun r => decide (r.2 = maxSnd l) with
      | none =>
        exfalso
        have := List.find?_eq_none.mp hf q hq
        simp [hqe] at this
      | some r => simp

-- ── C8: detect_language ─────────────────────────────────────────────────

/-- C8: the language detector scores each language by the count of its
matching signature regexes and returns the language with the highest count;
ties are broken in the declared order python, node, rust, go, jvm (java),
solidity; when no signature of any language matches it returns "unknown".
`detect_language` coincides, on every trace, with the reference detector
`detectSpecC8` transcribed from the claim's words. -/
theorem c8_detect_language_first_max (t : Str) :
    detect_language t = detectSpecC8 t := by
  simp only [detect_language, detectSpecC8]
  exact pymax_eq_firstmax _

-- ── C9: read_source_window ──────────────────────────────────────────────

theorem readWindowGo_spec (fileLines : List Str) (ln stop : Nat) :
    ∀ (fuel i ae : Nat),
      (readWindowGo fileLines ln stop fuel i ae).1.length ≤ fuel ∧
      ((readWindowGo fileLines ln stop fuel i ae).1 = [] →
        (readWindowGo fileLines ln stop fuel i ae).2 = ae) ∧
      ((readWindowGo fileLines ln stop fuel i ae).1 ≠ [] →
        i ≤ (readWindowGo fileLines ln stop fuel i ae).2 ∧
        (readWindowGo fileLines ln stop fuel i ae).2 ≤ stop ∧
        (readWindowGo fileLines ln stop fuel i ae).1.length ≤
          (readWindowGo fileLines ln stop fuel i ae).2 + 1 - i) := by
  intro fuel
  induction fuel with
  | zero =>
    intro i ae
    exact ⟨Nat.le_refl _, fun _ => rfl, fun h => absurd rfl h⟩
  | succ fuel ih =>
    intro i ae
    by_cases hstop : i > stop
    · rw [show readWindowGo fileLines ln stop (fuel + 1) i ae = ([], ae) from
        by simp [readWindowGo, hstop]]
      exact ⟨Nat.zero_le _, fun _ => rfl, fun h => absurd rfl h⟩
    · by_cases hline : (!(getline fileLines i).isEmpty) = true
      · rw [show readWindowGo fileLines ln stop (fuel + 1) i ae =
            (rstrip (getline fileLines i) ::
              (readWindowGo fileLines ln stop fuel (i + 1) i).1,
             (readWindowGo fileLines ln stop fuel (i + 1) i).2) from
          by simp [readWindowGo, hstop, hline]]
        obtain ⟨hlen, hnil, hcons⟩ := ih (i + 1) i
        refine ⟨by simpa using Nat.succ_le_succ hlen, fun h => by simp at h,
          fun _ => ?_⟩
        dsimp only
        cases hrest : (readWindowGo fileLines ln stop fuel (i + 1) i).1 with
        | nil =>
          have h2 := hnil hrest
          rw [h2]
          simp only [List.length_cons, List.length_nil]
          omega
        | cons x xs =>
          obtain ⟨ha, hb, hc⟩ := hcons (by rw [hrest]; simp)
          rw [hrest] at hc
          simp only [List.length_cons] at hc ⊢
          omega
      · have hline' : (!(getline fileLines i).isEmpty) = false := by
          simpa using hline
        by_cases hln : i > ln
        · rw [show readWindowGo fileLines ln stop (fuel + 1) i ae =
              ([], ae) from by simp [readWindowGo, hstop, hline', hln]]
          exact ⟨Nat.zero_le _, fun _ => rfl, fun h => absurd rfl h⟩
        · rw [show readWindowGo fileLines ln stop (fuel + 1) i ae =
              readWindowGo fileLines ln stop fuel (i + 1) ae from
            by simp [readWindowGo, hstop, hline', hln]]
          obtain ⟨hlen, hnil, hcons⟩ := ih (i + 1) ae
          refine ⟨Nat.le_succ_of_le hlen, hnil, fun h => ?_⟩
          obtain ⟨ha, hb, hc⟩ := hcons h
          exact ⟨by omega, hb, by omega⟩

/-- C9: for every (file, line_number, radius) the `SourceWindow` returned by
`read_source_window` has at most `2·radius + 1` lines, its line count is at
most `end_line − start_line + 1`, and when the file is missing `exists` is
false and the lines list is empty.  (`radius ≥ 0` holds by the Nat type; the
program's line numbers are `\d+` parses, also Nat.) -/
theorem c9_read_source_window_bounds (file : Option (List Str))
    (file_path : Str) (line_number radius : Nat) :
    (read_source_window file file_path line_number radius).source_lines.length
        ≤ 2 * radius + 1 ∧
    ((read_source_window file file_path line_number
        radius).source_lines.length : Int) ≤
      ((read_source_window file file_path line_number radius).end_line : Int) -
        (read_source_window file file_path line_number radius).start_line + 1 ∧
    (file = none →
      (read_source_window file file_path line_number radius).file_exists =
          false ∧
        (read_source_window file file_path line_number
          radius).source_lines = []) := by
  cases file with
  | none =>
    refine ⟨?_, ?_, fun _ => ⟨rfl, rfl⟩⟩
    · show ([] : List Str).length ≤ 2 * radius + 1
      simp
    · show (([] : List Str).length : Int) ≤
        ((line_number + radius : Nat) : Int) -
          (max 1 (line_number - radius) : Nat) + 1
      have h1 : max 1 (line_number - radius) ≤ line_number + radius + 1 := by
        rcases Nat.le_total 1 (line_number - radius) with h | h
        · rw [Nat.max_eq_right h]; omega
        · rw [Nat.max_eq_left h]; omega
      simp only [List.length_nil]
      omega
  | some fileLines =>
    have hgo := readWindowGo_spec fileLines line_number
      (line_number + radius)
      (line_number + radius + 1 - max 1 (line_number - radius))
      (max 1 (line_number - radius)) (max 1 (line_number - radius))
    rcases hgo with ⟨hlen, hnil, hcons⟩
    simp only [read_source_window]
    refine ⟨?_, ?_, fun hnone => by cases hnone⟩
    · refine le_trans hlen ?_
      rcases Nat.le_total 1 (line_number - radius) with h | h
      · rw [Nat.max_eq_right h]; omega
      · rw [Nat.max_eq_left h]; omega
    · cases hr : (readWindowGo fileLines line_number (line_number + radius)
          (line_number + radius + 1 - max 1 (line_number - radius))
          (max 1 (line_number - radius)) (max 1 (line_number - radius))).1 with
      | nil =>
        have h2 := hnil hr
        simp only [hr, h2, List.length_nil]
        push_cast
        omega
      | cons x xs =>
        have h3 := hcons (by rw [hr]; simp)
        rw [hr] at h3
        simp only [hr] at *
        push_cast
        omega

-- ── C7: normalizer idempotency ──────────────────────────────────────────

theorem takeWhile_append_stop {p : Char → Bool} (f : Str) {x : Char}
    (r : Str) (hf : ∀ c ∈ f, p c = true) (hx : p x = false) :
    (f ++ x :: r).takeWhile p = f := by
  induction f with
  | nil => simp [List.takeWhile, hx]
  | cons c cs ih =>
    have hc := hf c (List.mem_cons_self _ _)
    show List.takeWhile p (c :: (cs ++ x :: r)) = c :: cs
    rw [List.takeWhile_cons_of_pos hc,
      ih fun d hd => hf d (List.mem_cons_of_mem _ hd)]

theorem takeWhile_all {p : Char → Bool} (l : Str)
    (h : ∀ c ∈ l, p c = true) : l.takeWhile p = l :=
  List.takeWhile_eq_self_iff.mpr h

theorem charAt_append_mid (f : Str) (x : Char) (r : Str) :
    charAt (f ++ x :: r) f.length = x := by
  unfold charAt
  rw [List.drop_left f (x :: r)]
  rfl

theorem drop_takeWhile_length (p : Char → Bool) (l : Str) :
    l.drop (l.takeWhile p).length = l.dropWhile p := by
  induction l with
  | nil => rfl
  | cons c cs ih =>
    by_cases hc : p c
    · rw [List.takeWhile_cons_of_pos hc, List.dropWhile_cons_of_pos hc]
      simpa using ih
    · rw [List.takeWhile_cons_of_neg hc, List.dropWhile_cons_of_neg hc]
      rfl

/-- Decomposition of a `goodKey`. -/
theorem goodKey_decomp (k : Str) (h : goodKey k = true) :
    ∃ f n, k = f ++ ':' :: n ∧ f ≠ [] ∧ (∀ c ∈ f, isFallbackC c = true) ∧
      n ≠ [] ∧ (∀ c ∈ n, isDigitC c = true) := by
  unfold goodKey at h
  simp only [Bool.and_eq_true] at h
  obtain ⟨⟨⟨⟨hne, hall⟩, hcol⟩, hnne⟩, hnall⟩ := h
  have hsplit : k = k.takeWhile (fun c => c != ':') ++
      k.drop (k.takeWhile (fun c => c != ':')).length := by
    conv_lhs => rw [← List.takeWhile_append_dropWhile (fun c => c != ':') k]
    rw [drop_takeWhile_length]
  cases hrest : k.drop (k.takeWhile (fun c => c != ':')).length with
  | nil => rw [hrest] at hcol; simp at hcol
  | cons r rr =>
    have hr : r = ':' := by
      rw [hrest] at hcol
      simpa using hcol
    subst hr
    rw [hrest] at hnne hnall
    refine ⟨k.takeWhile (fun c => c != ':'), rr, ?_, by simpa using hne,
      fun c hc => List.all_eq_true.mp hall c hc, by simpa using hnne,
      fun c hc => List.all_eq_true.mp (by simpa using hnall) c hc⟩
    conv_lhs => rw [hsplit, hrest]

/-- Characters of a `goodKey`. -/
theorem goodKey_chars (k : Str) (h : goodKey k = true) :
    ∀ c ∈ k, isFallbackC c = true ∨ c = ':' ∨ isDigitC c = true := by
  obtain ⟨f, n, hk, _, hf, _, hn⟩ := goodKey_decomp k h
  subst hk
  intro c hc
  rcases List.mem_append.mp hc with h1 | h1
  · exact Or.inl (hf c h1)
  · rcases List.mem_cons.mp h1 with h2 | h2
    · exact Or.inr (Or.inl h2)
    · exact Or.inr (Or.inr (hn c h2))

theorem findSome?_eq_none_of_all {α β : Type} (f : α → Option β)
    (l : List α) (h : ∀ a ∈ l, f a = none) : l.findSome? f = none := by
  induction l with
  | nil => rfl
  | cons a as ih =>
    rw [List.findSome?_cons, h a (List.mem_cons_self _ _)]
    exact ih fun a ha => h a (List.mem_cons_of_mem _ ha)

theorem occursAt_char_mem (pat t : Str) (p : Nat)
    (h : occursAt pat t p = true) : ∀ c ∈ pat, c ∈ t := by
  intro c hc
  have hpre : ∃ rest, pat ++ rest = t.drop p := by
    obtain ⟨rest, hrest⟩ :=
      (List.isPrefixOf_iff_prefix.mp h : pat <+: t.drop p)
    exact ⟨rest, hrest⟩
  obtain ⟨rest, hrest⟩ := hpre
  have : c ∈ t.drop p := by
    rw [← hrest]
    exact List.mem_append.mpr (Or.inl hc)
  exact List.mem_of_mem_drop this

/-- A line without a double quote cannot match the Python `File "..."`
pattern. -/
theorem pySearchFileLine_none (line : Str)
    (h : ∀ c ∈ line, c ≠ '"') : pySearchFileLine line = none := by
  apply findSome?_eq_none_of_all
  intro p _
  unfold fileLineMatchAt
  cases hq : occursAt "File \"".toList line p with
  | false => simp [hq]
  | true =>
    exfalso
    have := occursAt_char_mem _ _ _ hq '"' (by decide)
    exact h '"' this rfl

/-- The fallback pattern matches a `goodKey` whole, at position 0. -/
theorem fallbackSearch_goodKey (f n : Str) (hf : f ≠ [])
    (hfall : ∀ c ∈ f, isFallbackC c = true) (hn : n ≠ [])
    (hdig : ∀ c ∈ n, isDigitC c = true) :
    fallbackSearch (f ++ ':' :: n) = some (f, n) := by
  have hne : f.isEmpty = false := by
    cases f with
    | nil => exact absurd rfl hf
    | cons c cs => rfl
  have hnne : n.isEmpty = false := by
    cases n with
    | nil => exact absurd rfl hn
    | cons c cs => rfl
  have hrun : ((f ++ ':' :: n).drop 0).takeWhile isFallbackC = f := by
    rw [List.drop_zero]
    exact takeWhile_append_stop f n hfall (by decide)
  have hch : charAt (f ++ ':' :: n) (0 + f.length) = ':' := by
    rw [Nat.zero_add]
    exact charAt_append_mid f ':' n
  have hdrop : (f ++ ':' :: n).drop (0 + f.length + 1) = n := by
    rw [Nat.zero_add, show f.length + 1 = (f ++ [':']).length by simp,
      show f ++ ':' :: n = (f ++ [':']) ++ n by simp]
    exact List.drop_left _ _
  have hmatch : fallbackMatchAt (f ++ ':' :: n) 0 = some (f, n) := by
    simp only [fallbackMatchAt, hrun, hne, Bool.false_eq_true, if_false,
      hch, hdrop, takeWhile_all n hdig, hnne, beq_self_eq_true, if_true]
  unfold fallbackSearch
  rw [List.range_succ_eq_map, List.findSome?_cons, hmatch]

/-- Invariant of `normalize_traceback`'s fold: keys are pairwise distinct
and all recorded in `seen`. -/
theorem normalizeLine_invariant (st : List Str × List Str) (line : Str)
    (h1 : st.2.Nodup) (h2 : ∀ k ∈ st.2, k ∈ st.1) :
    (normalizeLine st line).2.Nodup ∧
      (∀ k ∈ (normalizeLine st line).2, k ∈ (normalizeLine st line).1) ∧
      (∀ k ∈ st.1, k ∈ (normalizeLine st line).1) := by
  unfold normalizeLine
  have step : ∀ (s : List Str × List Str) (key : Str), s.2.Nodup →
      (∀ k ∈ s.2, k ∈ s.1) →
      (if s.1.contains key then s else (key :: s.1, s.2 ++ [key])).2.Nodup ∧
      (∀ k ∈ (if s.1.contains key then s
          else (key :: s.1, s.2 ++ [key])).2,
        k ∈ (if s.1.contains key then s
          else (key :: s.1, s.2 ++ [key])).1) ∧
      (∀ k ∈ s.1, k ∈ (if s.1.contains key then s
          else (key :: s.1, s.2 ++ [key])).1) := by
    intro s key hs1 hs2
    by_cases hc : s.1.contains key
    · rw [if_pos hc]
      exact ⟨hs1, hs2, fun k hk => hk⟩
    · rw [if_neg hc]
      refine ⟨?_, ?_, ?_⟩
      · rw [List.nodup_append]
        refine ⟨hs1, List.nodup_singleton _, ?_⟩
        intro a ha hb
        rcases List.mem_singleton.mp hb with rfl
        exact hc (List.elem_iff.mpr (hs2 a ha))
      · intro k hk
        rcases List.mem_append.mp hk with h | h
        · exact List.mem_cons_of_mem _ (hs2 k h)
        · rcases List.mem_singleton.mp h with rfl
          exact List.mem_cons_self _ _
      · exact fun k hk => List.mem_cons_of_mem _ hk
  rcases hpy : pySearchFileLine line with _ | ⟨g1, g2⟩ <;> dsimp only
  · rcases hfb : fallbackSearch line with _ | ⟨f1, f2⟩ <;> dsimp only
    · exact ⟨h1, h2, fun k hk => hk⟩
    · by_cases hg : st.1.contains f1
      · rw [if_pos hg]
        exact ⟨h1, h2, fun k hk => hk⟩
      · rw [if_neg hg]
        exact step st _ h1 h2
  · obtain ⟨s1a, s1b, s1c⟩ := step st (basename g1 ++ ':' :: g2) h1 h2
    rcases hfb : fallbackSearch line with _ | ⟨f1, f2⟩ <;> dsimp only
    · exact ⟨s1a, s1b, s1c⟩
    · by_cases hg : (if st.1.contains (basename g1 ++ ':' :: g2) then st
          else ((basename g1 ++ ':' :: g2) :: st.1,
            st.2 ++ [basename g1 ++ ':' :: g2])).1.contains f1
      · rw [if_pos hg]
        exact ⟨s1a, s1b, s1c⟩
      · rw [if_neg hg]
        obtain ⟨a, b, c⟩ := step _ (f1 ++ ':' :: f2) s1a s1b
        exact ⟨a, b, fun k hk => c k (s1c k hk)⟩

/-- The keys of `normalize_traceback` are pairwise distinct. -/
theorem normalize_keys_nodup (T : Str) :
    (normalize_traceback T).keys.Nodup := by
  suffices h : ∀ (lines : List Str) (st : List Str × List Str),
      st.2.Nodup → (∀ k ∈ st.2, k ∈ st.1) →
      (lines.foldl normalizeLine st).2.Nodup by
    exact h _ ([], []) List.nodup_nil (by simp)
  intro lines
  induction lines with
  | nil => intro st h1 _; exact h1
  | cons l ls ih =>
    intro st h1 h2
    obtain ⟨a, b, _⟩ := normalizeLine_invariant st l h1 h2
    exact ih _ a b

theorem ws_not_fallback (c : Char) (h : isWs c = true) :
    isFallbackC c = false := by
  unfold isWs at h
  simp only [Bool.or_eq_true, beq_iff_eq] at h
  rcases h with ((((rfl | rfl) | rfl) | rfl) | rfl) | rfl <;> decide

theorem ws_not_digit (c : Char) (h : isWs c = true) : isDigitC c = false := by
  unfold isWs at h
  simp only [Bool.or_eq_true, beq_iff_eq] at h
  rcases h with ((((rfl | rfl) | rfl) | rfl) | rfl) | rfl <;> decide

theorem ws_not_quote_colon (c : Char) (h : isWs c = true) :
    c ≠ '"' ∧ c ≠ ':' := by
  unfold isWs at h
  simp only [Bool.or_eq_true, beq_iff_eq] at h
  rcases h with ((((rfl | rfl) | rfl) | rfl) | rfl) | rfl <;> exact ⟨by decide, by decide⟩

/-- Characters of a `goodKey` are never quotes, newlines or carriage
returns, and are never whitespace. -/
theorem goodKey_char_facts (k : Str) (h : goodKey k = true) :
    ∀ c ∈ k, c ≠ '"' ∧ c ≠ '\n' ∧ c ≠ '\r' ∧ isWs c = false := by
  intro c hc
  rcases goodKey_chars k h c hc with hf | hco | hd
  · refine ⟨?_, ?_, ?_, ?_⟩
    · rintro rfl; exact absurd hf (by decide)
    · rintro rfl; exact absurd hf (by decide)
    · rintro rfl; exact absurd hf (by decide)
    · cases hw : isWs c with
      | false => rfl
      | true => rw [ws_not_fallback c hw] at hf; cases hf
  · subst hco
    exact ⟨by decide, by decide, by decide, by decide⟩
  · refine ⟨?_, ?_, ?_, ?_⟩
    · rintro rfl; exact absurd hd (by decide)
    · rintro rfl; exact absurd hd (by decide)
    · rintro rfl; exact absurd hd (by decide)
    · cases hw : isWs c with
      | false => rfl
      | true => rw [ws_not_digit c hw] at hd; cases hd

/-- Evaluation of one re-normalisation step on a fresh good key. -/
theorem normalizeLine_goodKey (seen acc : List Str) (k : Str)
    (hg : goodKey k = true) (hnotin : k ∉ seen)
    (hcol : ∀ s ∈ seen, ':' ∈ s) :
    normalizeLine (seen, acc) k = (k :: seen, acc ++ [k]) := by
  obtain ⟨f, n, hk, hf, hfall, hn, hdig⟩ := goodKey_decomp k hg
  have hpy : pySearchFileLine k = none := by
    apply pySearchFileLine_none
    exact fun c hc => (goodKey_char_facts k hg c hc).1
  have hfb : fallbackSearch k = some (f, n) := by
    rw [hk]; exact fallbackSearch_goodKey f n hf hfall hn hdig
  unfold normalizeLine
  rw [hpy, hfb]
  dsimp only
  have hgf : seen.contains f = false := by
    cases hcf : seen.contains f with
    | false => rfl
    | true =>
      exfalso
      have hmem : f ∈ seen := List.elem_iff.mp hcf
      have := hcol f hmem
      have := hfall ':' this
      exact absurd this (by decide)
  have hgk : seen.contains (f ++ ':' :: n) = false := by
    cases hck : seen.contains (f ++ ':' :: n) with
    | false => rfl
    | true =>
      exact absurd (hk ▸ List.elem_iff.mp hck) hnotin
  rw [hgf, hgk]
  simp [hk]

/-- The re-normalisation fold reproduces a fresh list of good keys. -/
theorem renorm_fold (ks : List Str) : ∀ (seen acc : List Str),
    (∀ k ∈ ks, goodKey k = true) → ks.Nodup →
    (∀ k ∈ ks, k ∉ seen) → (∀ s ∈ seen, ':' ∈ s) →
    (ks.foldl normalizeLine (seen, acc)).2 = acc ++ ks := by
  induction ks with
  | nil => intro seen acc _ _ _ _; simp
  | cons k ks ih =>
    intro seen acc hgood hnd hfresh hcol
    have hk := hgood k (List.mem_cons_self _ _)
    have hstep := normalizeLine_goodKey seen acc k hk
      (hfresh k (List.mem_cons_self _ _)) hcol
    obtain ⟨f, n, hkeq, _, hfall, _, _⟩ := goodKey_decomp k hk
    show ((k :: ks).foldl normalizeLine (seen, acc)).2 = acc ++ k :: ks
    rw [List.foldl_cons, hstep]
    rw [ih (k :: seen) (acc ++ [k])
      (fun k' hk' => hgood k' (List.mem_cons_of_mem _ hk'))
      (List.Nodup.of_cons hnd)
      (fun k' hk' => by
        intro hmem
        rcases List.mem_cons.mp hmem with rfl | hmem2
        · exact (List.nodup_cons.mp hnd).1 hk'
        · exact hfresh k' (List.mem_cons_of_mem _ hk') hmem2)
      (fun s hs => by
        rcases List.mem_cons.mp hs with rfl | hs2
        · rw [hkeq]
          exact List.mem_append.mpr (Or.inr (List.mem_cons_self _ _))
        · exact hcol s hs2)]
    simp

-- ── splitlines / joinNL / strip round trip on good keys ─────────────────

theorem splitlinesGo_other {c : Char} (acc rest : Str) (hc1 : c ≠ '\r')
    (hc2 : c ≠ '\n') :
    splitlinesGo acc (c :: rest) = splitlinesGo (c :: acc) rest := by
  rw [splitlinesGo.eq_def]
  split
  · rename_i heq; cases heq
  · rename_i heq
    rw [List.cons.injEq] at heq
    exact absurd heq.1 hc1
  · rename_i heq
    rw [List.cons.injEq] at heq
    exact absurd heq.1 hc1
  · rename_i heq
    rw [List.cons.injEq] at heq
    exact absurd heq.1 hc2
  · rename_i c' rest' heq h1 h2 h3
    rw [List.cons.injEq] at h3
    rw [h3.1, h3.2]

theorem splitlinesGo_single (l : Str) :
    ∀ acc, (∀ c ∈ l, c ≠ '\n' ∧ c ≠ '\r') →
    splitlinesGo acc l =
      if (acc.reverse ++ l).isEmpty then [] else [acc.reverse ++ l] := by
  induction l with
  | nil =>
    intro acc _
    show (if acc.isEmpty then [] else [acc.reverse]) = _
    by_cases h : acc = []
    · subst h; rfl
    · have h1 : acc.isEmpty = false := by
        cases acc with
        | nil => exact absurd rfl h
        | cons c cs => rfl
      have h2 : (acc.reverse ++ []).isEmpty = false := by
        rw [List.append_nil]
        cases hrev : acc.reverse with
        | nil => exact absurd (List.reverse_eq_nil_iff.mp hrev) h
        | cons c cs => rfl
      rw [h1, h2]
      simp
  | cons c cs ih =>
    intro acc h
    have hc := h c (List.mem_cons_self _ _)
    rw [splitlinesGo_other acc cs hc.2 hc.1,
      ih (c :: acc) fun d hd => h d (List.mem_cons_of_mem _ hd)]
    have : (c :: acc).reverse ++ cs = acc.reverse ++ c :: cs := by simp
    rw [this]

theorem splitlinesGo_break (k : Str) :
    ∀ acc rest, (∀ c ∈ k, c ≠ '\n' ∧ c ≠ '\r') →
    splitlinesGo acc (k ++ '\n' :: rest) =
      (acc.reverse ++ k) :: splitlinesGo [] rest := by
  induction k with
  | nil =>
    intro acc rest _
    show splitlinesGo acc ('\n' :: rest) = _
    rw [show splitlinesGo acc ('\n' :: rest) =
      acc.reverse :: splitlinesGo [] rest from rfl]
    simp
  | cons c cs ih =>
    intro acc rest h
    have hc := h c (List.mem_cons_self _ _)
    show splitlinesGo acc (c :: (cs ++ '\n' :: rest)) = _
    rw [splitlinesGo_other acc _ hc.2 hc.1,
      ih (c :: acc) rest fun d hd => h d (List.mem_cons_of_mem _ hd)]
    have : (c :: acc).reverse ++ cs = acc.reverse ++ c :: cs := by simp
    rw [this]

theorem splitlines_joinNL (keys : List Str)
    (h : ∀ k ∈ keys, k ≠ [] ∧ ∀ c ∈ k, c ≠ '\n' ∧ c ≠ '\r') :
    splitlines (joinNL keys) = keys := by
  induction keys with
  | nil => rfl
  | cons k ks ih =>
    cases ks with
    | nil =>
      obtain ⟨hne, hch⟩ := h k (List.mem_cons_self _ _)
      show splitlinesGo [] k = [k]
      rw [splitlinesGo_single k [] hch]
      have : (([] : Str).reverse ++ k).isEmpty = false := by
        cases k with
        | nil => exact absurd rfl hne
        | cons c cs => rfl
      rw [this]
      simp
    | cons k' ks' =>
      obtain ⟨hne, hch⟩ := h k (List.mem_cons_self _ _)
      show splitlinesGo [] (k ++ '\n' :: joinNL (k' :: ks')) = _
      rw [splitlinesGo_break k [] (joinNL (k' :: ks')) hch]
      have := ih fun k2 hk2 => h k2 (List.mem_cons_of_mem _ hk2)
      rw [show splitlines (joinNL (k' :: ks')) =
          splitlinesGo [] (joinNL (k' :: ks')) from rfl] at this
      rw [this]
      simp

theorem lstrip_eq_self_of_head {c : Char} (cs : Str) (h : isWs c = false) :
    lstrip (c :: cs) = c :: cs := lstrip_cons_not_ws h

theorem rstrip_eq_self_of_getLast (s : Str) (d : Char)
    (h : s.getLast? = some d) (hd : isWs d = false) : rstrip s = s := by
  unfold rstrip
  have hrev : s.reverse.head? = some d := by
    rw [List.head?_reverse, h]
  cases hr : s.reverse with
  | nil => rw [hr] at hrev; cases hrev
  | cons e es =>
    rw [hr] at hrev
    have : e = d := by
      simpa using hrev
    subst this
    rw [List.dropWhile_cons_of_neg (by rw [hd]; exact Bool.false_ne_true)]
    rw [← hr, List.reverse_reverse]

theorem joinNL_getLast (keys : List Str) :
    ∀ k, (∀ k2 ∈ keys, k2 ≠ []) → keys.getLast? = some k →
    (joinNL keys).getLast? = k.getLast? := by
  induction keys with
  | nil => intro k _ hk; cases hk
  | cons k0 ks ih =>
    intro k hne hk
    cases ks with
    | nil =>
      have : k0 = k := by simpa using hk
      subst this
      rfl
    | cons k1 ks' =>
      have hlast : (k1 :: ks').getLast? = some k := by
        rw [← hk]
        exact (List.getLast?_cons_cons).symm
      have hjoin := ih k (fun k2 hk2 => hne k2 (List.mem_cons_of_mem _ hk2))
        hlast
      have hkmem : k ∈ k1 :: ks' := by
        obtain ⟨hn, heq⟩ :=
          List.mem_getLast?_eq_getLast (Option.mem_def.mpr hlast)
        rw [heq]
        exact List.getLast_mem hn
      have hkne : k ≠ [] := hne k (List.mem_cons_of_mem _ hkmem)
      obtain ⟨d, hd⟩ : ∃ d, k.getLast? = some d := by
        cases hkl : k.getLast? with
        | none => exact absurd (List.getLast?_eq_none_iff.mp hkl) hkne
        | some d => exact ⟨d, rfl⟩
      have hjne : joinNL (k1 :: ks') ≠ [] := by
        intro hcon
        rw [hcon, hd] at hjoin
        simp at hjoin
      show (k0 ++ '\n' :: joinNL (k1 :: ks')).getLast? = k.getLast?
      rw [List.getLast?_append]
      cases hj : joinNL (k1 :: ks') with
      | nil => exact absurd hj hjne
      | cons c cs =>
        rw [hj] at hjoin
        rw [show ('\n' :: c :: cs).getLast? = (c :: cs).getLast? from
          List.getLast?_cons_cons]
        rw [hjoin, hd]
        rfl

theorem goodKey_ne_nil (k : Str) (h : goodKey k = true) : k ≠ [] := by
  obtain ⟨f, n, hk, hf, _, _, _⟩ := goodKey_decomp k h
  rw [hk]
  cases f with
  | nil => exact absurd rfl hf
  | cons c cs => simp

theorem joinNL_cons (k : Str) (ks : List Str) :
    ∃ t, joinNL (k :: ks) = k ++ t := by
  cases ks with
  | nil => exact ⟨[], by simp [joinNL]⟩
  | cons k1 ks' => exact ⟨'\n' :: joinNL (k1 :: ks'), rfl⟩

/-- `strip` is a no-op on a newline join of good keys. -/
theorem strip_joinNL_good (keys : List Str) (hne : keys ≠ [])
    (hgood : ∀ k ∈ keys, goodKey k = true) :
    strip (joinNL keys) = joinNL keys := by
  cases keys with
  | nil => exact absurd rfl hne
  | cons k0 ks =>
    obtain ⟨t, ht⟩ := joinNL_cons k0 ks
    have hk0 := hgood k0 (List.mem_cons_self _ _)
    have hk0ne := goodKey_ne_nil k0 hk0
    obtain ⟨klast, hklast⟩ : ∃ klast, (k0 :: ks).getLast? = some klast :=
      ⟨(k0 :: ks).getLast (by simp),
        List.getLast?_eq_getLast_of_ne_nil (by simp)⟩
    have hkmem : klast ∈ k0 :: ks := by
      obtain ⟨hn, heq⟩ :=
        List.mem_getLast?_eq_getLast (Option.mem_def.mpr hklast)
      rw [heq]
      exact List.getLast_mem hn
    have hkg := hgood klast hkmem
    have hkne := goodKey_ne_nil klast hkg
    obtain ⟨d, hd⟩ : ∃ d, klast.getLast? = some d := by
      cases hkl : klast.getLast? with
      | none => exact absurd (List.getLast?_eq_none_iff.mp hkl) hkne
      | some d => exact ⟨d, rfl⟩
    have hdmem : d ∈ klast := by
      obtain ⟨hn, heq⟩ := List.mem_getLast?_eq_getLast (Option.mem_def.mpr hd)
      rw [heq]
      exact List.getLast_mem hn
    have hdws : isWs d = false := (goodKey_char_facts klast hkg d hdmem).2.2.2
    have hjlast : (joinNL (k0 :: ks)).getLast? = some d := by
      rw [joinNL_getLast (k0 :: ks) klast
        (fun k2 hk2 => goodKey_ne_nil k2 (hgood k2 hk2)) hklast, hd]
    have hls : lstrip (joinNL (k0 :: ks)) = joinNL (k0 :: ks) := by
      rw [ht]
      cases k0 with
      | nil => exact absurd rfl hk0ne
      | cons c cs =>
        have hcws : isWs c = false :=
          (goodKey_char_facts _ hk0 c (List.mem_cons_self _ _)).2.2.2
        show lstrip (c :: (cs ++ t)) = c :: (cs ++ t)
        exact lstrip_cons_not_ws hcws
    show rstrip (lstrip (joinNL (k0 :: ks))) = joinNL (k0 :: ks)
    rw [hls]
    exact rstrip_eq_self_of_getLast _ d hjlast hdws

/-- C7 counterexample: re-normalizing the canonical form of
`File "my file.py", line 3, in main` does not reproduce it — the first pass
yields the key `my file.py:3`, whose space makes the second pass fall back to
`file.py:3`. -/
theorem c7_counterexample :
    normalize_traceback (normalize_traceback c7T0).canonical ≠
      normalize_traceback c7T0 := by decide

/-- C7 (amended): the normalizer is idempotent on its canonical form
whenever every collected key consists purely of fallback-class characters
`[a-zA-Z0-9_.-]`, a colon and digits (in particular whenever every basename
is free of spaces and other exotic characters); for such traces the
canonical form, fingerprint and snippet of the re-normalization agree with
the original.  Without that proviso idempotence fails (see the
counterexample). -/
theorem c7_normalize_idempotent_good (T : Str)
    (h : ∀ k ∈ (normalize_traceback T).keys, goodKey k = true) :
    normalize_traceback (normalize_traceback T).canonical =
      normalize_traceback T := by
  have hnd : (normalize_traceback T).keys.Nodup := normalize_keys_nodup T
  have hkeys : (normalize_traceback (normalize_traceback T).canonical).keys
      = (normalize_traceback T).keys := by
    by_cases hne : (normalize_traceback T).keys = []
    · show ((splitlines (strip (joinNL (normalize_traceback T).keys))).foldl
        normalizeLine ([], [])).2 = (normalize_traceback T).keys
      rw [hne]
      rfl
    · have hstrip := strip_joinNL_good _ hne h
      have hsplit := splitlines_joinNL (normalize_traceback T).keys
        (fun k hk => ⟨goodKey_ne_nil k (h k hk),
          fun c hc => ⟨(goodKey_char_facts k (h k hk) c hc).2.1,
            (goodKey_char_facts k (h k hk) c hc).2.2.1⟩⟩)
      show ((splitlines (strip (joinNL (normalize_traceback T).keys))).foldl
        normalizeLine ([], [])).2 = (normalize_traceback T).keys
      rw [hstrip, hsplit]
      rw [renorm_fold _ [] [] h hnd (fun k _ => List.not_mem_nil k)
        (fun s hs => absurd hs (List.not_mem_nil s))]
      simp
  have e1 : normalize_traceback (normalize_traceback T).canonical =
      { keys := (normalize_traceback (normalize_traceback T).canonical).keys,
        canonical := joinNL
          (normalize_traceback (normalize_traceback T).canonical).keys,
        snippet := (joinNL
          (normalize_traceback (normalize_traceback T).canonical).keys).take
            500 } := rfl
  have e2 : normalize_traceback T =
      { keys := (normalize_traceback T).keys,
        canonical := joinNL (normalize_traceback T).keys,
        snippet := (joinNL (normalize_traceback T).keys).take 500 } := rfl
  rw [e1, hkeys]
  exact e2.symm

/-- C7 witness: the amended idempotence theorem applied to a concrete
ordinary traceback line. -/
theorem c7_normalize_idempotent_good_witness :
    normalize_traceback (normalize_traceback c7T1).canonical =
      normalize_traceback c7T1 :=
  c7_normalize_idempotent_good c7T1 (by decide)

-- ── C1–C4: the analyze orchestrator ─────────────────────────────────────

/-- C1 (refuted by the code): on the non-empty trace `SomeWeirdError: boom`,
whose error line matches no pattern, with no model flag set and no model
provider available, `analyze` does not return the tier-0 fallback report:
the tier-2 call site passes the keyword `project_context`, which
`analyze_with_llm` does not accept, so the call raises `TypeError` before
the fallback code is reachable. -/
theorem c1_no_pattern_no_provider_raises :
    analyze "SomeWeirdError: boom".toList false false none false true
      envNoLlm = (.error .typeError, []) := by decide

theorem analyzeTier1Down_writes (t : Str) (lang : String) (error_line : Str)
    (error_type error_message : Str)
    (loc : Option Str × Option Nat × Option Str)
    (git_contexts : List GitCtx) (env : AnalyzeEnv) :
    (analyzeTier1Down t lang error_line error_type error_message loc
      git_contexts env).2 = [] := by
  unfold analyzeTier1Down
  dsimp only
  split
  · rfl
  · split
    · rfl
    · split
      · rfl
      · rfl
    · rfl

theorem analyzeAfterDeep_writes (t : Str) (haiku : Bool) (lang : String)
    (error_line : Str) (error_type error_message : Str)
    (loc : Option Str × Option Nat × Option Str)
    (git_contexts : List GitCtx) (env : AnalyzeEnv) :
    (analyzeAfterDeep t haiku lang error_line error_type error_message loc
      git_contexts env).2 = [] := by
  unfold analyzeAfterDeep
  split
  · split
    · rfl
    · split
      · rfl
      · exact analyzeTier1Down_writes ..
    · exact analyzeTier1Down_writes ..
  · exact analyzeTier1Down_writes ..

/-- C2 (refuted by the code): `analyze` performs no Memory Store write on
any invocation whatsoever — the function body contains no call to
`insert_analysis` — so in particular a report produced from a model tier
with memory enabled is never recorded in the analyses table. -/
theorem c2_analyze_never_writes_memory (t : Str) (deep haiku : Bool)
    (project_path : Option Str) (no_git use_memory : Bool)
    (env : AnalyzeEnv) :
    (analyze t deep haiku project_path no_git use_memory env).2 = [] := by
  unfold analyze
  dsimp only
  split
  · split
    · rfl
    · split
      · rfl
      · exact analyzeAfterDeep_writes ..
    · exact analyzeAfterDeep_writes ..
  · exact analyzeAfterDeep_writes ..

/-- C3 (refuted by the code): on `DEMO_GO_TRACEBACK`, the first user frame
emitted after the panic line — the innermost frame — is `main.go:15`, yet
`_extract_location`'s go branch takes the *last* `findall` match, so the
report produced by `analyze` carries `line_number = 22`, the outermost
frame. -/
theorem c3_go_location_takes_last_frame :
    (goLocFindall demoGo).head? =
        some ["/home/user/myapp/main.go".toList, "15".toList] ∧
      extractLocation demoGo =
        (some "/home/user/myapp/main.go".toList, some 22, none) ∧
      (analyze demoGo false false none false true envNoLlm).1 =
        .ok { error_type := "panic".toList,
              error_message :=
                "runtime error: integer divide by zero".toList,
              file_path := some "/home/user/myapp/main.go".toList,
              line_number := some 22,
              function_name := none,
              root_cause := "Division by zero at runtime".toList,
              suggested_fix :=
                "Guard before dividing: if divisor == 0 { return/error }".toList,
              severity := "critical",
              raw_traceback := demoGo, tier := 1, model := none,
              architecture_notes := none, git_blame := none,
              git_context_raw := none } := by decide

/-- C4 (refuted by the code): `analyze` has no empty-input check — on the
empty trace and on a whitespace-only trace it proceeds into the tier
cascade, where the tier-2 keyword binding raises `TypeError`; no InputEmpty
indication is surfaced (none exists in the core), and no memory write
happens.  (The guard lives only in the CLI wrapper, src/cli.py.) -/
theorem c4_empty_trace_no_inputempty :
    analyze [] false false none false true envNoLlm =
        (.error .typeError, []) ∧
      analyze "   ".toList false false none false true envNoLlm =
        (.error .typeError, []) := by decide

-- ── C5: exception-chain relationships ─────────────────────────────────────────

theorem finditerSepGo_mem (lead dollar : Bool) (lit : Str) (rel : String)
    (t : Str) : ∀ (fuel p : Nat) (b : Boundary),
    b ∈ finditerSepGo lead dollar lit rel t fuel p →
    b.rel = rel ∧ sepMatchAt lead dollar lit t b.start = some b.stop := by
  intro fuel
  induction fuel with
  | zero => intro p b hb; cases hb
  | succ fuel ih =>
    intro p b hb
    rw [finditerSepGo.eq_def] at hb
    dsimp only at hb
    by_cases hlen : p > t.length
    · rw [if_pos hlen] at hb; cases hb
    · rw [if_neg hlen] at hb
      cases hm : sepMatchAt lead dollar lit t p with
      | none =>
        rw [hm] at hb
        exact ih (p + 1) b hb
      | some r =>
        rw [hm] at hb
        dsimp only at hb
        by_cases hlt : p < r
        · rw [if_pos hlt] at hb
          rcases List.mem_cons.mp hb with rfl | h2
          · exact ⟨rfl, hm⟩
          · exact ih r b h2
        · rw [if_neg hlt] at hb
          exact ih (p + 1) b hb

theorem finditerSep_mem (lead dollar : Bool) (lit : Str) (rel : String)
    (t : Str) (b : Boundary) (hb : b ∈ finditerSep lead dollar lit rel t) :
    b.rel = rel ∧ sepMatchAt lead dollar lit t b.start = some b.stop :=
  finditerSepGo_mem lead dollar lit rel t _ 0 b hb

theorem pyChainBoundaries_mem (t : Str) (b : Boundary)
    (hb : b ∈ pyChainBoundaries t) :
    (b.rel = "direct_cause" ∧
        sepMatchAt true true PY_DIRECT_CAUSE_LIT t b.start = some b.stop) ∨
      (b.rel = "implicit_context" ∧
        sepMatchAt true true PY_IMPLICIT_CONTEXT_LIT t b.start =
          some b.stop) := by
  unfold pyChainBoundaries at hb
  rw [(List.perm_insertionSort _ _).mem_iff] at hb
  rcases List.mem_append.mp hb with h | h
  · exact Or.inl (finditerSep_mem _ _ _ _ _ _ h)
  · exact Or.inr (finditerSep_mem _ _ _ _ _ _ h)

theorem buildLinksGo_spec (t : Str) : ∀ (bs : List Boundary)
    (acc : List ChainLink) (prevEnd : Nat) (relNext : String),
    ∃ new, buildLinksGo t acc prevEnd relNext bs = acc ++ new ∧
      ∀ i l, new[i]? = some l →
        (l.relationship = relNext ∧ i = 0) ∨
        ∃ b ∈ bs, l.relationship = b.rel := by
  intro bs
  induction bs with
  | nil =>
    intro acc prevEnd relNext
    by_cases hb : (strip (sliceFrom t prevEnd)).isEmpty
    · refine ⟨[], ?_, fun i l hl => by simp at hl⟩
      show (if (strip (sliceFrom t prevEnd)).isEmpty then acc
        else acc ++ [⟨strip (sliceFrom t prevEnd), relNext, acc.length⟩]) =
          acc ++ []
      rw [if_pos hb, List.append_nil]
    · refine ⟨[⟨strip (sliceFrom t prevEnd), relNext, acc.length⟩], ?_, ?_⟩
      · show (if (strip (sliceFrom t prevEnd)).isEmpty then acc
          else acc ++ [⟨strip (sliceFrom t prevEnd), relNext, acc.length⟩]) =
            _
        rw [if_neg hb]
      · intro i l hl
        cases i with
        | zero =>
          refine Or.inl ⟨?_, rfl⟩
          have hx : (⟨strip (sliceFrom t prevEnd), relNext,
              acc.length⟩ : ChainLink) = l := by simpa using hl
          rw [← hx]
        | succ j => simp at hl
  | cons b bs ih =>
    intro acc prevEnd relNext
    have hstep : buildLinksGo t acc prevEnd relNext (b :: bs) =
        buildLinksGo t
          (if (strip (slice t prevEnd b.start)).isEmpty then acc
            else acc ++ [⟨strip (slice t prevEnd b.start), relNext,
              acc.length⟩])
          b.stop b.rel bs := rfl
    by_cases hb : (strip (slice t prevEnd b.start)).isEmpty
    · obtain ⟨new, heq, hprop⟩ := ih acc b.stop b.rel
      refine ⟨new, by rw [hstep, if_pos hb, heq], ?_⟩
      intro i l hl
      rcases hprop i l hl with ⟨hr, hi⟩ | ⟨b', hb', hr⟩
      · exact Or.inr ⟨b, List.mem_cons_self _ _, hr⟩
      · exact Or.inr ⟨b', List.mem_cons_of_mem _ hb', hr⟩
    · obtain ⟨new, heq, hprop⟩ :=
        ih (acc ++ [⟨strip (slice t prevEnd b.start), relNext, acc.length⟩])
          b.stop b.rel
      refine ⟨⟨strip (slice t prevEnd b.start), relNext, acc.length⟩ :: new,
        ?_, ?_⟩
      · rw [hstep, if_neg hb, heq, List.append_assoc]
        rfl
      · intro i l hl
        cases i with
        | zero =>
          refine Or.inl ⟨?_, rfl⟩
          have hx : (⟨strip (slice t prevEnd b.start), relNext,
              acc.length⟩ : ChainLink) = l := by simpa using hl
          rw [← hx]
        | succ j =>
          rw [List.getElem?_cons_succ] at hl
          rcases hprop j l hl with ⟨hr, hi⟩ | ⟨b', hb', hr⟩
          · exact Or.inr ⟨b, List.mem_cons_self _ _, hr⟩
          · exact Or.inr ⟨b', List.mem_cons_of_mem _ hb', hr⟩

theorem parseCausedGo_spec : ∀ (parts : List Str) (acc : List ChainLink)
    (i : Nat),
    ∃ new, parseCausedGo acc i parts = acc ++ new ∧
      ∀ j l, new[j]? = some l →
        l.relationship = "caused_by" ∨
        (l.relationship = "root" ∧ i = 0 ∧ j = 0) := by
  intro parts
  induction parts with
  | nil =>
    intro acc i
    exact ⟨[], by simp [parseCausedGo], fun j l hl => by simp at hl⟩
  | cons part parts ih =>
    intro acc i
    have hstep : parseCausedGo acc i (part :: parts) =
        if (strip part).isEmpty then parseCausedGo acc (i + 1) parts
        else
          parseCausedGo
            (acc ++ [⟨strip part,
              if i == 0 then "root" else "caused_by", acc.length⟩])
            (i + 1) parts := rfl
    by_cases hb : (strip part).isEmpty
    · obtain ⟨new, heq, hprop⟩ := ih acc (i + 1)
      refine ⟨new, by rw [hstep, if_pos hb, heq], ?_⟩
      intro j l hl
      rcases hprop j l hl with hc | ⟨hr, hi, hj⟩
      · exact Or.inl hc
      · exact absurd hi (Nat.succ_ne_zero i)
    · obtain ⟨new, heq, hprop⟩ :=
        ih (acc ++ [⟨strip part,
          if i == 0 then "root" else "caused_by", acc.length⟩]) (i + 1)
      refine ⟨⟨strip part, if i == 0 then "root" else "caused_by",
        acc.length⟩ :: new, ?_, ?_⟩
      · rw [hstep, if_neg hb, heq, List.append_assoc]
        rfl
      · intro j l hl
        cases j with
        | zero =>
          have hle : (⟨strip part,
              if i == 0 then "root" else "caused_by",
              acc.length⟩ : ChainLink) = l := by simpa using hl
          by_cases hi : i = 0
          · subst hi
            refine Or.inr ⟨?_, rfl, rfl⟩
            rw [← hle]
            rfl
          · have hibeq : (i == 0) = false := by simpa using hi
            refine Or.inl ?_
            rw [← hle]
            show (if i == 0 then "root" else "caused_by") = "caused_by"
            rw [hibeq]
            rfl
        | succ k =>
          rw [List.getElem?_cons_succ] at hl
          rcases hprop k l hl with hc | ⟨hr, hi, hj⟩
          · exact Or.inl hc
          · exact absurd hi (Nat.succ_ne_zero i)

theorem parsePythonChain_nil (t : Str) (hB : pyChainBoundaries t = []) :
    parsePythonChain t = [⟨strip t, "root", 0⟩] := by
  show (if (pyChainBoundaries t).isEmpty then [⟨strip t, "root", 0⟩]
    else buildLinksGo t [] 0 "root" (pyChainBoundaries t)) = _
  rw [hB]
  rfl

theorem parsePythonChain_cons (t : Str) (b0 : Boundary) (bs : List Boundary)
    (hB : pyChainBoundaries t = b0 :: bs) :
    parsePythonChain t = buildLinksGo t [] 0 "root" (b0 :: bs) := by
  show (if (pyChainBoundaries t).isEmpty then [⟨strip t, "root", 0⟩]
    else buildLinksGo t [] 0 "root" (pyChainBoundaries t)) = _
  rw [hB]
  rfl

theorem parsePythonChain_rel_pos (t : Str) (i : Nat) (l : ChainLink)
    (hi : 0 < i) (hgl : (parsePythonChain t)[i]? = some l) :
    l.relationship = "direct_cause" ∨
      l.relationship = "implicit_context" := by
  cases hB : pyChainBoundaries t with
  | nil =>
    rw [parsePythonChain_nil t hB] at hgl
    cases i with
    | zero => exact absurd hi (by omega)
    | succ j => simp at hgl
  | cons b0 bs =>
    obtain ⟨new, heq, hprop⟩ := buildLinksGo_spec t (b0 :: bs) [] 0 "root"
    rw [List.nil_append] at heq
    rw [parsePythonChain_cons t b0 bs hB, heq] at hgl
    rcases hprop i l hgl with ⟨_, hi0⟩ | ⟨b, hbmem, hr⟩
    · omega
    · have hbmem2 : b ∈ pyChainBoundaries t := by rw [hB]; exact hbmem
      rcases pyChainBoundaries_mem t b hbmem2 with ⟨hrel, _⟩ | ⟨hrel, _⟩
      · exact Or.inl (hr.trans hrel)
      · exact Or.inr (hr.trans hrel)

theorem parsePythonChain_head_root (t : Str) (b0 : Boundary)
    (bs : List Boundary) (hB : pyChainBoundaries t = b0 :: bs)
    (hblank : (strip (slice t 0 b0.start)).isEmpty = false) :
    (parsePythonChain t).head?.map (fun l => l.relationship) =
      some "root" := by
  have hstep : buildLinksGo t [] 0 "root" (b0 :: bs) =
      buildLinksGo t [⟨strip (slice t 0 b0.start), "root", 0⟩] b0.stop
        b0.rel bs := by
    show buildLinksGo t
      (if (strip (slice t 0 b0.start)).isEmpty then []
        else [⟨strip (slice t 0 b0.start), "root", 0⟩]) b0.stop b0.rel bs = _
    rw [hblank]
    rfl
  obtain ⟨new, heq, _⟩ := buildLinksGo_spec t bs
    [⟨strip (slice t 0 b0.start), "root", 0⟩] b0.stop b0.rel
  rw [parsePythonChain_cons t b0 bs hB, hstep, heq]
  rfl

theorem parseNodeChain_nil (t : Str) (hB : nodeCausedBySeps t = []) :
    parseNodeChain t = [⟨strip t, "root", 0⟩] := by
  show (if (nodeCausedBySeps t).isEmpty then [⟨strip t, "root", 0⟩]
    else parseCausedGo [] 0 (splitPartsGo t 0 (nodeCausedBySeps t))) = _
  rw [hB]
  rfl

theorem parseNodeChain_cons (t : Str) (b0 : Boundary) (bs : List Boundary)
    (hB : nodeCausedBySeps t = b0 :: bs) :
    parseNodeChain t = parseCausedGo [] 0 (splitPartsGo t 0 (b0 :: bs)) := by
  show (if (nodeCausedBySeps t).isEmpty then [⟨strip t, "root", 0⟩]
    else parseCausedGo [] 0 (splitPartsGo t 0 (nodeCausedBySeps t))) = _
  rw [hB]
  rfl

theorem parseRustChain_nil (t : Str) (hB : rustCausedBySeps t = []) :
    parseRustChain t = [⟨strip t, "root", 0⟩] := by
  show (if (rustCausedBySeps t).isEmpty then [⟨strip t, "root", 0⟩]
    else parseCausedGo [] 0 (splitPartsGo t 0 (rustCausedBySeps t))) = _
  rw [hB]
  rfl

theorem parseRustChain_cons (t : Str) (b0 : Boundary) (bs : List Boundary)
    (hB : rustCausedBySeps t = b0 :: bs) :
    parseRustChain t = parseCausedGo [] 0 (splitPartsGo t 0 (b0 :: bs)) := by
  show (if (rustCausedBySeps t).isEmpty then [⟨strip t, "root", 0⟩]
    else parseCausedGo [] 0 (splitPartsGo t 0 (rustCausedBySeps t))) = _
  rw [hB]
  rfl

theorem parseCaused_rel_pos (parts : List Str) (i : Nat) (l : ChainLink)
    (hi : 0 < i) (hgl : (parseCausedGo [] 0 parts)[i]? = some l) :
    l.relationship = "caused_by" := by
  obtain ⟨new, heq, hprop⟩ := parseCausedGo_spec parts [] 0
  rw [List.nil_append] at heq
  rw [heq] at hgl
  rcases hprop i l hgl with hc | ⟨_, _, hj⟩
  · exact hc
  · omega

theorem parseCaused_head_root (t : Str) (b0 : Boundary) (bs : List Boundary)
    (hblank : (strip (slice t 0 b0.start)).isEmpty = false) :
    (parseCausedGo [] 0 (splitPartsGo t 0 (b0 :: bs))).head?.map
      (fun l => l.relationship) = some "root" := by
  have hstep : parseCausedGo [] 0 (splitPartsGo t 0 (b0 :: bs)) =
      parseCausedGo [⟨strip (slice t 0 b0.start), "root", 0⟩] 1
        (splitPartsGo t b0.stop bs) := by
    show (if (strip (slice t 0 b0.start)).isEmpty then
        parseCausedGo [] 1 (splitPartsGo t b0.stop bs)
      else parseCausedGo [⟨strip (slice t 0 b0.start), "root", 0⟩] 1
        (splitPartsGo t b0.stop bs)) = _
    rw [hblank]
    rfl
  obtain ⟨new, heq, _⟩ := parseCausedGo_spec (splitPartsGo t b0.stop bs)
    [⟨strip (slice t 0 b0.start), "root", 0⟩] 1
  rw [hstep, heq]
  rfl


theorem pec_links_python (t : Str) (h : detect_language t = "python") :
    (parse_exception_chain t).links = parsePythonChain t := by
  show (if detect_language t = "python" then
      (⟨parsePythonChain t, detect_language t⟩ : ExceptionChain)
    else if detect_language t = "node" then
      ⟨parseNodeChain t, detect_language t⟩
    else if detect_language t = "rust" then
      ⟨parseRustChain t, detect_language t⟩
    else ⟨[⟨strip t, "root", 0⟩], detect_language t⟩).links = _
  rw [if_pos h]

theorem pec_links_node (t : Str) (h1 : ¬detect_language t = "python")
    (h : detect_language t = "node") :
    (parse_exception_chain t).links = parseNodeChain t := by
  show (if detect_language t = "python" then
      (⟨parsePythonChain t, detect_language t⟩ : ExceptionChain)
    else if detect_language t = "node" then
      ⟨parseNodeChain t, detect_language t⟩
    else if detect_language t = "rust" then
      ⟨parseRustChain t, detect_language t⟩
    else ⟨[⟨strip t, "root", 0⟩], detect_language t⟩).links = _
  rw [if_neg h1, if_pos h]

theorem pec_links_rust (t : Str) (h1 : ¬detect_language t = "python")
    (h2 : ¬detect_language t = "node") (h : detect_language t = "rust") :
    (parse_exception_chain t).links = parseRustChain t := by
  show (if detect_language t = "python" then
      (⟨parsePythonChain t, detect_language t⟩ : ExceptionChain)
    else if detect_language t = "node" then
      ⟨parseNodeChain t, detect_language t⟩
    else if detect_language t = "rust" then
      ⟨parseRustChain t, detect_language t⟩
    else ⟨[⟨strip t, "root", 0⟩], detect_language t⟩).links = _
  rw [if_neg h1, if_neg h2, if_pos h]

theorem pec_links_other (t : Str) (h1 : ¬detect_language t = "python")
    (h2 : ¬detect_language t = "node") (h3 : ¬detect_language t = "rust") :
    (parse_exception_chain t).links = [⟨strip t, "root", 0⟩] := by
  show (if detect_language t = "python" then
      (⟨parsePythonChain t, detect_language t⟩ : ExceptionChain)
    else if detect_language t = "node" then
      ⟨parseNodeChain t, detect_language t⟩
    else if detect_language t = "rust" then
      ⟨parseRustChain t, detect_language t⟩
    else ⟨[⟨strip t, "root", 0⟩], detect_language t⟩).links = _
  rw [if_neg h1, if_neg h2, if_neg h3]

theorem fsb_python (t : Str) (h : detect_language t = "python") :
    firstSegmentBlank t = (match pyChainBoundaries t with
      | [] => false
      | b :: _ => (strip (slice t 0 b.start)).isEmpty) := by
  show (if detect_language t = "python" then
      match pyChainBoundaries t with
      | [] => false
      | b :: _ => (strip (slice t 0 b.start)).isEmpty
    else if detect_language t = "node" then
      match nodeCausedBySeps t with
      | [] => false
      | b :: _ => (strip (slice t 0 b.start)).isEmpty
    else if detect_language t = "rust" then
      match rustCausedBySeps t with
      | [] => false
      | b :: _ => (strip (slice t 0 b.start)).isEmpty
    else false) = _
  rw [if_pos h]

theorem fsb_node (t : Str) (h1 : ¬detect_language t = "python")
    (h : detect_language t = "node") :
    firstSegmentBlank t = (match nodeCausedBySeps t with
      | [] => false
      | b :: _ => (strip (slice t 0 b.start)).isEmpty) := by
  show (if detect_language t = "python" then
      match pyChainBoundaries t with
      | [] => false
      | b :: _ => (strip (slice t 0 b.start)).isEmpty
    else if detect_language t = "node" then
      match nodeCausedBySeps t with
      | [] => false
      | b :: _ => (strip (slice t 0 b.start)).isEmpty
    else if detect_language t = "rust" then
      match rustCausedBySeps t with
      | [] => false
      | b :: _ => (strip (slice t 0 b.start)).isEmpty
    else false) = _
  rw [if_neg h1, if_pos h]

theorem fsb_rust (t : Str) (h1 : ¬detect_language t = "python")
    (h2 : ¬detect_language t = "node") (h : detect_language t = "rust") :
    firstSegmentBlank t = (match rustCausedBySeps t with
      | [] => false
      | b :: _ => (strip (slice t 0 b.start)).isEmpty) := by
  show (if detect_language t = "python" then
      match pyChainBoundaries t with
      | [] => false
      | b :: _ => (strip (slice t 0 b.start)).isEmpty
    else if detect_language t = "node" then
      match nodeCausedBySeps t with
      | [] => false
      | b :: _ => (strip (slice t 0 b.start)).isEmpty
    else if detect_language t = "rust" then
      match rustCausedBySeps t with
      | [] => false
      | b :: _ => (strip (slice t 0 b.start)).isEmpty
    else false) = _
  rw [if_neg h1, if_neg h2, if_pos h]


/-- C5 counterexample: on a trace that begins with a chain separator (blank
text before it) and is still detected as Python, the would-be root link is
dropped and the first link carries the separator relationship
`direct_cause`, not `root`. -/
theorem c5_counterexample :
    ((parse_exception_chain c5T0).links.map (fun l => l.relationship)) =
      ["direct_cause"] := by decide

/-- C5 (amended): every link of `parse_exception_chain` at index `i > 0`
carries a separator relationship (`direct_cause`, `implicit_context` or
`caused_by`), and the link at index 0 has relationship `root` whenever the
text before the first separator is non-blank; when that text is blank the
root link is dropped (empty segments are dropped) and the first link
inherits the preceding separator relationship instead — see the
counterexample. -/
theorem c5_chain_relationship_taxonomy (t : Str) :
    (∀ i l, 0 < i → (parse_exception_chain t).links[i]? = some l →
        l.relationship ∈
          (["direct_cause", "implicit_context", "caused_by"] :
            List String)) ∧
      (firstSegmentBlank t = false →
        (parse_exception_chain t).links.head?.map
          (fun l => l.relationship) = some "root") := by
  by_cases hpy : detect_language t = "python"
  · have hl := pec_links_python t hpy
    constructor
    · intro i l hi hgl
      rw [hl] at hgl
      rcases parsePythonChain_rel_pos t i l hi hgl with h | h
      · rw [h]; simp
      · rw [h]; simp
    · intro hfsb
      rw [hl]
      rw [fsb_python t hpy] at hfsb
      cases hB : pyChainBoundaries t with
      | nil =>
        rw [parsePythonChain_nil t hB]
        rfl
      | cons b0 bs =>
        rw [hB] at hfsb
        exact parsePythonChain_head_root t b0 bs hB (by simpa using hfsb)
  · by_cases hnode : detect_language t = "node"
    · have hl := pec_links_node t hpy hnode
      constructor
      · intro i l hi hgl
        rw [hl] at hgl
        cases hB : nodeCausedBySeps t with
        | nil =>
          rw [parseNodeChain_nil t hB] at hgl
          cases i with
          | zero => exact absurd hi (by omega)
          | succ j => simp at hgl
        | cons b0 bs =>
          rw [parseNodeChain_cons t b0 bs hB] at hgl
          rw [parseCaused_rel_pos _ i l hi hgl]
          simp
      · intro hfsb
        rw [hl]
        rw [fsb_node t hpy hnode] at hfsb
        cases hB : nodeCausedBySeps t with
        | nil =>
          rw [parseNodeChain_nil t hB]
          rfl
        | cons b0 bs =>
          rw [hB] at hfsb
          rw [parseNodeChain_cons t b0 bs hB]
          exact parseCaused_head_root t b0 bs (by simpa using hfsb)
    · by_cases hrust : detect_language t = "rust"
      · have hl := pec_links_rust t hpy hnode hrust
        constructor
        · intro i l hi hgl
          rw [hl] at hgl
          cases hB : rustCausedBySeps t with
          | nil =>
            rw [parseRustChain_nil t hB] at hgl
            cases i with
            | zero => exact absurd hi (by omega)
            | succ j => simp at hgl
          | cons b0 bs =>
            rw [parseRustChain_cons t b0 bs hB] at hgl
            rw [parseCaused_rel_pos _ i l hi hgl]
            simp
        · intro hfsb
          rw [hl]
          rw [fsb_rust t hpy hnode hrust] at hfsb
          cases hB : rustCausedBySeps t with
          | nil =>
            rw [parseRustChain_nil t hB]
            rfl
          | cons b0 bs =>
            rw [hB] at hfsb
            rw [parseRustChain_cons t b0 bs hB]
            exact parseCaused_head_root t b0 bs (by simpa using hfsb)
      · have hl := pec_links_other t hpy hnode hrust
        constructor
        · intro i l hi hgl
          rw [hl] at hgl
          cases i with
          | zero => exact absurd hi (by omega)
          | succ j => simp at hgl
        · intro _
          rw [hl]
          rfl


-- ── C6: batch extraction of chained traces ───────────────────────────────

theorem pyGroupsGo_single (t : Str) : ∀ (ss : List Nat) (prev cs : Nat),
    List.Chain (fun a b => pyChainSepSearch (slice t a b) = true) prev ss →
    pyGroupsGo t cs prev ss = [(cs, t.length)] := by
  intro ss
  induction ss with
  | nil => intro prev cs _; rfl
  | cons s ss ih =>
    intro prev cs hch
    cases hch with
    | cons hsep hch2 =>
      show (if pyChainSepSearch (slice t prev s) then pyGroupsGo t cs s ss
        else (cs, s) :: pyGroupsGo t s s ss) = _
      rw [if_pos hsep]
      exact ih s cs hch2

theorem mem_pyTbStarts (t : Str) (p : Nat) (hp : p ∈ pyTbStarts t) :
    occursAt PY_TB_START_LIT t p = true := by
  unfold pyTbStarts at hp
  have h2 := List.of_mem_filter hp
  exact (Bool.and_eq_true_iff.mp (by simpa using h2)).2

theorem strip_drop_header (t : Str) (p : Nat)
    (h : occursAt PY_TB_START_LIT t p = true) :
    ∃ xs, strip (sliceFrom t p) = 'T' :: xs := by
  obtain ⟨rest, hrest⟩ := List.isPrefixOf_iff_prefix.mp h
  have hlit : PY_TB_START_LIT = 'T' :: PY_TB_START_LIT.tail := rfl
  have hdrop : t.drop p = 'T' :: (PY_TB_START_LIT.tail ++ rest) := by
    rw [← hrest]
    rfl
  have hTws : isWs 'T' = false := by decide
  have hls : lstrip (sliceFrom t p) = t.drop p := by
    show lstrip (t.drop p) = t.drop p
    rw [hdrop]
    exact lstrip_cons_not_ws hTws
  have hrs_ne : rstrip (t.drop p) ≠ [] := by
    intro hcon
    have := (rstrip_nil_iff _).mp hcon
    rw [hdrop] at this
    simp only [List.all_cons, Bool.and_eq_true] at this
    rw [hTws] at this
    exact Bool.false_ne_true this.1
  obtain ⟨u, hu⟩ := rstrip_isPrefix (t.drop p)
  cases hr : rstrip (t.drop p) with
  | nil => exact absurd hr hrs_ne
  | cons c cs =>
    rw [hr] at hu
    rw [hdrop] at hu
    have hc : c = 'T' := by
      have := List.cons.injEq c (cs ++ u) 'T'
        (PY_TB_START_LIT.tail ++ rest) ▸ hu
      exact (List.cons.injEq .. ▸ hu : _ ∧ _).1
    refine ⟨cs, ?_⟩
    show rstrip (lstrip (sliceFrom t p)) = 'T' :: cs
    rw [hls]
    show rstrip (t.drop p) = 'T' :: cs
    rw [hr, hc]

theorem splitlinesGo_cr (acc : Str) (c2 : Char) (cs2 : Str)
    (hn : c2 ≠ '\n') :
    splitlinesGo acc ('\r' :: c2 :: cs2) =
      acc.reverse :: splitlinesGo [] (c2 :: cs2) := by
  rw [splitlinesGo.eq_def]
  split
  · rename_i heq; cases heq
  · rename_i rest heq
    rw [List.cons.injEq, List.cons.injEq] at heq
    exact absurd heq.2.1 hn
  · rename_i rest heq
    rw [List.cons.injEq] at heq
    rw [heq.2]
  · rename_i rest heq
    rw [List.cons.injEq] at heq
    exact absurd heq.1 (by decide)
  · rename_i c' rest' heq h1 h2 h3
    rw [List.cons.injEq] at h3
    exact absurd h3.1.symm h1

theorem splitlinesGo_head (s : Str) : ∀ acc, acc ≠ [] →
    ∃ l rest, splitlinesGo acc s = (acc.reverse ++ l) :: rest := by
  induction s with
  | nil =>
    intro acc hacc
    refine ⟨[], [], ?_⟩
    have h1 : acc.isEmpty = false := by
      cases acc with
      | nil => exact absurd rfl hacc
      | cons c cs => rfl
    show (if acc.isEmpty then [] else [acc.reverse]) = _
    rw [h1, List.append_nil]
    rfl
  | cons c cs ih =>
    intro acc hacc
    by_cases hr : c = '\r'
    · subst hr
      cases cs with
      | nil =>
        refine ⟨[], [], ?_⟩
        rw [List.append_nil]
        rfl
      | cons c2 cs2 =>
        by_cases hn : c2 = '\n'
        · subst hn
          refine ⟨[], splitlinesGo [] cs2, ?_⟩
          rw [List.append_nil]
          rfl
        · refine ⟨[], splitlinesGo [] (c2 :: cs2), ?_⟩
          rw [List.append_nil]
          exact splitlinesGo_cr acc c2 cs2 hn
    · by_cases hnl : c = '\n'
      · subst hnl
        refine ⟨[], splitlinesGo [] cs, ?_⟩
        rw [List.append_nil]
        rfl
      · rw [splitlinesGo_other acc cs hr hnl]
        obtain ⟨l, rest, hlr⟩ := ih (c :: acc) (by simp)
        refine ⟨c :: l, rest, ?_⟩
        rw [hlr]
        have : (c :: acc).reverse ++ l = acc.reverse ++ c :: l := by simp
        rw [this]

theorem splitlines_header (b : Str) (xs : Str) (hb : b = 'T' :: xs) :
    ∃ l rest, splitlines b = ('T' :: l) :: rest := by
  subst hb
  have h1 : splitlines ('T' :: xs) = splitlinesGo ['T'] xs :=
    splitlinesGo_other [] xs (by decide) (by decide)
  obtain ⟨l, rest, hlr⟩ := splitlinesGo_head xs ['T'] (by simp)
  exact ⟨l, rest, by rw [h1, hlr]; rfl⟩

theorem trimTrailingNoise_ne (block : Str) (c : Char) (l : Str)
    (rest : List Str) (hsplit : splitlines block = (c :: l) :: rest) :
    (trimTrailingNoise block).isEmpty = false := by
  have hstep : trimTrailingNoise block =
      joinNL (((c :: l) :: rest).take
        ((lastStopIdx ((c :: l) :: rest)).getD
          (((c :: l) :: rest).length - 1) + 1)) := by
    show (if (splitlines block).isEmpty then block
      else joinNL ((splitlines block).take
        ((lastStopIdx (splitlines block)).getD
          ((splitlines block).length - 1) + 1))) = _
    rw [hsplit]
    rfl
  rw [hstep]
  rw [List.take_succ_cons]
  obtain ⟨u, hu⟩ := joinNL_cons (c :: l)
    (rest.take ((lastStopIdx ((c :: l) :: rest)).getD
      (((c :: l) :: rest).length - 1)))
  rw [hu]
  rfl

theorem slice_full (t : Str) (p : Nat) : slice t p t.length = sliceFrom t p := by
  unfold slice sliceFrom
  rw [List.take_length]

/-- C6 (amended): for every trace whose Python traceback anchors are
`s0 :: rest` and which has a Python chain separator between every adjacent
pair of anchors, the batch extractor returns exactly one block — a single
chained unit is never split — but the block is `trimTrailingNoise
(strip (t[s0:]))` rather than the trace unchanged: text before the first
anchor is dropped, the block is stripped, and trailing noise lines after the
last error line are trimmed (see the counterexample). -/
theorem c6_chained_python_single_block (t : Str) (s0 : Nat) (rest : List Nat)
    (hstarts : pyTbStarts t = s0 :: rest)
    (hchain : List.Chain
      (fun a b => pyChainSepSearch (slice t a b) = true) s0 rest) :
    extract_tracebacks t = [trimTrailingNoise (strip (sliceFrom t s0))] := by
  have hocc : occursAt PY_TB_START_LIT t s0 = true :=
    mem_pyTbStarts t s0 (by rw [hstarts]; exact List.mem_cons_self _ _)
  obtain ⟨xs, hxs⟩ := strip_drop_header t s0 hocc
  obtain ⟨l, lrest, hsplit⟩ := splitlines_header _ xs hxs
  have hne := trimTrailingNoise_ne (strip (sliceFrom t s0)) 'T' l lrest hsplit
  have hgroups : pyGroupsGo t s0 s0 rest = [(s0, t.length)] :=
    pyGroupsGo_single t rest s0 s0 hchain
  have hext : extract_tracebacks t = extractPythonBlocks t (s0 :: rest) := by
    show (if !(pyTbStarts t).isEmpty then extractPythonBlocks t (pyTbStarts t)
      else
        let node := nodeStarts t
        if !node.isEmpty then extractGenericBlocks t node
        else
          let rust := rustStarts t
          if !rust.isEmpty then extractGenericBlocks t rust
          else []) = _
    rw [hstarts]
    rfl
  rw [hext]
  show ((pyGroupsGo t s0 s0 rest).map fun g =>
    trimTrailingNoise (strip (slice t g.1 g.2))).filter
      (fun b => !b.isEmpty) = _
  rw [hgroups]
  show [trimTrailingNoise (strip (slice t s0 t.length))].filter
    (fun b => !b.isEmpty) = _
  rw [slice_full]
  simp [List.filter_cons, hne]


/-- C6 counterexample: a chained Python trace with a trailing noise line
`boom2` is returned as one block (never split), but not unchanged — the
trailing line is trimmed, so the result differs from `[C]`. -/
theorem c6_counterexample :
    pyTbStarts c6T0 = [0, 119] ∧
      pyChainSepSearch (slice c6T0 0 119) = true ∧
      extract_tracebacks c6T0 ≠ [c6T0] := by decide

/-- C6 witness: the amended theorem applied to a two-header chained trace
whose anchors are 0 and 119, with the separator between them. -/
theorem c6_chained_python_single_block_witness :
    extract_tracebacks c6W =
      [trimTrailingNoise (strip (sliceFrom c6W 0))] :=
  c6_chained_python_single_block c6W 0 [119] (by decide)
    (List.Chain.cons (by decide) List.Chain.nil)

-- ── C10: link-list invariants of parse_exception_chain ──────────────────

theorem charAt_eq_getElem (t : Str) (i : Nat) (h : i < t.length) :
    charAt t i = t[i] := by
  unfold charAt
  rw [List.headD_eq_head?]
  rw [List.head?_drop]
  rw [List.getElem?_eq_getElem h]
  rfl

theorem charAt_mem (t : Str) (i : Nat) (h : i < t.length) : charAt t i ∈ t := by
  rw [charAt_eq_getElem t i h]
  exact List.getElem_mem h

theorem charAt_mem_of_ne_nul (t : Str) (i : Nat)
    (h : charAt t i ≠ '\x00') : charAt t i ∈ t := by
  by_cases hi : i < t.length
  · exact charAt_mem t i hi
  · exfalso
    apply h
    unfold charAt
    rw [List.drop_eq_nil_of_le (by omega)]
    rfl

theorem mem_exists_charAt (t : Str) (c : Char) (hc : c ∈ t) :
    ∃ i, i < t.length ∧ charAt t i = c := by
  obtain ⟨i, hi, hgi⟩ := List.mem_iff_getElem.mp hc
  exact ⟨i, hi, by rw [charAt_eq_getElem t i hi]; exact hgi⟩

theorem wsRunEndGo_ws (t : Str) : ∀ (fuel p i : Nat), p ≤ i →
    i < wsRunEndGo t fuel p → isWs (charAt t i) = true := by
  intro fuel
  induction fuel with
  | zero =>
    intro p i hpi hlt
    exact absurd hlt (by show ¬ i < p; omega)
  | succ fuel ih =>
    intro p i hpi hlt
    rw [wsRunEndGo.eq_def] at hlt
    dsimp only at hlt
    cases hd : t.drop p with
    | nil =>
      rw [hd] at hlt
      exact absurd hlt (by show ¬ i < p; omega)
    | cons c cs =>
      rw [hd] at hlt
      dsimp only at hlt
      by_cases hws : isWs c
      · rw [if_pos hws] at hlt
        by_cases hip : i = p
        · subst hip
          unfold charAt
          rw [hd]
          exact hws
        · exact ih (p + 1) i (by omega) hlt
      · rw [if_neg hws] at hlt
        exact absurd hlt (by omega)

theorem wsRunEnd_ws (t : Str) (p i : Nat) (hpi : p ≤ i)
    (hlt : i < wsRunEnd t p) : isWs (charAt t i) = true :=
  wsRunEndGo_ws t _ p i hpi hlt

theorem wsRunEndGo_ge (t : Str) : ∀ (fuel p : Nat), p ≤ wsRunEndGo t fuel p := by
  intro fuel
  induction fuel with
  | zero => intro p; exact Nat.le_refl p
  | succ fuel ih =>
    intro p
    rw [wsRunEndGo.eq_def]
    dsimp only
    cases hd : t.drop p with
    | nil => exact Nat.le_refl p
    | cons c cs =>
      dsimp only
      by_cases hws : isWs c
      · rw [if_pos hws]
        exact Nat.le_trans (Nat.le_succ p) (ih (p + 1))
      · rw [if_neg hws]

theorem lastDollarGo_le (t : Str) (q : Nat) : ∀ (fuel r r' : Nat),
    lastDollarGo t q fuel r = some r' → r' ≤ r := by
  intro fuel
  induction fuel with
  | zero => intro r r' h; cases h
  | succ fuel ih =>
    intro r r' h
    rw [lastDollarGo.eq_def] at h
    dsimp only at h
    by_cases h1 : (r == t.length || charAt t r == '\n') = true
    · rw [if_pos h1] at h
      have : r = r' := by simpa using h
      omega
    · rw [if_neg h1] at h
      by_cases h2 : r ≤ q
      · rw [if_pos h2] at h
        cases h
      · rw [if_neg h2] at h
        have := ih (r - 1) r' h
        omega

theorem occursAt_char_at (pat t : Str) (k : Nat)
    (h : occursAt pat t k = true) :
    ∀ i, k ≤ i → i < k + pat.length → charAt t i ∈ pat := by
  intro i hki hilt
  obtain ⟨rest, hrest⟩ := (List.isPrefixOf_iff_prefix.mp h : pat <+: t.drop k)
  have hdrop : t.drop i = (pat ++ rest).drop (i - k) := by
    rw [hrest, List.drop_drop]
    congr 1
    omega
  have hlen : i - k < pat.length := by omega
  have hsplit : (pat ++ rest).drop (i - k) = pat.drop (i - k) ++ rest :=
    List.drop_append_of_le_length (by omega)
  have hpatne : pat.drop (i - k) ≠ [] := by
    intro hcon
    have := List.drop_eq_nil_iff_le.mp hcon
    omega
  cases hpd : pat.drop (i - k) with
  | nil => exact absurd hpd hpatne
  | cons c cs =>
    have : charAt t i = c := by
      unfold charAt
      rw [hdrop, hsplit, hpd]
      rfl
    rw [this]
    have : c ∈ pat.drop (i - k) := by
      rw [hpd]
      exact List.mem_cons_self _ _
    exact List.mem_of_mem_drop this

theorem sepMatchAt_region (lead dollar : Bool) (lit t : Str) (p r : Nat)
    (h : sepMatchAt lead dollar lit t p = some r) :
    ∀ i, p ≤ i → i < r → isWs (charAt t i) = true ∨ charAt t i ∈ lit := by
  have hcore : ∀ (k : Nat), p ≤ k →
      (∀ j, p ≤ j → j < k → isWs (charAt t j) = true) →
      occursAt lit t k = true →
      (if dollar then lastDollar t (k + lit.length)
          (wsRunEnd t (k + lit.length))
        else some (wsRunEnd t (k + lit.length))) = some r →
      ∀ i, p ≤ i → i < r → isWs (charAt t i) = true ∨ charAt t i ∈ lit := by
    intro k hpk hws hocc hres i hpi hir
    have hr_le : r ≤ wsRunEnd t (k + lit.length) := by
      cases dollar with
      | false =>
        rw [if_neg Bool.false_ne_true] at hres
        have h2 : wsRunEnd t (k + lit.length) = r := by simpa using hres
        omega
      | true =>
        rw [if_pos rfl] at hres
        unfold lastDollar at hres
        exact lastDollarGo_le t (k + lit.length) _ _ r hres
    by_cases h1 : i < k
    · exact Or.inl (hws i hpi h1)
    · by_cases h2 : i < k + lit.length
      · exact Or.inr (occursAt_char_at lit t k hocc i (by omega) h2)
      · exact Or.inl (wsRunEnd_ws t (k + lit.length) i (by omega) (by omega))
  intro i hpi hir
  unfold sepMatchAt at h
  by_cases hls : lineStart t p = true
  · rw [if_pos hls] at h
    dsimp only at h
    cases lead with
    | false =>
      rw [if_neg Bool.false_ne_true] at h
      by_cases hocc : occursAt lit t p = true
      · rw [if_pos hocc] at h
        exact hcore p (Nat.le_refl p)
          (fun j hj hjk => absurd hjk (by omega)) hocc h i hpi hir
      · rw [if_neg hocc] at h
        cases h
    | true =>
      rw [if_pos rfl] at h
      by_cases hocc : occursAt lit t (wsRunEnd t p) = true
      · rw [if_pos hocc] at h
        exact hcore (wsRunEnd t p) (wsRunEndGo_ge t _ p)
          (fun j hj hjk => wsRunEnd_ws t p j hj hjk) hocc h i hpi hir
      · rw [if_neg hocc] at h
        cases h
  · rw [if_neg hls] at h
    cases h

theorem blank_slice_ws (t : Str) (a b : Nat)
    (h : (strip (slice t a b)).isEmpty = true) :
    ∀ i, a ≤ i → i < b → i < t.length → isWs (charAt t i) = true := by
  intro i hai hib hit
  have hnil : strip (slice t a b) = [] := by
    cases hx : strip (slice t a b) with
    | nil => rfl
    | cons c cs => rw [hx] at h; cases h
  have hall := (strip_nil_iff _).mp hnil
  have hmem : charAt t i ∈ slice t a b := by
    have h1 : (slice t a b)[i - a]? = some (charAt t i) := by
      show ((t.take b).drop a)[i - a]? = _
      rw [List.getElem?_drop]
      rw [show a + (i - a) = i from by omega]
      rw [List.getElem?_take_of_lt hib]
      rw [List.getElem?_eq_getElem hit]
      rw [charAt_eq_getElem t i hit]
    exact List.getElem?_mem h1
  exact List.all_eq_true.mp hall _ hmem

theorem blank_sliceFrom_ws (t : Str) (a : Nat)
    (h : (strip (sliceFrom t a)).isEmpty = true) :
    ∀ i, a ≤ i → i < t.length → isWs (charAt t i) = true := by
  intro i hai hit
  have hnil : strip (sliceFrom t a) = [] := by
    cases hx : strip (sliceFrom t a) with
    | nil => rfl
    | cons c cs => rw [hx] at h; cases h
  have hall := (strip_nil_iff _).mp hnil
  have hmem : charAt t i ∈ sliceFrom t a := by
    have h1 : (sliceFrom t a)[i - a]? = some (charAt t i) := by
      show (t.drop a)[i - a]? = _
      rw [List.getElem?_drop]
      rw [show a + (i - a) = i from by omega]
      rw [List.getElem?_eq_getElem hit]
      rw [charAt_eq_getElem t i hit]
    exact List.getElem?_mem h1
  exact List.all_eq_true.mp hall _ hmem

theorem buildLinksGo_nil_cover (t : Str) : ∀ (bs : List Boundary)
    (acc : List ChainLink) (prevEnd : Nat) (relNext : String),
    buildLinksGo t acc prevEnd relNext bs = [] →
    acc = [] ∧ ∀ i, prevEnd ≤ i → i < t.length →
      isWs (charAt t i) = true ∨ ∃ b ∈ bs, b.start ≤ i ∧ i < b.stop := by
  intro bs
  induction bs with
  | nil =>
    intro acc prevEnd relNext h
    have h2 : (if (strip (sliceFrom t prevEnd)).isEmpty then acc
      else acc ++ [⟨strip (sliceFrom t prevEnd), relNext,
        acc.length⟩]) = [] := h
    by_cases hb : (strip (sliceFrom t prevEnd)).isEmpty
    · rw [if_pos hb] at h2
      exact ⟨h2, fun i hpi hit =>
        Or.inl (blank_sliceFrom_ws t prevEnd hb i hpi hit)⟩
    · rw [if_neg hb] at h2
      simp at h2
  | cons b bs ih =>
    intro acc prevEnd relNext h
    have hstep : buildLinksGo t acc prevEnd relNext (b :: bs) =
        buildLinksGo t
          (if (strip (slice t prevEnd b.start)).isEmpty then acc
            else acc ++ [⟨strip (slice t prevEnd b.start), relNext,
              acc.length⟩]) b.stop b.rel bs := rfl
    rw [hstep] at h
    obtain ⟨hacc2, hcov⟩ := ih _ b.stop b.rel h
    by_cases hb : (strip (slice t prevEnd b.start)).isEmpty
    · rw [if_pos hb] at hacc2
      refine ⟨hacc2, fun i hpi hit => ?_⟩
      by_cases h1 : i < b.start
      · exact Or.inl (blank_slice_ws t prevEnd b.start hb i hpi h1 hit)
      · by_cases h2 : i < b.stop
        · exact Or.inr ⟨b, List.mem_cons_self _ _, by omega, h2⟩
        · rcases hcov i (by omega) hit with hws | ⟨b2, hb2, hr⟩
          · exact Or.inl hws
          · exact Or.inr ⟨b2, List.mem_cons_of_mem _ hb2, hr⟩
    · rw [if_neg hb] at hacc2
      simp at hacc2

theorem parseCaused_nil_cover (t : Str) : ∀ (bs : List Boundary)
    (acc : List ChainLink) (n prevEnd : Nat),
    parseCausedGo acc n (splitPartsGo t prevEnd bs) = [] →
    acc = [] ∧ ∀ i, prevEnd ≤ i → i < t.length →
      isWs (charAt t i) = true ∨ ∃ b ∈ bs, b.start ≤ i ∧ i < b.stop := by
  intro bs
  induction bs with
  | nil =>
    intro acc n prevEnd h
    have h2 : (if (strip (sliceFrom t prevEnd)).isEmpty then acc
      else acc ++ [⟨strip (sliceFrom t prevEnd),
        if n == 0 then "root" else "caused_by", acc.length⟩]) = [] := h
    by_cases hb : (strip (sliceFrom t prevEnd)).isEmpty
    · rw [if_pos hb] at h2
      exact ⟨h2, fun i hpi hit =>
        Or.inl (blank_sliceFrom_ws t prevEnd hb i hpi hit)⟩
    · rw [if_neg hb] at h2
      simp at h2
  | cons b bs ih =>
    intro acc n prevEnd h
    have hstep : parseCausedGo acc n (splitPartsGo t prevEnd (b :: bs)) =
        if (strip (slice t prevEnd b.start)).isEmpty then
          parseCausedGo acc (n + 1) (splitPartsGo t b.stop bs)
        else
          parseCausedGo (acc ++ [⟨strip (slice t prevEnd b.start),
            if n == 0 then "root" else "caused_by", acc.length⟩])
            (n + 1) (splitPartsGo t b.stop bs) := rfl
    rw [hstep] at h
    by_cases hb : (strip (slice t prevEnd b.start)).isEmpty
    · rw [if_pos hb] at h
      obtain ⟨hacc2, hcov⟩ := ih acc (n + 1) b.stop h
      refine ⟨hacc2, fun i hpi hit => ?_⟩
      by_cases h1 : i < b.start
      · exact Or.inl (blank_slice_ws t prevEnd b.start hb i hpi h1 hit)
      · by_cases h2 : i < b.stop
        · exact Or.inr ⟨b, List.mem_cons_self _ _, by omega, h2⟩
        · rcases hcov i (by omega) hit with hws | ⟨b2, hb2, hr⟩
          · exact Or.inl hws
          · exact Or.inr ⟨b2, List.mem_cons_of_mem _ hb2, hr⟩
    · rw [if_neg hb] at h
      obtain ⟨hacc2, _⟩ := ih _ (n + 1) b.stop h
      simp at hacc2


theorem pyfold_mem (l : List (String × Nat)) : ∀ (p0 : String × Nat),
    (l.foldl (fun best cur => if cur.2 > best.2 then cur else best) p0) ∈
      p0 :: l := by
  induction l with
  | nil => intro p0; exact List.mem_cons_self _ _
  | cons q l ih =>
    intro p0
    show (l.foldl (fun best cur => if cur.2 > best.2 then cur else best)
      (if q.2 > p0.2 then q else p0)) ∈ p0 :: q :: l
    have hm := ih (if q.2 > p0.2 then q else p0)
    rcases List.mem_cons.mp hm with heq | hmem
    · rw [heq]
      by_cases hq : q.2 > p0.2
      · rw [if_pos hq]
        exact List.mem_cons_of_mem _ (List.mem_cons_self _ _)
      · rw [if_neg hq]
        exact List.mem_cons_self _ _
    · exact List.mem_cons_of_mem _ (List.mem_cons_of_mem _ hmem)

theorem detect_mem (t : Str) (lang : String)
    (h : detect_language t = lang) (hne : lang ≠ "unknown") :
    ∃ e ∈ LANGUAGE_SIGNATURES, e.1 = lang ∧
      0 < e.2.countP (fun s => s t) := by
  unfold detect_language at h
  cases hfl : ((LANGUAGE_SIGNATURES.map fun ls =>
      (ls.1, ls.2.countP fun s => s t)).filter fun p =>
        decide (0 < p.2)) with
  | nil =>
    rw [hfl] at h
    exact absurd h.symm hne
  | cons p ps =>
    rw [hfl] at h
    have h2 : (ps.foldl (fun best cur => if cur.2 > best.2 then cur
      else best) p).1 = lang := h
    have hmem2 : (ps.foldl (fun best cur => if cur.2 > best.2 then cur
        else best) p) ∈ ((LANGUAGE_SIGNATURES.map fun ls =>
          (ls.1, ls.2.countP fun s => s t)).filter fun p =>
            decide (0 < p.2)) := by
      rw [hfl]
      exact pyfold_mem ps p
    obtain ⟨hmap, hpos⟩ := List.mem_filter.mp hmem2
    obtain ⟨e, he, hfe⟩ := List.mem_map.mp hmap
    refine ⟨e, he, ?_, ?_⟩
    · rw [← h2, ← hfe]
    · have h3 : 0 < (ps.foldl (fun best cur => if cur.2 > best.2 then cur
        else best) p).2 := by simpa using hpos
      rw [← hfe] at h3
      exact h3

theorem detect_python_sig (t : Str) (h : detect_language t = "python") :
    sigPyTraceback t = true ∨ sigPyFileLine t = true := by
  obtain ⟨e, he, h1, h2⟩ := detect_mem t "python" h (by decide)
  simp only [LANGUAGE_SIGNATURES, List.mem_cons, List.not_mem_nil,
    or_false] at he
  rcases he with rfl | rfl | rfl | rfl | rfl | rfl
  · by_cases ha : sigPyTraceback t = true
    · exact Or.inl ha
    · by_cases hb : sigPyFileLine t = true
      · exact Or.inr hb
      · exfalso
        have ha2 : sigPyTraceback t = false := by simpa using ha
        have hb2 : sigPyFileLine t = false := by simpa using hb
        simp [List.countP_cons, ha2, hb2] at h2
  · exact absurd h1 (by decide)
  · exact absurd h1 (by decide)
  · exact absurd h1 (by decide)
  · exact absurd h1 (by decide)
  · exact absurd h1 (by decide)

theorem detect_node_sig (t : Str) (h : detect_language t = "node") :
    sigNodeAtParen t = true ∨ sigNodeAtBare t = true ∨
      sigNodeErrorAt t = true := by
  obtain ⟨e, he, h1, h2⟩ := detect_mem t "node" h (by decide)
  simp only [LANGUAGE_SIGNATURES, List.mem_cons, List.not_mem_nil,
    or_false] at he
  rcases he with rfl | rfl | rfl | rfl | rfl | rfl
  · exact absurd h1 (by decide)
  · by_cases ha : sigNodeAtParen t = true
    · exact Or.inl ha
    · by_cases hb : sigNodeAtBare t = true
      · exact Or.inr (Or.inl hb)
      · by_cases hc : sigNodeErrorAt t = true
        · exact Or.inr (Or.inr hc)
        · exfalso
          have ha2 : sigNodeAtParen t = false := by simpa using ha
          have hb2 : sigNodeAtBare t = false := by simpa using hb
          have hc2 : sigNodeErrorAt t = false := by simpa using hc
          simp [List.countP_cons, ha2, hb2, hc2] at h2
  · exact absurd h1 (by decide)
  · exact absurd h1 (by decide)
  · exact absurd h1 (by decide)
  · exact absurd h1 (by decide)

theorem detect_rust_sig (t : Str) (h : detect_language t = "rust") :
    sigRustPanicked t = true ∨ sigRustRsLine t = true ∨
      sigRustBacktrace t = true := by
  obtain ⟨e, he, h1, h2⟩ := detect_mem t "rust" h (by decide)
  simp only [LANGUAGE_SIGNATURES, List.mem_cons, List.not_mem_nil,
    or_false] at he
  rcases he with rfl | rfl | rfl | rfl | rfl | rfl
  · exact absurd h1 (by decide)
  · exact absurd h1 (by decide)
  · by_cases ha : sigRustPanicked t = true
    · exact Or.inl ha
    · by_cases hb : sigRustRsLine t = true
      · exact Or.inr (Or.inl hb)
      · by_cases hc : sigRustBacktrace t = true
        · exact Or.inr (Or.inr hc)
        · exfalso
          have ha2 : sigRustPanicked t = false := by simpa using ha
          have hb2 : sigRustRsLine t = false := by simpa using hb
          have hc2 : sigRustBacktrace t = false := by simpa using hc
          simp [List.countP_cons, ha2, hb2, hc2] at h2
  · exact absurd h1 (by decide)
  · exact absurd h1 (by decide)
  · exact absurd h1 (by decide)

theorem containsSub_char_mem (pat t : Str) (h : containsSub pat t = true) :
    ∀ c ∈ pat, c ∈ t := by
  unfold containsSub at h
  obtain ⟨p, _, hp⟩ := List.any_eq_true.mp h
  exact occursAt_char_mem pat t p hp

theorem digitRunEndGo_digit (t : Str) (fuel p : Nat)
    (h : p < digitRunEndGo t fuel p) : ∃ c ∈ t, isDigitC c = true := by
  cases fuel with
  | zero => exact absurd h (by show ¬ p < p; omega)
  | succ fuel =>
    rw [digitRunEndGo.eq_def] at h
    dsimp only at h
    cases hd : t.drop p with
    | nil =>
      rw [hd] at h
      dsimp only at h
      exact absurd h (by omega)
    | cons c cs =>
      rw [hd] at h
      dsimp only at h
      by_cases hdg : isDigitC c = true
      · refine ⟨c, ?_, hdg⟩
        exact List.mem_of_mem_drop (by rw [hd]; exact List.mem_cons_self _ _)
      · rw [if_neg hdg] at h
        exact absurd h (by omega)

theorem digitRunEnd_digit (t : Str) (p : Nat)
    (h : p < digitRunEnd t p) : ∃ c ∈ t, isDigitC c = true :=
  digitRunEndGo_digit t _ p h

theorem sigPyFileLine_quote (t : Str) (h : sigPyFileLine t = true) :
    ('"' : Char) ∈ t := by
  unfold sigPyFileLine at h
  obtain ⟨p, _, hp⟩ := List.any_eq_true.mp h
  simp only [Bool.and_eq_true] at hp
  exact occursAt_char_mem _ t p hp.1 '"' (by decide)

theorem sigNodeAtParen_paren (t : Str) (h : sigNodeAtParen t = true) :
    ('(' : Char) ∈ t := by
  unfold sigNodeAtParen at h
  obtain ⟨p, _, hp⟩ := List.any_eq_true.mp h
  simp only [Bool.and_eq_true] at hp
  obtain ⟨w, _, hw⟩ := List.any_eq_true.mp hp.2
  simp only [Bool.and_eq_true] at hw
  obtain ⟨a, _, ha⟩ := List.any_eq_true.mp hw.2
  simp only [Bool.and_eq_true] at ha
  have hpar : charAt t a = '(' := by
    have := ha.1.2
    simpa using this
  rw [← hpar]
  exact charAt_mem_of_ne_nul t a (by rw [hpar]; decide)

theorem sigNodeAtBare_digit (t : Str) (h : sigNodeAtBare t = true) :
    ∃ c ∈ t, isDigitC c = true := by
  unfold sigNodeAtBare at h
  obtain ⟨p, _, hp⟩ := List.any_eq_true.mp h
  simp only [Bool.and_eq_true] at hp
  obtain ⟨w, _, hw⟩ := List.any_eq_true.mp hp.2
  simp only [Bool.and_eq_true] at hw
  obtain ⟨j, _, hj⟩ := List.any_eq_true.mp hw.2
  simp only [Bool.and_eq_true] at hj
  have hlt : j + 1 < digitRunEnd t (j + 1) := by
    have := hj.2.1.1
    simpa using this
  exact digitRunEnd_digit t (j + 1) hlt

theorem sigNodeErrorAt_E (t : Str) (h : sigNodeErrorAt t = true) :
    ('E' : Char) ∈ t := by
  unfold sigNodeErrorAt at h
  obtain ⟨p, _, hp⟩ := List.any_eq_true.mp h
  simp only [Bool.and_eq_true] at hp
  exact occursAt_char_mem _ t p hp.1 'E' (by decide)

theorem sigRustPanicked_k (t : Str) (h : sigRustPanicked t = true) :
    ('k' : Char) ∈ t := by
  unfold sigRustPanicked at h
  obtain ⟨p, _, hp⟩ := List.any_eq_true.mp h
  simp only [Bool.and_eq_true] at hp
  obtain ⟨j, _, hj⟩ := List.any_eq_true.mp hp.2
  simp only [Bool.and_eq_true] at hj
  exact occursAt_char_mem _ t j hj.2 'k' (by decide)

theorem sigRustRsLine_digit (t : Str) (h : sigRustRsLine t = true) :
    ∃ c ∈ t, isDigitC c = true := by
  unfold sigRustRsLine at h
  obtain ⟨p, _, hp⟩ := List.any_eq_true.mp h
  simp only [Bool.and_eq_true] at hp
  have hlt : p + 4 < digitRunEnd t (p + 4) := by
    have := hp.2.1.1
    simpa using this
  exact digitRunEnd_digit t (p + 4) hlt

theorem detect_python_witness (t : Str)
    (h : detect_language t = "python") :
    ∃ c ∈ t, isWs c = false ∧ ¬c ∈ PY_DIRECT_CAUSE_LIT ∧
      ¬c ∈ PY_IMPLICIT_CONTEXT_LIT := by
  rcases detect_python_sig t h with hs | hs
  · have hk : ('k' : Char) ∈ t :=
      containsSub_char_mem _ t hs 'k' (by decide)
    exact ⟨'k', hk, by decide, by decide, by decide⟩
  · have hq : ('"' : Char) ∈ t := sigPyFileLine_quote t hs
    exact ⟨'"', hq, by decide, by decide, by decide⟩

theorem detect_node_witness (t : Str) (h : detect_language t = "node") :
    ∃ c ∈ t, isWs c = false ∧ ¬c ∈ CAUSED_BY_LIT := by
  rcases detect_node_sig t h with hs | hs | hs
  · exact ⟨'(', sigNodeAtParen_paren t hs, by decide, by decide⟩
  · obtain ⟨c, hc, hdg⟩ := sigNodeAtBare_digit t hs
    refine ⟨c, hc, ?_, ?_⟩
    · cases hw : isWs c with
      | false => rfl
      | true => rw [ws_not_digit c hw] at hdg; cases hdg
    · intro hmem
      have hnd : ∀ d ∈ CAUSED_BY_LIT, isDigitC d = false := by decide
      rw [hnd c hmem] at hdg
      cases hdg
  · exact ⟨'E', sigNodeErrorAt_E t hs, by decide, by decide⟩

theorem detect_rust_witness (t : Str) (h : detect_language t = "rust") :
    ∃ c ∈ t, isWs c = false ∧ ¬c ∈ CAUSED_BY_LIT := by
  rcases detect_rust_sig t h with hs | hs | hs
  · exact ⟨'k', sigRustPanicked_k t hs, by decide, by decide⟩
  · obtain ⟨c, hc, hdg⟩ := sigRustRsLine_digit t hs
    refine ⟨c, hc, ?_, ?_⟩
    · cases hw : isWs c with
      | false => rfl
      | true => rw [ws_not_digit c hw] at hdg; cases hdg
    · intro hmem
      have hnd : ∀ d ∈ CAUSED_BY_LIT, isDigitC d = false := by decide
      rw [hnd c hmem] at hdg
      cases hdg
  · have hk : ('k' : Char) ∈ t :=
      containsSub_char_mem _ t hs 'k' (by decide)
    exact ⟨'k', hk, by decide, by decide⟩


theorem parsePythonChain_ne_nil (t : Str)
    (h : detect_language t = "python") : parsePythonChain t ≠ [] := by
  intro hcon
  cases hB : pyChainBoundaries t with
  | nil =>
    rw [parsePythonChain_nil t hB] at hcon
    simp at hcon
  | cons b0 bs =>
    rw [parsePythonChain_cons t b0 bs hB] at hcon
    obtain ⟨-, hcov⟩ := buildLinksGo_nil_cover t (b0 :: bs) [] 0 "root" hcon
    obtain ⟨c, hc, hcws, hc1, hc2⟩ := detect_python_witness t h
    obtain ⟨i, hit, hci⟩ := mem_exists_charAt t c hc
    rcases hcov i (Nat.zero_le i) hit with hws | ⟨b, hbmem, hbi1, hbi2⟩
    · rw [hci, hcws] at hws
      cases hws
    · have hbmem2 : b ∈ pyChainBoundaries t := by rw [hB]; exact hbmem
      rcases pyChainBoundaries_mem t b hbmem2 with ⟨-, hsm⟩ | ⟨-, hsm⟩
      · rcases sepMatchAt_region true true PY_DIRECT_CAUSE_LIT t b.start
          b.stop hsm i hbi1 hbi2 with hws | hlit
        · rw [hci, hcws] at hws
          cases hws
        · rw [hci] at hlit
          exact hc1 hlit
      · rcases sepMatchAt_region true true PY_IMPLICIT_CONTEXT_LIT t b.start
          b.stop hsm i hbi1 hbi2 with hws | hlit
        · rw [hci, hcws] at hws
          cases hws
        · rw [hci] at hlit
          exact hc2 hlit

theorem parseNodeChain_ne_nil (t : Str)
    (h : detect_language t = "node") : parseNodeChain t ≠ [] := by
  intro hcon
  cases hB : nodeCausedBySeps t with
  | nil =>
    rw [parseNodeChain_nil t hB] at hcon
    simp at hcon
  | cons b0 bs =>
    rw [parseNodeChain_cons t b0 bs hB] at hcon
    obtain ⟨-, hcov⟩ := parseCaused_nil_cover t (b0 :: bs) [] 0 0 hcon
    obtain ⟨c, hc, hcws, hc1⟩ := detect_node_witness t h
    obtain ⟨i, hit, hci⟩ := mem_exists_charAt t c hc
    rcases hcov i (Nat.zero_le i) hit with hws | ⟨b, hbmem, hbi1, hbi2⟩
    · rw [hci, hcws] at hws
      cases hws
    · have hbmem2 : b ∈ nodeCausedBySeps t := by rw [hB]; exact hbmem
      obtain ⟨-, hsm⟩ := finditerSep_mem false false CAUSED_BY_LIT
        "caused_by" t b hbmem2
      rcases sepMatchAt_region false false CAUSED_BY_LIT t b.start b.stop
        hsm i hbi1 hbi2 with hws | hlit
      · rw [hci, hcws] at hws
        cases hws
      · rw [hci] at hlit
        exact hc1 hlit

theorem parseRustChain_ne_nil (t : Str)
    (h : detect_language t = "rust") : parseRustChain t ≠ [] := by
  intro hcon
  cases hB : rustCausedBySeps t with
  | nil =>
    rw [parseRustChain_nil t hB] at hcon
    simp at hcon
  | cons b0 bs =>
    rw [parseRustChain_cons t b0 bs hB] at hcon
    obtain ⟨-, hcov⟩ := parseCaused_nil_cover t (b0 :: bs) [] 0 0 hcon
    obtain ⟨c, hc, hcws, hc1⟩ := detect_rust_witness t h
    obtain ⟨i, hit, hci⟩ := mem_exists_charAt t c hc
    rcases hcov i (Nat.zero_le i) hit with hws | ⟨b, hbmem, hbi1, hbi2⟩
    · rw [hci, hcws] at hws
      cases hws
    · have hbmem2 : b ∈ rustCausedBySeps t := by rw [hB]; exact hbmem
      obtain ⟨-, hsm⟩ := finditerSep_mem false true CAUSED_BY_LIT
        "caused_by" t b hbmem2
      rcases sepMatchAt_region false true CAUSED_BY_LIT t b.start b.stop
        hsm i hbi1 hbi2 with hws | hlit
      · rw [hci, hcws] at hws
        cases hws
      · rw [hci] at hlit
        exact hc1 hlit

theorem idxOk_nil : idxOk [] := by
  intro i x h
  simp at h

theorem idxOk_append_one (acc : List ChainLink) (x : ChainLink)
    (h : idxOk acc) (hx : x.index = acc.length) : idxOk (acc ++ [x]) := by
  intro i y hy
  rw [List.getElem?_append] at hy
  by_cases h1 : i < acc.length
  · rw [if_pos h1] at hy
    exact h i y hy
  · rw [if_neg h1] at hy
    by_cases h2 : i = acc.length
    · subst h2
      rw [Nat.sub_self] at hy
      have hxy : x = y := by simpa using hy
      rw [← hxy, hx]
    · exfalso
      have h3 : 1 ≤ i - acc.length := by omega
      rw [List.getElem?_eq_none (by simpa using h3)] at hy
      cases hy

theorem buildLinksGo_idx (t : Str) : ∀ (bs : List Boundary)
    (acc : List ChainLink) (prevEnd : Nat) (relNext : String),
    idxOk acc → idxOk (buildLinksGo t acc prevEnd relNext bs) := by
  intro bs
  induction bs with
  | nil =>
    intro acc prevEnd relNext hacc
    show idxOk (if (strip (sliceFrom t prevEnd)).isEmpty then acc
      else acc ++ [⟨strip (sliceFrom t prevEnd), relNext, acc.length⟩])
    by_cases hb : (strip (sliceFrom t prevEnd)).isEmpty
    · rw [if_pos hb]
      exact hacc
    · rw [if_neg hb]
      exact idxOk_append_one acc _ hacc rfl
  | cons b bs ih =>
    intro acc prevEnd relNext hacc
    show idxOk (buildLinksGo t
      (if (strip (slice t prevEnd b.start)).isEmpty then acc
        else acc ++ [⟨strip (slice t prevEnd b.start), relNext,
          acc.length⟩]) b.stop b.rel bs)
    by_cases hb : (strip (slice t prevEnd b.start)).isEmpty
    · rw [if_pos hb]
      exact ih acc b.stop b.rel hacc
    · rw [if_neg hb]
      exact ih _ b.stop b.rel (idxOk_append_one acc _ hacc rfl)

theorem parseCausedGo_idx : ∀ (parts : List Str) (acc : List ChainLink)
    (n : Nat), idxOk acc → idxOk (parseCausedGo acc n parts) := by
  intro parts
  induction parts with
  | nil => intro acc n hacc; exact hacc
  | cons part parts ih =>
    intro acc n hacc
    show idxOk (if (strip part).isEmpty then parseCausedGo acc (n + 1) parts
      else parseCausedGo (acc ++ [⟨strip part,
        if n == 0 then "root" else "caused_by", acc.length⟩]) (n + 1) parts)
    by_cases hb : (strip part).isEmpty
    · rw [if_pos hb]
      exact ih acc (n + 1) hacc
    · rw [if_neg hb]
      exact ih _ (n + 1) (idxOk_append_one acc _ hacc rfl)

theorem buildLinksGo_mem_text (t : Str) : ∀ (bs : List Boundary)
    (acc : List ChainLink) (prevEnd : Nat) (relNext : String),
    ∀ l ∈ buildLinksGo t acc prevEnd relNext bs, l ∈ acc ∨
      ((∃ s, l.traceback_text = strip s) ∧
        l.traceback_text.isEmpty = false) := by
  intro bs
  induction bs with
  | nil =>
    intro acc prevEnd relNext l hl
    have hl2 : l ∈ (if (strip (sliceFrom t prevEnd)).isEmpty then acc
      else acc ++ [⟨strip (sliceFrom t prevEnd), relNext,
        acc.length⟩]) := hl
    by_cases hb : (strip (sliceFrom t prevEnd)).isEmpty
    · rw [if_pos hb] at hl2
      exact Or.inl hl2
    · rw [if_neg hb] at hl2
      rcases List.mem_append.mp hl2 with h1 | h1
      · exact Or.inl h1
      · rcases List.mem_singleton.mp h1 with rfl
        exact Or.inr ⟨⟨sliceFrom t prevEnd, rfl⟩, by simpa using hb⟩
  | cons b bs ih =>
    intro acc prevEnd relNext l hl
    have hl2 : l ∈ buildLinksGo t
        (if (strip (slice t prevEnd b.start)).isEmpty then acc
          else acc ++ [⟨strip (slice t prevEnd b.start), relNext,
            acc.length⟩]) b.stop b.rel bs := hl
    rcases ih _ b.stop b.rel l hl2 with hmem | hgood
    · by_cases hb : (strip (slice t prevEnd b.start)).isEmpty
      · rw [if_pos hb] at hmem
        exact Or.inl hmem
      · rw [if_neg hb] at hmem
        rcases List.mem_append.mp hmem with h1 | h1
        · exact Or.inl h1
        · rcases List.mem_singleton.mp h1 with rfl
          exact Or.inr ⟨⟨slice t prevEnd b.start, rfl⟩, by simpa using hb⟩
    · exact Or.inr hgood

theorem parseCausedGo_mem_text : ∀ (parts : List Str)
    (acc : List ChainLink) (n : Nat),
    ∀ l ∈ parseCausedGo acc n parts, l ∈ acc ∨
      ((∃ s, l.traceback_text = strip s) ∧
        l.traceback_text.isEmpty = false) := by
  intro parts
  induction parts with
  | nil => intro acc n l hl; exact Or.inl hl
  | cons part parts ih =>
    intro acc n l hl
    have hl2 : l ∈ (if (strip part).isEmpty then
        parseCausedGo acc (n + 1) parts
      else parseCausedGo (acc ++ [⟨strip part,
        if n == 0 then "root" else "caused_by", acc.length⟩])
        (n + 1) parts) := hl
    by_cases hb : (strip part).isEmpty
    · rw [if_pos hb] at hl2
      exact ih acc (n + 1) l hl2
    · rw [if_neg hb] at hl2
      rcases ih _ (n + 1) l hl2 with hmem | hgood
      · rcases List.mem_append.mp hmem with h1 | h1
        · exact Or.inl h1
        · rcases List.mem_singleton.mp h1 with rfl
          exact Or.inr ⟨⟨part, rfl⟩, by simpa using hb⟩
      · exact Or.inr hgood


/-- C10 counterexample: on the empty trace, `parse_exception_chain` returns
a single root link whose `traceback_text` is the empty string — the links
list is non-empty, but the text is not. -/
theorem c10_counterexample :
    (parse_exception_chain []).links = [⟨[], "root", 0⟩] := by decide

/-- C10 (amended): for every trace, in every language branch, the links
list of `parse_exception_chain` is non-empty, every link's `index` field
equals its position in the list (hence consecutive from 0), and every
link's `traceback_text` is whitespace-stripped; the texts are moreover
non-empty whenever the trace itself is not pure whitespace — on a blank
trace the single root link carries an empty text (see the
counterexample). -/
theorem c10_chain_link_invariants (t : Str) :
    (parse_exception_chain t).links ≠ [] ∧
      (∀ (i : Nat) (l : ChainLink),
        (parse_exception_chain t).links[i]? = some l → l.index = i) ∧
      (∀ l ∈ (parse_exception_chain t).links,
        strip l.traceback_text = l.traceback_text) ∧
      ((strip t).isEmpty = false →
        ∀ l ∈ (parse_exception_chain t).links, l.traceback_text ≠ []) := by
  have hsingle :
      ([(⟨strip t, "root", 0⟩ : ChainLink)] ≠ [] ∧
        (∀ (i : Nat) (l : ChainLink),
          [(⟨strip t, "root", 0⟩ : ChainLink)][i]? = some l →
            l.index = i) ∧
        (∀ l ∈ [(⟨strip t, "root", 0⟩ : ChainLink)],
          strip l.traceback_text = l.traceback_text) ∧
        ((strip t).isEmpty = false →
          ∀ l ∈ [(⟨strip t, "root", 0⟩ : ChainLink)],
            l.traceback_text ≠ [])) := by
    refine ⟨by simp, ?_, ?_, ?_⟩
    · intro i l hl
      cases i with
      | zero =>
        have hx : (⟨strip t, "root", 0⟩ : ChainLink) = l := by simpa using hl
        rw [← hx]
      | succ j => simp at hl
    · intro l hl
      rcases List.mem_singleton.mp hl with rfl
      exact strip_idem t
    · intro hst l hl
      rcases List.mem_singleton.mp hl with rfl
      show strip t ≠ []
      intro hcon
      rw [hcon] at hst
      simp at hst
  by_cases hpy : detect_language t = "python"
  · rw [pec_links_python t hpy]
    cases hB : pyChainBoundaries t with
    | nil =>
      rw [parsePythonChain_nil t hB]
      exact hsingle
    | cons b0 bs =>
      refine ⟨?_, ?_, ?_, ?_⟩
      · exact parsePythonChain_ne_nil t hpy
      · rw [parsePythonChain_cons t b0 bs hB]
        exact buildLinksGo_idx t (b0 :: bs) [] 0 "root" idxOk_nil
      · rw [parsePythonChain_cons t b0 bs hB]
        intro l hl
        rcases buildLinksGo_mem_text t (b0 :: bs) [] 0 "root" l hl with
          hmem | ⟨⟨s, hs⟩, -⟩
        · simp at hmem
        · rw [hs]
          exact strip_idem s
      · rw [parsePythonChain_cons t b0 bs hB]
        intro _ l hl
        rcases buildLinksGo_mem_text t (b0 :: bs) [] 0 "root" l hl with
          hmem | ⟨-, hne⟩
        · simp at hmem
        · intro hcon
          rw [hcon] at hne
          simp at hne
  · by_cases hnode : detect_language t = "node"
    · rw [pec_links_node t hpy hnode]
      cases hB : nodeCausedBySeps t with
      | nil =>
        rw [parseNodeChain_nil t hB]
        exact hsingle
      | cons b0 bs =>
        refine ⟨?_, ?_, ?_, ?_⟩
        · exact parseNodeChain_ne_nil t hnode
        · rw [parseNodeChain_cons t b0 bs hB]
          exact parseCausedGo_idx _ [] 0 idxOk_nil
        · rw [parseNodeChain_cons t b0 bs hB]
          intro l hl
          rcases parseCausedGo_mem_text _ [] 0 l hl with
            hmem | ⟨⟨s, hs⟩, -⟩
          · simp at hmem
          · rw [hs]
            exact strip_idem s
        · rw [parseNodeChain_cons t b0 bs hB]
          intro _ l hl
          rcases parseCausedGo_mem_text _ [] 0 l hl with hmem | ⟨-, hne⟩
          · simp at hmem
          · intro hcon
            rw [hcon] at hne
            simp at hne
    · by_cases hrust : detect_language t = "rust"
      · rw [pec_links_rust t hpy hnode hrust]
        cases hB : rustCausedBySeps t with
        | nil =>
          rw [parseRustChain_nil t hB]
          exact hsingle
        | cons b0 bs =>
          refine ⟨?_, ?_, ?_, ?_⟩
          · exact parseRustChain_ne_nil t hrust
          · rw [parseRustChain_cons t b0 bs hB]
            exact parseCausedGo_idx _ [] 0 idxOk_nil
          · rw [parseRustChain_cons t b0 bs hB]
            intro l hl
            rcases parseCausedGo_mem_text _ [] 0 l hl with
              hmem | ⟨⟨s, hs⟩, -⟩
            · simp at hmem
            · rw [hs]
              exact strip_idem s
          · rw [parseRustChain_cons t b0 bs hB]
            intro _ l hl
            rcases parseCausedGo_mem_text _ [] 0 l hl with hmem | ⟨-, hne⟩
            · simp at hmem
            · intro hcon
              rw [hcon] at hne
              simp at hne
      · rw [pec_links_other t hpy hnode hrust]
        exact hsingle


end RailDebug
